import Mathlib

/-!
# Tractatus-Eval: verification of the generator/solver/validator pipeline

Shallow embedding of the core algorithms of the `tractatus-eval` dataset
generators (`src/scripts/generate_spatial_eval.py`,
`generate_keylock_eval.py`, `generate_container_eval.py`) together with
proofs and refutations of the specification claims.

Modelling conventions:
* Python `int` is embedded as `ℤ` (coordinates, volumes) or `ℕ` (counts).
* Python `set`/`dict` are embedded as `List`/association lists; membership
  tests coincide with Python's, and elements are appended exactly where the
  Python code inserts them.
* Python's pseudo-random draws are not re-implemented: every randomly drawn
  value (sampled scenario, random candidate, shuffle permutation) becomes an
  explicit input of the embedded function, universally quantified in the
  theorems (so the theorems cover every possible draw).
* `heapq` is embedded by its contract: the pop returns an entry that is
  lexicographically minimal in `(f, counter)`; since counters are distinct
  this determines the popped entry uniquely.
-/

namespace Tractatus

/-! ## Spatial generator: grid, physics playback validator

From `src/scripts/generate_spatial_eval.py`. -/

namespace Spatial

/-- A grid coordinate `(row, column)`; Python uses `Tuple[int, int]`. -/
abbrev Coord := ℤ × ℤ

/-- `GRID_SIZE = 5`. -/
def GRID_SIZE : ℕ := 5

/-- `DIRECTIONS = [(-1, 0), (1, 0), (0, -1), (0, 1)]` (up, down, left, right). -/
def DIRECTIONS : List Coord := [(-1, 0), (1, 0), (0, -1), (0, 1)]

/-- `DIR_VECTORS`: direction token → move vector (association list; Python dict). -/
def DIR_VECTORS : List (String × Coord) :=
  [("up", (-1, 0)), ("down", (1, 0)), ("left", (0, -1)), ("right", (0, 1))]

/-- `heuristic(a, b)`: Manhattan distance. -/
def heuristic (a b : Coord) : ℕ := (a.1 - b.1).natAbs + (a.2 - b.2).natAbs

/-- `0 <= c[0] < grid_size and 0 <= c[1] < grid_size`. -/
def inBounds (gs : ℕ) (c : Coord) : Bool :=
  0 ≤ c.1 && c.1 < (gs : ℤ) && 0 ≤ c.2 && c.2 < (gs : ℤ)

/-- `SimulationResult` dataclass from the playback validator. -/
structure SimulationResult where
  reached_goal : Bool
  hit_wall : Bool
  out_of_bounds : Bool
  final_position : Coord
deriving Repr, DecidableEq

/-- Classification of a single playback step from `pos` under token `d`:
the condition cascade of one iteration of the `simulate_path` loop.  An
unknown token is treated as out-of-bounds, exactly as in the source. -/
inductive StepOutcome where
  | ok (next : Coord)
  | oob
  | wall
deriving Repr, DecidableEq

/-- One loop iteration of `simulate_path` at `pos` under token `d`:
resolve the token in `DIR_VECTORS` (missing token ⇒ out-of-bounds), then
check grid bounds, then obstacle collision. -/
def stepOutcome (gs : ℕ) (obstacles : List Coord) (pos : Coord) (d : String) :
    StepOutcome :=
  match (DIR_VECTORS.lookup d : Option Coord) with
  | none => .oob
  | some v =>
    let next_pos : Coord := (pos.1 + v.1, pos.2 + v.2)
    if ¬ inBounds gs next_pos then .oob
    else if next_pos ∈ obstacles then .wall
    else .ok next_pos

/-- The loop of `simulate_path`: walk the direction tokens one by one,
stopping (Python `break`) at the first violation with the corresponding
flag; the agent's position advances only on a fully checked move. -/
def simulateGo (goal : Coord) (obstacles : List Coord) (gs : ℕ) :
    Coord → List String → SimulationResult
  | pos, [] => ⟨pos == goal, false, false, pos⟩
  | pos, d :: rest =>
    match stepOutcome gs obstacles pos d with
    | .ok next_pos => simulateGo goal obstacles gs next_pos rest
    | .oob => ⟨pos == goal, false, true, pos⟩
    | .wall => ⟨pos == goal, true, false, pos⟩

/-- `simulate_path(start, end, obstacles, directions, grid_size)`. -/
def simulate_path (start goal : Coord) (obstacles : List Coord)
    (directions : List String) (gs : ℕ := GRID_SIZE) : SimulationResult :=
  simulateGo goal obstacles gs start directions

/-- `is_path_physically_invalid`: a candidate is kept as a distractor iff its
playback hits a wall, leaves the grid, or fails to reach the goal. -/
def is_path_physically_invalid (start goal : Coord) (obstacles : List Coord)
    (directions : List String) (gs : ℕ := GRID_SIZE) : Bool :=
  let result := simulate_path start goal obstacles directions gs
  if result.hit_wall || result.out_of_bounds then true
  else if ¬ result.reached_goal then true
  else false

/-- A cell the agent may legally occupy: inside the grid and not an obstacle. -/
def legalCell (gs : ℕ) (obstacles : List Coord) (c : Coord) : Prop :=
  inBounds gs c = true ∧ c ∉ obstacles

instance (gs : ℕ) (obstacles : List Coord) (c : Coord) :
    Decidable (legalCell gs obstacles c) := by
  unfold legalCell; infer_instance

/-- The playback carries no violation flag. -/
def noFlags (r : SimulationResult) : Prop :=
  r.hit_wall = false ∧ r.out_of_bounds = false

/-- An entry of the `heapq` open set: `(f_score, counter, current_node,
path)`.  Tuple comparison never reaches the node or the path because
counters are unique, so popping the heap minimum is popping the entry with
the lexicographically least `(f, counter)`. -/
structure AEntry where
  f : ℕ
  c : ℕ
  node : Coord
  path : List Coord
deriving Repr, DecidableEq

/-- `heapq.heappop` by its contract: remove the entry with the least
`(f, counter)` (earliest occurrence on ties, which cannot arise since
counters are unique). -/
def popMin : List AEntry → Option (AEntry × List AEntry)
  | [] => none
  | e :: rest =>
    match popMin rest with
    | none => some (e, [])
    | some (m, rest') =>
      if e.f < m.f ∨ (e.f = m.f ∧ e.c ≤ m.c) then some (e, rest)
      else some (m, e :: rest')

/-- One neighbour push of the A* expansion: bounds, obstacle and visited
checks, then `counter += 1` and
`heappush(open_set, (len(path) + h(neighbor), counter, neighbor,
path + [neighbor]))`. -/
def pushStep (goal : Coord) (obstacles : List Coord) (gs : ℕ)
    (visited : List Coord) (cur : Coord) (path : List Coord)
    (acc : ℕ × List AEntry) (d : Coord) : ℕ × List AEntry :=
  let neighbor : Coord := (cur.1 + d.1, cur.2 + d.2)
  if inBounds gs neighbor = true ∧ neighbor ∉ obstacles ∧ neighbor ∉ visited then
    (acc.1 + 1, acc.2 ++
      [⟨path.length + heuristic neighbor goal, acc.1 + 1, neighbor, path ++ [neighbor]⟩])
  else acc

/-- The A* neighbour expansion over `DIRECTIONS` in source order, threading
the push counter. -/
def expand (goal : Coord) (obstacles : List Coord) (gs : ℕ)
    (visited : List Coord) (counter : ℕ) (cur : Coord) (path : List Coord) :
    ℕ × List AEntry :=
  DIRECTIONS.foldl (pushStep goal obstacles gs visited cur path) (counter, [])

/-- The `a_star` main loop: pop the minimum, return its path on reaching
the goal, skip already-expanded nodes, otherwise mark visited and push the
admissible neighbours.  The Python loop needs no fuel (it terminates
because the visited set grows); `fuel` is set by `a_star` to an upper bound
on the possible number of iterations, proven never to run out. -/
def aStarLoop (goal : Coord) (obstacles : List Coord) (gs : ℕ) :
    ℕ → ℕ → List AEntry → List Coord → Option (List Coord)
  | 0, _, _, _ => none
  | fuel + 1, counter, openSet, visited =>
    match popMin openSet with
    | none => none
    | some (e, rest) =>
      if e.node = goal then some e.path
      else if e.node ∈ visited then aStarLoop goal obstacles gs fuel counter rest visited
      else
        let visited' := e.node :: visited
        let next := expand goal obstacles gs visited' counter e.node e.path
        aStarLoop goal obstacles gs fuel next.1 (rest ++ next.2) visited'

/-- `a_star(start, end, obstacles, grid_size)`. -/
def a_star (start goal : Coord) (obstacles : List Coord)
    (gs : ℕ := GRID_SIZE) : Option (List Coord) :=
  aStarLoop goal obstacles gs (4 * gs * gs + 6) 0
    [⟨heuristic start goal, 0, start, [start]⟩] []

/-- Adjacency of grid cells: one `DIRECTIONS` step apart. -/
def Adjacent (a b : Coord) : Prop :=
  ∃ d ∈ DIRECTIONS, b = (a.1 + d.1, a.2 + d.2)

/-- An obstacle-avoiding, in-bounds path from `start` to `v`, built by
appending unit steps (the shape of the paths `a_star` constructs). -/
inductive PathTo (gs : ℕ) (obstacles : List Coord) (start : Coord) :
    List Coord → Coord → Prop
  | base : legalCell gs obstacles start → PathTo gs obstacles start [start] start
  | step {p : List Coord} {v w : Coord} : PathTo gs obstacles start p v →
      Adjacent v w → legalCell gs obstacles w →
      PathTo gs obstacles start (p ++ [w]) w

/-- `v` is reachable by a path of `n` steps. -/
def ReachN (gs : ℕ) (obstacles : List Coord) (start : Coord) (n : ℕ)
    (v : Coord) : Prop :=
  ∃ p, PathTo gs obstacles start p v ∧ p.length = n + 1

/-- The A* loop invariant: every open entry carries a valid path matching
its f-score; a not-yet-visited start has its initial entry; every edge out
of the visited region into a fresh legal cell is covered by an open entry
whose path is at most one step longer than any path to the visited
endpoint; the goal is never marked visited; and the visited list is a
duplicate-free list of legal cells. -/
def AStarInv (gs : ℕ) (obstacles : List Coord) (start goal : Coord)
    (openS : List AEntry) (visited : List Coord) : Prop :=
  (∀ e ∈ openS, PathTo gs obstacles start e.path e.node ∧
      e.f + 1 = e.path.length + heuristic e.node goal) ∧
  (start ∉ visited → ∃ e ∈ openS, e.node = start ∧ e.path = [start]) ∧
  (∀ u ∈ visited, ∀ w : Coord, Adjacent u w → legalCell gs obstacles w →
      w ∉ visited → ∃ e ∈ openS, e.node = w ∧
        ∀ n, ReachN gs obstacles start n u → e.path.length ≤ n + 2) ∧
  goal ∉ visited ∧
  visited.Nodup ∧ (∀ v ∈ visited, legalCell gs obstacles v)

/-- The finite set of legal cells of the grid. -/
def legalFinset (gs : ℕ) (obstacles : List Coord) : Finset Coord :=
  (Finset.Icc (0 : ℤ) ((gs : ℤ) - 1) ×ˢ Finset.Icc (0 : ℤ) ((gs : ℤ) - 1)).filter
    fun c => c ∉ obstacles

/-- `DIR_NAMES`: move vector → direction token. -/
def DIR_NAMES : List (Coord × String) :=
  [((-1, 0), "up"), ((1, 0), "down"), ((0, -1), "left"), ((0, 1), "right")]

/-- `path_to_directions(path)`: token for each consecutive coordinate step
(`a_star` only produces unit steps, so the `DIR_NAMES` lookup never misses;
a miss would be a Python `KeyError`, embedded as `""`). -/
def path_to_directions : List Coord → List String
  | a :: b :: rest =>
    ((DIR_NAMES.lookup ((b.1 - a.1, b.2 - a.2) : Coord)).getD "") ::
      path_to_directions (b :: rest)
  | _ => []

/-- The `GridScenario` dataclass (solver outputs included). -/
structure GridScenario where
  grid_size : ℕ
  start : Coord
  goal : Coord
  obstacles : List Coord
  shortest_path : List Coord
  path_directions : List String
deriving Repr, DecidableEq

/-- The mutable state of `generate_distractors`: the accepted distractors
(in acceptance order) and the `used` set of already-seen candidates.
Candidate strings `", ".join(dirs)` are identified with their token lists
(the join is injective on lists of direction tokens). -/
structure DistractorState where
  distractors : List (List String)
  used : List (List String)
deriving Repr, DecidableEq

/-- `_try_add(candidate_dirs)`: skip duplicates, then the critical gate —
replay the candidate on the actual grid and silently discard it unless the
playback proves it physically invalid. -/
def tryAdd (sc : GridScenario) (st : DistractorState) (cand : List String) :
    DistractorState :=
  if cand ∈ st.used then st
  else if ¬ is_path_physically_invalid sc.start sc.goal sc.obstacles cand then st
  else ⟨st.distractors ++ [cand], st.used ++ [cand]⟩

/-- Strategy 1 of `generate_distractors`: the straight-line path that
ignores obstacles (vertical leg then horizontal leg). -/
def naiveDirs (start goal : Coord) : List String :=
  List.replicate (goal.1 - start.1).natAbs (if start.1 < goal.1 then "down" else "up") ++
    List.replicate (goal.2 - start.2).natAbs (if start.2 < goal.2 then "right" else "left")

/-- The `opposite` dict of strategy 3 (defined on the four direction tokens,
which are the only tokens `a_star` emits). -/
def opposite : String → String
  | "up" => "down"
  | "down" => "up"
  | "left" => "right"
  | "right" => "left"
  | d => d

/-- A capped `_try_add` loop: Python's
`for _ in range(cap): if len(distractors) >= num: break; _try_add(...)`,
with the randomly generated candidates supplied as an explicit list. -/
def addCapped (sc : GridScenario) (num : ℕ) (st : DistractorState)
    (cands : List (List String)) : DistractorState :=
  cands.foldl (fun st c => if num ≤ st.distractors.length then st else tryAdd sc st c) st

/-- Strategy 1 applied to the running state: try the naive straight-line
path. -/
def gdStage1 (sc : GridScenario) (st : DistractorState) : DistractorState :=
  tryAdd sc st (naiveDirs sc.start sc.goal)

/-- Strategy 2: up to 50 random walks (candidates supplied as `rand2`). -/
def gdStage2 (sc : GridScenario) (num : ℕ) (rand2 : List (List String))
    (st : DistractorState) : DistractorState :=
  addCapped sc num st (rand2.take 50)

/-- Strategy 3: the reversed correct path with each token flipped, tried
only while short of `num` distractors. -/
def gdStage3 (sc : GridScenario) (num : ℕ) (st : DistractorState) :
    DistractorState :=
  if st.distractors.length < num then
    tryAdd sc st (sc.path_directions.reverse.map opposite)
  else st

/-- Strategy 4: up to 20 single-token mutations (candidates supplied as
`rand4`), guarded by `len(correct) >= 2`. -/
def gdStage4 (sc : GridScenario) (num : ℕ) (rand4 : List (List String))
    (st : DistractorState) : DistractorState :=
  if st.distractors.length < num ∧ 2 ≤ sc.path_directions.length then
    addCapped sc num st (rand4.take 20)
  else st

/-- `generate_distractors(scenario, rng, num_distractors)`: the four
strategies in source order starting from the state whose `used` set holds
the correct answer; at most `num` distractors are returned.  `rand2`/`rand4`
are the random candidate sequences drawn by strategies 2 and 4. -/
def generate_distractors (sc : GridScenario) (rand2 rand4 : List (List String))
    (num : ℕ := 3) : List (List String) :=
  if sc.path_directions = [] then []
  else
    (gdStage4 sc num rand4 (gdStage3 sc num (gdStage2 sc num rand2
      (gdStage1 sc ⟨[], [sc.path_directions]⟩)))).distractors.take num

/-- The choice/gold part of an emitted evaluation document. -/
structure EvalDoc where
  choices : List (List String)
  gold : ℕ
deriving Repr, DecidableEq

/-- `scenario_to_eval_doc`: `choices = [correct] + distractors` is enumerated
and shuffled (`answer_pairs` is the post-shuffle pair list, quantified over
all permutations in the theorems); `gold` is the post-shuffle index of the
pair whose original index is 0 and the choice list keeps only the answer
strings.  The spatial generator emits a document unconditionally — there is
no minimum-distractor check here. -/
def scenario_to_eval_doc (answer_pairs : List (ℕ × List String)) : EvalDoc :=
  ⟨answer_pairs.map (·.2), answer_pairs.findIdx (fun p => p.1 == 0)⟩

/-- Bookkeeping invariant of the `_try_add` state: the `used` set contains
the correct answer and every accepted distractor, so the accepted list is
duplicate-free and never contains the correct answer. -/
def DistractorInv (correct : List String) (st : DistractorState) : Prop :=
  correct ∈ st.used ∧ st.distractors.Nodup ∧ correct ∉ st.distractors ∧
    ∀ x ∈ st.distractors, x ∈ st.used

/-- The spatial fingerprint type. -/
abbrev SFp := Coord × Coord × Multiset Coord

/-- The spatial fingerprint: SHA-256 of the rendered prompt, truncated.
The prompt is determined by (and determines) the instance fields
`(start, end, obstacle set)` on the fixed 5×5 grid, so the fingerprint is
modelled by those fields themselves (hash collisions are out of scope). -/
def sFingerprint (sc : GridScenario) : SFp :=
  (sc.start, sc.goal, (sc.obstacles : Multiset Coord))

/-- One random draw of the spatial main loop: the sampled scenario (`none`
when `generate_scenario` rejected the layout), the random candidates used by
the distractor strategies, and the shuffle applied to the answer pairs. -/
structure SpatialDraw where
  scenario : Option GridScenario
  rand2 : List (List String)
  rand4 : List (List String)
  shuffle : List (ℕ × List String) → List (ℕ × List String)

/-- State of the spatial `main` sampling loop.  Each emitted sample is
paired with the fingerprint of the instance it came from (the bookkeeping
needed to state the deduplication property). -/
structure SRunState where
  samples : List (SFp × EvalDoc)
  seen_fingerprints : List SFp
  attempts : ℕ

/-- One iteration of the spatial `main` loop body. -/
def spatial_iter (d : SpatialDraw) (st : SRunState) : SRunState :=
  let st := { st with attempts := st.attempts + 1 }
  match d.scenario with
  | none => st
  | some sc =>
    let doc := scenario_to_eval_doc
      (d.shuffle ((sc.path_directions :: generate_distractors sc d.rand2 d.rand4).enum))
    let fp := sFingerprint sc
    if fp ∈ st.seen_fingerprints then st
    else { st with samples := st.samples ++ [(fp, doc)],
                   seen_fingerprints := st.seen_fingerprints ++ [fp] }

/-- The spatial `main` loop:
`while len(samples) < num_samples and attempts < max_attempts`.  The fuel
argument is exactly `max_attempts - attempts`, so `main` runs
`spatial_loop n draw (n * 20) init`; the loop is structurally bounded by the
attempt ceiling. -/
def spatial_loop (n : ℕ) (draw : ℕ → SpatialDraw) : ℕ → SRunState → SRunState
  | 0, st => st
  | fuel + 1, st =>
    if st.samples.length < n then
      spatial_loop n draw fuel (spatial_iter (draw st.attempts) st)
    else st

/-- The initial state of the spatial main loop and its ceiling
(`max_attempts = args.num_samples * 20`). -/
def spatial_main (n : ℕ) (draw : ℕ → SpatialDraw) : SRunState :=
  spatial_loop n draw (n * 20) ⟨[], [], 0⟩

end Spatial

/-! ## Key-lock generator: state-dependent playback validator

From `src/scripts/generate_keylock_eval.py`.  Keys and locked doors live on
grid cells; the agent must pick up a key before a door of that colour can be
passed.  Python's action tokens `"up"/"down"/"left"/"right"`,
`"pick_up_<color>"` and `"unlock_<color>"` are embedded as a typed action
(the validator parses the token prefix exactly once, which this datatype
captures); an unrecognised token matches none of the Python branches and is
silently skipped, which corresponds to `dir d` with `d` not in
`DIR_VECTORS`. -/

namespace Keylock

open Spatial (Coord inBounds DIR_VECTORS)

/-- `GRID_SIZE = 5` in the key-lock generator. -/
def GRID_SIZE : ℕ := 5

/-- A key-lock action token. -/
inductive KAct where
  | dir (d : String)
  | pick_up (color : String)
  | unlock (color : String)
deriving Repr, DecidableEq

/-- BFS / simulation state component: the set of held key colours
(Python `frozenset`). -/
abbrev Inv := Finset String

/-- `KeyLockSimResult` dataclass. -/
structure KeyLockSimResult where
  reached_goal : Bool
  hit_wall : Bool
  out_of_bounds : Bool
  locked_door_blocked : Bool
  invalid_pickup : Bool
  invalid_unlock : Bool
  final_position : Coord
  inventory : Inv
deriving DecidableEq

/-- The five ways a key-lock action can violate the rules. -/
inductive KViol where
  | wall
  | oob
  | locked
  | badPickup
  | badUnlock
deriving Repr, DecidableEq

/-- Outcome of one `simulate_actions` loop iteration. -/
inductive KStepRes where
  | ok (pos : Coord) (inv : Inv)
  | fail (v : KViol)
deriving DecidableEq

/-- One loop iteration of `simulate_actions` on action `a` at `(pos, inv)`:
pick-up requires the matching key on the current cell and not already held;
unlock merely checks key ownership; a move checks bounds, obstacles and
locked doors in that order. -/
def kStep (gs : ℕ) (obstacles : List Coord) (keys doors : List (Coord × String))
    (pos : Coord) (inv : Inv) : KAct → KStepRes
  | .pick_up color =>
    match keys.lookup pos with
    | some c => if c = color ∧ color ∉ inv then .ok pos (insert color inv)
        else .fail .badPickup
    | none => .fail .badPickup
  | .unlock color => if color ∈ inv then .ok pos inv else .fail .badUnlock
  | .dir d =>
    match (DIR_VECTORS.lookup d : Option Coord) with
    | none => .ok pos inv
    | some v =>
      let new_pos : Coord := (pos.1 + v.1, pos.2 + v.2)
      if ¬ inBounds gs new_pos then .fail .oob
      else if new_pos ∈ obstacles then .fail .wall
      else
        match doors.lookup new_pos with
        | some c => if c ∉ inv then .fail .locked else .ok new_pos inv
        | none => .ok new_pos inv

/-- The `KeyLockSimResult` produced when the loop `break`s on violation `v`
at position `pos` with inventory `inv`. -/
def kFlagResult (goal pos : Coord) (inv : Inv) : KViol → KeyLockSimResult
  | .wall => ⟨pos == goal, true, false, false, false, false, pos, inv⟩
  | .oob => ⟨pos == goal, false, true, false, false, false, pos, inv⟩
  | .locked => ⟨pos == goal, false, false, true, false, false, pos, inv⟩
  | .badPickup => ⟨pos == goal, false, false, false, true, false, pos, inv⟩
  | .badUnlock => ⟨pos == goal, false, false, false, false, true, pos, inv⟩

/-- The loop of `simulate_actions`. -/
def kGo (goal : Coord) (gs : ℕ) (obstacles : List Coord)
    (keys doors : List (Coord × String)) :
    Coord → Inv → List KAct → KeyLockSimResult
  | pos, inv, [] => ⟨pos == goal, false, false, false, false, false, pos, inv⟩
  | pos, inv, a :: rest =>
    match kStep gs obstacles keys doors pos inv a with
    | .ok pos' inv' => kGo goal gs obstacles keys doors pos' inv' rest
    | .fail v => kFlagResult goal pos inv v

/-- `simulate_actions(start, end, obstacles, keys, doors, actions, grid_size)`. -/
def simulate_actions (start goal : Coord) (obstacles : List Coord)
    (keys doors : List (Coord × String)) (actions : List KAct)
    (gs : ℕ := GRID_SIZE) : KeyLockSimResult :=
  kGo goal gs obstacles keys doors start ∅ actions

/-- `is_action_seq_invalid`: `True` iff the playback flags any violation or
fails to reach the goal; a clean goal-reaching replay is a valid alternate
solution and must be rejected as a distractor. -/
def is_action_seq_invalid (start goal : Coord) (obstacles : List Coord)
    (keys doors : List (Coord × String)) (actions : List KAct)
    (gs : ℕ := GRID_SIZE) : Bool :=
  let result := simulate_actions start goal obstacles keys doors actions gs
  if result.hit_wall || result.out_of_bounds then true
  else if result.locked_door_blocked then true
  else if result.invalid_pickup || result.invalid_unlock then true
  else if ¬ result.reached_goal then true
  else false

/-- A legal configuration: in bounds, not on an obstacle, and any door on the
current cell is already covered by a held key. -/
def legalPos (gs : ℕ) (obstacles : List Coord) (doors : List (Coord × String))
    (pos : Coord) (inv : Inv) : Prop :=
  inBounds gs pos = true ∧ pos ∉ obstacles ∧
    ∀ c, doors.lookup pos = some c → c ∈ inv

/-- No violation flag is set. -/
def kNoFlags (r : KeyLockSimResult) : Prop :=
  r.hit_wall = false ∧ r.out_of_bounds = false ∧
    r.locked_door_blocked = false ∧ r.invalid_pickup = false ∧
    r.invalid_unlock = false

/-- The `KeyLockScenario` dataclass (solver outputs included). -/
structure KeyLockScenario where
  grid_size : ℕ
  start : Coord
  goal : Coord
  obstacles : List Coord
  keys : List (Coord × String)
  doors : List (Coord × String)
  solution_actions : List KAct
  solution_path : List Coord
deriving DecidableEq

/-- State of the key-lock `generate_distractors` closure. -/
structure KDistractorState where
  distractors : List (List KAct)
  used : List (List KAct)
deriving DecidableEq

/-- Bookkeeping invariant of the key-lock `_try_add` state (as in the
spatial generator). -/
def KDistractorInv (correct : List KAct) (st : KDistractorState) : Prop :=
  correct ∈ st.used ∧ st.distractors.Nodup ∧ correct ∉ st.distractors ∧
    ∀ x ∈ st.distractors, x ∈ st.used

/-- Key-lock `_try_add`: duplicate check, then the physics-engine gate. -/
def ktryAdd (sc : KeyLockScenario) (st : KDistractorState) (cand : List KAct) :
    KDistractorState :=
  if cand ∈ st.used then st
  else if ¬ is_action_seq_invalid sc.start sc.goal sc.obstacles sc.keys sc.doors cand
  then st
  else ⟨st.distractors ++ [cand], st.used ++ [cand]⟩

/-- Strategy 1: drop every `pick_up_*` action. -/
def kNoPickup (correct : List KAct) : List KAct :=
  correct.filter fun a => match a with | .pick_up _ => false | _ => true

/-- Strategy 2: drop every `unlock_*` action. -/
def kNoUnlock (correct : List KAct) : List KAct :=
  correct.filter fun a => match a with | .unlock _ => false | _ => true

/-- Strategy 3: swap the key colour of every pick-up/unlock
(`other = "blue" if color == "red" else "red"`). -/
def kSwapColor : KAct → KAct
  | .pick_up c => .pick_up (if c = "red" then "blue" else "red")
  | .unlock c => .unlock (if c = "red" then "blue" else "red")
  | a => a

/-- Capped `_try_add` loop (`MAX_ATTEMPTS = 100` with an early break once
`num` distractors are collected); the random candidates are an explicit
input. -/
def kAddCapped (sc : KeyLockScenario) (num : ℕ) (st : KDistractorState)
    (cands : List (List KAct)) : KDistractorState :=
  cands.foldl (fun st c => if num ≤ st.distractors.length then st else ktryAdd sc st c) st

/-- Strategy 3 applied to the running state, guarded by the presence of at
least one key. -/
def kgdSwap (sc : KeyLockScenario) (st : KDistractorState) : KDistractorState :=
  if 0 < sc.keys.length then ktryAdd sc st (sc.solution_actions.map kSwapColor)
  else st

/-- Key-lock `generate_distractors`: the five strategies in source order
starting from the state whose `used` set holds the correct answer;
`rand4`/`rand5` are the candidate sequences drawn by the two random
strategies (each capped at `MAX_ATTEMPTS = 100`). -/
def keylock_generate_distractors (sc : KeyLockScenario)
    (rand4 rand5 : List (List KAct)) (num : ℕ := 3) : List (List KAct) :=
  if sc.solution_actions = [] then []
  else
    (kAddCapped sc num
      (kAddCapped sc num
        (kgdSwap sc
          (ktryAdd sc
            (ktryAdd sc ⟨[], [sc.solution_actions]⟩ (kNoPickup sc.solution_actions))
            (kNoUnlock sc.solution_actions)))
        (rand4.take 100))
      (rand5.take 100)).distractors.take num

/-- The choice/gold part of an emitted key-lock document. -/
structure KEvalDoc where
  choices : List (List KAct)
  gold : ℕ
deriving DecidableEq

/-- Key-lock `scenario_to_eval_doc`: returns `None` (instance discarded)
when fewer than 3 distractors were found; otherwise
`choices = distractors[:3] + [correct]` with `gold_idx = 3`, shuffled by the
index permutation `order` (Python `rng.shuffle(order)`), and the post-shuffle
gold is `order.index(3)`. -/
def keylock_scenario_to_eval_doc (sc : KeyLockScenario)
    (distractors : List (List KAct)) (order : List ℕ) : Option KEvalDoc :=
  if distractors.length < 3 then none
  else
    let choices := distractors.take 3 ++ [sc.solution_actions]
    some ⟨order.map (fun i => choices.getD i []), order.indexOf 3⟩

/-- The key-lock fingerprint type. -/
abbrev KFp := Coord × Coord × Multiset Coord ×
  Multiset (Coord × String) × Multiset (Coord × String)

/-- Key-lock fingerprint: SHA-256 of
`f"{start}{end}{sorted(obstacles)}{sorted(keys.items())}{sorted(doors.items())}"`.
Sorting makes the rendering a function of the underlying sets, so the
fingerprint is modelled by the fields with list order quotiented away
(hash collisions are out of scope). -/
def kFingerprint (sc : KeyLockScenario) : KFp :=
  (sc.start, sc.goal, (sc.obstacles : Multiset Coord),
    (sc.keys : Multiset (Coord × String)), (sc.doors : Multiset (Coord × String)))

/-- One random draw of the key-lock main loop. -/
structure KDraw where
  scenario : Option KeyLockScenario
  rand4 : List (List KAct)
  rand5 : List (List KAct)
  order : List ℕ

/-- State of the key-lock `main` sampling loop; emitted documents are
paired with the fingerprint of their instance. -/
structure KRunState where
  docs : List (KFp × KEvalDoc)
  fingerprints : List KFp
  attempts : ℕ

/-- One iteration of the key-lock `main` loop body: count the attempt,
skip rejected draws, skip duplicate fingerprints (the fingerprint is
recorded before document assembly), skip documents discarded for distractor
shortage. -/
def keylock_iter (d : KDraw) (st : KRunState) : KRunState :=
  let st := { st with attempts := st.attempts + 1 }
  match d.scenario with
  | none => st
  | some sc =>
    let fp := kFingerprint sc
    if fp ∈ st.fingerprints then st
    else
      let st := { st with fingerprints := st.fingerprints ++ [fp] }
      match keylock_scenario_to_eval_doc sc
          (keylock_generate_distractors sc d.rand4 d.rand5) d.order with
      | none => st
      | some doc => { st with docs := st.docs ++ [(fp, doc)] }

/-- The guard of the key-lock `main` loop: `while len(docs) < num_samples`.
It does not consult the attempt counter — the source has no attempt
ceiling. -/
def keylock_guard (st : KRunState) (n : ℕ) : Bool :=
  st.docs.length < n

/-- The first `k` iterations of the (unbounded) key-lock `main` loop:
the Python loop itself has no fuel — `k` only indexes how far we observe
it. -/
def keylock_loop (n : ℕ) (draw : ℕ → KDraw) : ℕ → KRunState → KRunState
  | 0, st => st
  | fuel + 1, st =>
    if keylock_guard st n then keylock_loop n draw fuel (keylock_iter (draw st.attempts) st)
    else st

/-- The initial state of the key-lock main loop. -/
def keylock_init : KRunState := ⟨[], [], 0⟩

/-! ### State-aware BFS (`bfs_with_keys`)

`State = (position, frozenset of keys held)`; the queue is a FIFO `deque`
of `(state, path, actions)` triples and `visited` is marked at push time.
Each dequeued state is expanded — pick-up first, then the four moves in
`DIRECTIONS` order, a door move contributing the two actions
`[unlock_<color>, <dir>]` — and the goal test runs after the expansion. -/

/-- A BFS compound state: `(position, frozenset of held key colours)`. -/
abbrev KState := Coord × Inv

/-- A queue entry of `bfs_with_keys`: state, coordinate path, action list. -/
structure BEntry where
  pos : Coord
  inv : Inv
  path : List Coord
  actions : List KAct
deriving DecidableEq

/-- The compound state an entry sits at. -/
def BEntry.state (e : BEntry) : KState := (e.pos, e.inv)

/-- The pick-up expansion of a dequeued state: if a key of an unheld colour
lies at the current position and the grown state is fresh, push it
(`path + [pos]`, `actions + [pick_up_<color>]`) and mark it visited.  The
accumulator `(pushed entries, visited)` is threaded through the whole
expansion. -/
def bfsPickup (keys : List (Coord × String)) (e : BEntry)
    (acc : List BEntry × List KState) : List BEntry × List KState :=
  match keys.lookup e.pos with
  | some color =>
    if color ∉ e.inv then
      if ((e.pos, insert color e.inv) : KState) ∉ acc.2 then
        (acc.1 ++ [⟨e.pos, insert color e.inv, e.path ++ [e.pos],
            e.actions ++ [.pick_up color]⟩],
          acc.2 ++ [(e.pos, insert color e.inv)])
      else acc
    else acc
  | none => acc

/-- One directional move of the expansion: boundary and obstacle checks,
then the door check — a door cell is entered only with the matching key,
contributing `[unlock_<color>, <dir>]`; fresh states are pushed and marked
visited. -/
def bfsMove (gs : ℕ) (obstacles : List Coord) (doors : List (Coord × String))
    (e : BEntry) (acc : List BEntry × List KState) (d : Coord) :
    List BEntry × List KState :=
  let np : Coord := (e.pos.1 + d.1, e.pos.2 + d.2)
  if inBounds gs np = true then
    if np ∈ obstacles then acc
    else
      match doors.lookup np with
      | some color =>
        if color ∈ e.inv then
          if ((np, e.inv) : KState) ∉ acc.2 then
            (acc.1 ++ [⟨np, e.inv, e.path ++ [np],
                e.actions ++ [.unlock color,
                  .dir ((Spatial.DIR_NAMES.lookup d).getD "")]⟩],
              acc.2 ++ [(np, e.inv)])
          else acc
        else acc
      | none =>
        if ((np, e.inv) : KState) ∉ acc.2 then
          (acc.1 ++ [⟨np, e.inv, e.path ++ [np],
              e.actions ++ [.dir ((Spatial.DIR_NAMES.lookup d).getD "")]⟩],
            acc.2 ++ [(np, e.inv)])
        else acc
  else acc

/-- The full expansion of a dequeued entry: pick-up, then the four moves in
source order. -/
def bfsExpand (gs : ℕ) (obstacles : List Coord)
    (keys doors : List (Coord × String)) (e : BEntry)
    (visited : List KState) : List BEntry × List KState :=
  Spatial.DIRECTIONS.foldl (bfsMove gs obstacles doors e)
    (bfsPickup keys e ([], visited))

/-- The `while queue:` loop of `bfs_with_keys`: dequeue, expand, then test
the goal.  The Python loop needs no fuel (each push is a fresh state);
`fuel` is set by `bfs_with_keys` to a proven-sufficient bound. -/
def bfsLoop (gs : ℕ) (obstacles : List Coord)
    (keys doors : List (Coord × String)) (goal : Coord) :
    ℕ → List BEntry → List KState → Option (List Coord × List KAct)
  | 0, _, _ => none
  | _ + 1, [], _ => none
  | fuel + 1, e :: rest, visited =>
    let next := bfsExpand gs obstacles keys doors e visited
    if e.pos = goal then some (e.path, e.actions)
    else bfsLoop gs obstacles keys doors goal fuel (rest ++ next.1) next.2

/-- `bfs_with_keys(start, end, obstacles, keys, doors, grid_size)`. -/
def bfs_with_keys (start goal : Coord) (obstacles : List Coord)
    (keys doors : List (Coord × String)) (gs : ℕ := GRID_SIZE) :
    Option (List Coord × List KAct) :=
  bfsLoop gs obstacles keys doors goal
    (2 * ((gs * gs + 1) * 2 ^ keys.length) + 2)
    [⟨start, ∅, [start], []⟩] [(start, ∅)]

/-- The solvability and non-triviality check of `generate_scenario`
(everything after the layout draw): reject if the with-keys BFS fails;
reject if the keyless, doorless BFS finds a path no longer than the
with-keys one that moreover avoids every door cell; otherwise return the
scenario with the solver outputs attached. -/
def generate_scenario_check (start goal : Coord) (obstacles : List Coord)
    (keys doors : List (Coord × String)) (gs : ℕ) : Option KeyLockScenario :=
  match bfs_with_keys start goal obstacles keys doors gs with
  | none => none
  | some (path, actions) =>
    match bfs_with_keys start goal obstacles [] [] gs with
    | none => some ⟨gs, start, goal, obstacles, keys, doors, actions, path⟩
    | some (no_key_path, _) =>
      if no_key_path.length ≤ path.length ∧ (∀ d ∈ doors, d.1 ∉ no_key_path)
      then none
      else some ⟨gs, start, goal, obstacles, keys, doors, actions, path⟩

/-- The number of BFS state transitions an action list stands for: every
move and pick-up is one transition, while an `unlock_*` token rides along
with its move (the BFS pushes `[unlock_<color>, <dir>]` in a single step). -/
def ktrans_count (as : List KAct) : ℕ :=
  (as.filter fun a => match a with | .unlock _ => false | _ => true).length

/-- One transition of the BFS state graph, labelled with the exact action
group the BFS appends for it. -/
inductive KTrans (gs : ℕ) (obstacles : List Coord)
    (keys doors : List (Coord × String)) : KState → List KAct → KState → Prop
  | pickup {pos : Coord} {inv : Inv} {c : String} :
      keys.lookup pos = some c → c ∉ inv →
      KTrans gs obstacles keys doors (pos, inv) [.pick_up c] (pos, insert c inv)
  | move {pos : Coord} {inv : Inv} {d : Coord} (hd : d ∈ Spatial.DIRECTIONS)
      {np : Coord} :
      np = (pos.1 + d.1, pos.2 + d.2) →
      inBounds gs np = true → np ∉ obstacles → doors.lookup np = none →
      KTrans gs obstacles keys doors (pos, inv)
        [.dir ((Spatial.DIR_NAMES.lookup d).getD "")] (np, inv)
  | door {pos : Coord} {inv : Inv} {d : Coord} (hd : d ∈ Spatial.DIRECTIONS)
      {np : Coord} {c : String} :
      np = (pos.1 + d.1, pos.2 + d.2) →
      inBounds gs np = true → np ∉ obstacles → doors.lookup np = some c →
      c ∈ inv →
      KTrans gs obstacles keys doors (pos, inv)
        [.unlock c, .dir ((Spatial.DIR_NAMES.lookup d).getD "")] (np, inv)

/-- An `n`-transition walk of the BFS state graph from `s`, realised by a
concrete action list. -/
inductive KWalkN (gs : ℕ) (obstacles : List Coord)
    (keys doors : List (Coord × String)) (s : KState) :
    List KAct → KState → ℕ → Prop
  | nil : KWalkN gs obstacles keys doors s [] s 0
  | snoc {as : List KAct} {t u : KState} {g : List KAct} {n : ℕ} :
      KWalkN gs obstacles keys doors s as t n →
      KTrans gs obstacles keys doors t g u →
      KWalkN gs obstacles keys doors s (as ++ g) u (n + 1)

/-- The finite space the BFS states live in: the position is the start cell
or a legal grid cell, and the inventory holds colours drawn from the key
list. -/
def KSfinset (gs : ℕ) (obstacles : List Coord) (start : Coord)
    (keys : List (Coord × String)) : Finset KState :=
  (insert start (Spatial.legalFinset gs obstacles)) ×ˢ
    ((keys.map Prod.snd).toFinset.powerset)

/-- The `bfs_with_keys` loop invariant.  Every queue entry carries a walk
realising its actions; the queue is sorted by transition count and spans at
most two consecutive depths; queue entries are depth-optimal; every visited
state is still queued or fully expanded; a visited goal-position state is
still queued (the loop would have returned otherwise); every state
reachable within the least queued depth is visited; queued states are
visited; and the visited list is duplicate-free inside the finite state
space. -/
structure BfsInv (gs : ℕ) (obstacles : List Coord)
    (keys doors : List (Coord × String)) (start goal : Coord)
    (queue : List BEntry) (visited : List KState) : Prop where
  walk : ∀ e ∈ queue, KWalkN gs obstacles keys doors (start, ∅) e.actions
    e.state (ktrans_count e.actions)
  sorted : queue.Pairwise fun a b => ktrans_count a.actions ≤ ktrans_count b.actions
  twoLevel : ∀ e1 ∈ queue, ∀ e2 ∈ queue,
    ktrans_count e2.actions ≤ ktrans_count e1.actions + 1
  optimal : ∀ e ∈ queue, ∀ n as, KWalkN gs obstacles keys doors (start, ∅) as
    e.state n → ktrans_count e.actions ≤ n
  closed : ∀ s ∈ visited, (∃ e ∈ queue, e.state = s) ∨
    ∀ g t, KTrans gs obstacles keys doors s g t → t ∈ visited
  goalQueued : ∀ s ∈ visited, (∃ e ∈ queue, e.state = s) ∨ s.1 ≠ goal
  cover : ∀ n as z, KWalkN gs obstacles keys doors (start, ∅) as z n →
    (∀ e ∈ queue, n ≤ ktrans_count e.actions) → z ∈ visited
  qmem : ∀ e ∈ queue, e.state ∈ visited
  nodup : visited.Nodup
  space : ∀ s ∈ visited, s ∈ KSfinset gs obstacles start keys

end Keylock


/-! ## Container generator: deterministic pouring simulation

From `src/scripts/generate_container_eval.py`.  The free-text actions
`"Pour X into Y"`, `"Fill X"`, `"Empty X"` are embedded as a typed action.
The Python `Dict[str, Container]` is an association list keyed by name;
`simulate_step` mutates the stored `Container` objects in place, which the
embedding reproduces by updating the source entry first and re-reading the
destination from the updated list (so the aliasing behaviour of
`Pour X into X` is preserved). -/

namespace Container

/-- The `Container` dataclass. -/
structure Vessel where
  name : String
  capacity : ℤ
  current : ℤ
deriving Repr, DecidableEq

/-- `Dict[str, Container]`. -/
abbrev Containers := List (String × Vessel)

/-- A parsed container action. -/
inductive CAction where
  | pour (src dst : String)
  | fill (tgt : String)
  | empty (tgt : String)
deriving Repr, DecidableEq

/-- Overwrite the `current` field of the container stored under `k`
(dict keys are unique, so at most one entry is affected). -/
def setCurrent : Containers → String → ℤ → Containers
  | [], _, _ => []
  | (k0, c) :: t, k, v =>
    if k0 = k then (k0, { c with current := v }) :: setCurrent t k v
    else (k0, c) :: setCurrent t k v

/-- `simulate_step(containers, action)`: `Pour` moves
`min(src.current, dst.capacity - dst.current)`, `Fill` sets the target to
its capacity, `Empty` sets it to zero.  (The generator only ever passes
names present in the dict; on a missing name Python would raise `KeyError`,
embedded here as a no-op.) -/
def simulate_step (cs : Containers) : CAction → Containers
  | .pour src dst =>
    match cs.lookup src, cs.lookup dst with
    | some src_c, some dst_c =>
      let amount_to_pour := min src_c.current (dst_c.capacity - dst_c.current)
      let cs1 := setCurrent cs src (src_c.current - amount_to_pour)
      match cs1.lookup dst with
      | some dst_c1 => setCurrent cs1 dst (dst_c1.current + amount_to_pour)
      | none => cs1
    | _, _ => cs
  | .fill tgt =>
    match cs.lookup tgt with
    | some c => setCurrent cs tgt c.capacity
    | none => cs
  | .empty tgt => setCurrent cs tgt 0

/-- The forward simulation of a whole action list (the loop in
`generate_scenario` that repeatedly calls `simulate_step`). -/
def simulate_all (cs : Containers) (actions : List CAction) : Containers :=
  actions.foldl simulate_step cs

/-- The final state read off by `generate_scenario`:
`{k: v.current for k, v in containers.items()}`. -/
def finalState (cs : Containers) : List (String × ℤ) :=
  cs.map fun p => (p.1, p.2.current)

/-- A candidate answer: a final volume per container name.  Python renders
these as `dict_to_str` strings over the sorted names; the rendering is
injective for states over one fixed name list, so states are compared
directly. -/
abbrev CState := List (String × ℤ)

/-- The `Scenario` dataclass. -/
structure CScenario where
  containers : Containers
  actions : List CAction
  final_state : CState
deriving DecidableEq

/-- Overwrite the volume stored under `k` in a candidate state. -/
def setVal : CState → String → ℤ → CState
  | [], _, _ => []
  | (k0, x) :: t, k, v =>
    if k0 = k then (k0, v) :: setVal t k v else (k0, x) :: setVal t k v

/-- Strategy 1 of the container `generate_distractors`: replay the actions
with the naive math error — `Pour` moves the whole source volume, ignoring
the destination capacity. -/
def overflowStep (caps : Containers) (st : CState) : CAction → CState
  | .pour src dst =>
    let amount := (st.lookup src).getD 0
    let st1 := setVal st src (((st.lookup src).getD 0) - amount)
    setVal st1 dst (((st1.lookup dst).getD 0) + amount)
  | .fill tgt =>
    match caps.lookup tgt with
    | some c => setVal st tgt c.capacity
    | none => st
  | .empty tgt => setVal st tgt 0

/-- Strategy 1 end-to-end: start from the initial volumes and apply the
overflow-allowed replay of the whole action list. -/
def overflowFinal (sc : CScenario) : CState :=
  sc.actions.foldl (overflowStep sc.containers) (finalState sc.containers)

/-- Container `generate_distractors`: strategy 1 (overflow replay),
strategy 2 (value-shuffled correct state, supplied as the draw `cand2`),
strategy 3 (up to 20 random states, supplied as `cand3`), each accepted only
if not already in the `used` set (which starts with the correct answer);
at most 3 are returned.  There is no validator gate in this generator:
a distractor is wrong exactly when its rendered state differs from the
simulated final state. -/
def cAddUsed (p : List CState × List CState) (c : CState) :
    List CState × List CState :=
  if c ∉ p.2 then (p.1 ++ [c], p.2 ++ [c]) else p

/-- Container `generate_distractors` (see the doc comment above
`container_generate_distractors`): a `used`-guarded append per strategy,
with strategy 3 additionally capped at 20 candidates and an early stop at 3
distractors. -/
def container_generate_distractors (sc : CScenario) (cand2 : CState)
    (cand3 : List CState) : List CState :=
  ((cand3.take 20).foldl
    (fun p c => if 3 ≤ p.1.length then p else cAddUsed p c)
    (cAddUsed (cAddUsed ([], [sc.final_state]) (overflowFinal sc)) cand2)).1.take 3

/-- The choice/gold part of an emitted container record. -/
structure CRecord where
  choices : List CState
  gold : ℕ
deriving DecidableEq

/-- Container record assembly from `main`:
`choices = [final_state] + distractors` shuffled (the post-shuffle list is
quantified over all permutations in the theorems);
`gold = choices_shuffled.index(correct)`. -/
def container_emit (sc : CScenario) (shuffled : List CState) : CRecord :=
  ⟨shuffled, shuffled.indexOf sc.final_state⟩

/-- One random draw of the container main loop. -/
structure CDraw where
  scenario : CScenario
  cand2 : CState
  cand3 : List CState
  shuffle : List CState → List CState

/-- State of the container `main` loop: the emitted records, paired with the
instance that produced them (the pairing stands in for the fingerprint the
spec postulates — this generator computes none). -/
structure CRunState where
  records : List (CScenario × CRecord)

/-- One iteration of the container `main` loop body: generate, synthesise
distractors, skip on shortage, otherwise emit — with no duplicate check of
any kind. -/
def container_iter (d : CDraw) (st : CRunState) : CRunState :=
  let distractors := container_generate_distractors d.scenario d.cand2 d.cand3
  if distractors.length < 3 then st
  else
    { st with records := st.records ++
        [(d.scenario, container_emit d.scenario
          (d.shuffle (d.scenario.final_state :: distractors)))] }

/-- The first `k` iterations of the (unbounded) container `main` loop,
`while valid_count < NUM_SAMPLES`; as for the key-lock loop, the Python
source has no attempt ceiling and `k` only bounds the observation. -/
def container_loop (n : ℕ) (draw : ℕ → CDraw) : ℕ → ℕ → CRunState → CRunState
  | 0, _, st => st
  | fuel + 1, i, st =>
    if st.records.length < n then container_loop n draw fuel (i + 1) (container_iter (draw i) st)
    else st

end Container

/-! # Theorems -/

/-- `list.index(a)` (Python) / `List.indexOf`: when `a` occurs in the list,
the returned index is in range and selects `a`. -/
theorem indexOf_spec {α : Type} [BEq α] [LawfulBEq α] (a : α) (l : List α)
    (hmem : a ∈ l) :
    ∃ h : l.indexOf a < l.length, l.get ⟨l.indexOf a, h⟩ = a := by
  have hex : ∃ x ∈ l, (x == a) = true := ⟨a, hmem, beq_self_eq_true a⟩
  have hlt : l.findIdx (· == a) < l.length := List.findIdx_lt_length_of_exists hex
  refine ⟨hlt, ?_⟩
  have h1 := List.findIdx_getElem (p := (· == a)) (w := hlt)
  have h2 : l.get ⟨List.findIdx (fun x => x == a) l, hlt⟩ == a := by simpa using h1
  exact eq_of_beq h2

namespace Spatial

theorem popMin_eq_none {l : List AEntry} : popMin l = none ↔ l = [] := by
  cases l with
  | nil => simp [popMin]
  | cons e rest =>
    simp only [popMin]
    cases h : popMin rest with
    | none => simp
    | some p =>
      obtain ⟨m, rest'⟩ := p
      simp only
      split <;> simp

theorem popMin_perm {l : List AEntry} {e : AEntry} {r : List AEntry}
    (h : popMin l = some (e, r)) : l.Perm (e :: r) := by
  induction l generalizing e r with
  | nil => cases h
  | cons x rest ih =>
    simp only [popMin] at h
    cases hr : popMin rest with
    | none =>
      rw [hr] at h
      obtain ⟨rfl, rfl⟩ := Prod.mk.inj (Option.some.inj h)
      rw [popMin_eq_none.mp hr]
    | some p =>
      obtain ⟨m, rest'⟩ := p
      rw [hr] at h
      simp only at h
      split at h
      · obtain ⟨rfl, rfl⟩ := Prod.mk.inj (Option.some.inj h)
        exact List.Perm.refl _
      · obtain ⟨rfl, rfl⟩ := Prod.mk.inj (Option.some.inj h)
        exact ((ih hr).cons x).trans (List.Perm.swap _ x rest')

/-- The popped entry's f-score is minimal in the open set. -/
theorem popMin_min_f {l : List AEntry} {e : AEntry} {r : List AEntry}
    (h : popMin l = some (e, r)) : ∀ x ∈ l, e.f ≤ x.f := by
  induction l generalizing e r with
  | nil => cases h
  | cons y rest ih =>
    simp only [popMin] at h
    cases hr : popMin rest with
    | none =>
      rw [hr] at h
      obtain ⟨rfl, rfl⟩ := Prod.mk.inj (Option.some.inj h)
      rw [popMin_eq_none.mp hr]
      intro x hx
      rcases List.mem_singleton.mp hx with rfl
      exact Nat.le_refl _
    | some p =>
      obtain ⟨m, rest'⟩ := p
      rw [hr] at h
      simp only at h
      split at h
      · rename_i hle
        obtain ⟨rfl, rfl⟩ := Prod.mk.inj (Option.some.inj h)
        intro x hx
        rcases List.mem_cons.mp hx with rfl | hx
        · exact Nat.le_refl _
        · have h1 := ih hr x hx
          rcases hle with h2 | h2
          · omega
          · omega
      · rename_i hgt
        obtain ⟨rfl, rfl⟩ := Prod.mk.inj (Option.some.inj h)
        intro x hx
        rcases List.mem_cons.mp hx with rfl | hx
        · push_neg at hgt
          omega
        · exact ih hr x hx

theorem pushFold_subset (goal : Coord) (obstacles : List Coord) (gs : ℕ)
    (visited : List Coord) (cur : Coord) (path : List Coord) :
    ∀ (ds : List Coord) (acc : ℕ × List AEntry),
      ∀ e ∈ acc.2, e ∈ (ds.foldl (pushStep goal obstacles gs visited cur path) acc).2 := by
  intro ds
  induction ds with
  | nil => exact fun acc e he => he
  | cons d t ih =>
    intro acc e he
    rw [List.foldl_cons]
    refine ih _ e ?_
    simp only [pushStep]
    split
    · exact List.mem_append_left _ he
    · exact he

theorem pushFold_sound (goal : Coord) (obstacles : List Coord) (gs : ℕ)
    (visited : List Coord) (cur : Coord) (path : List Coord) :
    ∀ (ds : List Coord) (acc : ℕ × List AEntry),
      ∀ e ∈ (ds.foldl (pushStep goal obstacles gs visited cur path) acc).2,
        e ∈ acc.2 ∨ ∃ d ∈ ds,
          legalCell gs obstacles (cur.1 + d.1, cur.2 + d.2) ∧
          ((cur.1 + d.1, cur.2 + d.2) : Coord) ∉ visited ∧
          e.node = (cur.1 + d.1, cur.2 + d.2) ∧
          e.path = path ++ [(cur.1 + d.1, cur.2 + d.2)] ∧
          e.f = path.length + heuristic (cur.1 + d.1, cur.2 + d.2) goal := by
  intro ds
  induction ds with
  | nil => exact fun acc e he => Or.inl he
  | cons d t ih =>
    intro acc e he
    rw [List.foldl_cons] at he
    rcases ih _ e he with h | ⟨d', hd', hrest⟩
    · simp only [pushStep] at h
      split at h
      · rename_i hcond
        rcases List.mem_append.mp h with h | h
        · exact Or.inl h
        · rcases List.mem_singleton.mp h with rfl
          exact Or.inr ⟨d, List.mem_cons_self _ _,
            ⟨hcond.1, hcond.2.1⟩, hcond.2.2, rfl, rfl, rfl⟩
      · exact Or.inl h
    · exact Or.inr ⟨d', List.mem_cons_of_mem _ hd', hrest⟩

theorem pushFold_complete (goal : Coord) (obstacles : List Coord) (gs : ℕ)
    (visited : List Coord) (cur : Coord) (path : List Coord) :
    ∀ (ds : List Coord) (acc : ℕ × List AEntry) (d : Coord), d ∈ ds →
      legalCell gs obstacles (cur.1 + d.1, cur.2 + d.2) →
      ((cur.1 + d.1, cur.2 + d.2) : Coord) ∉ visited →
      ∃ e ∈ (ds.foldl (pushStep goal obstacles gs visited cur path) acc).2,
        e.node = (cur.1 + d.1, cur.2 + d.2) ∧
        e.path = path ++ [(cur.1 + d.1, cur.2 + d.2)] := by
  intro ds
  induction ds with
  | nil => intro acc d hd; cases hd
  | cons d0 t ih =>
    intro acc d hd hleg hvis
    rw [List.foldl_cons]
    rcases List.mem_cons.mp hd with rfl | hd
    · refine ⟨⟨path.length + heuristic (cur.1 + d.1, cur.2 + d.2) goal, acc.1 + 1,
        (cur.1 + d.1, cur.2 + d.2), path ++ [(cur.1 + d.1, cur.2 + d.2)]⟩, ?_, rfl, rfl⟩
      refine pushFold_subset goal obstacles gs visited cur path t _ _ ?_
      simp only [pushStep]
      rw [if_pos ⟨hleg.1, hleg.2, hvis⟩]
      exact List.mem_append_right _ (List.mem_singleton_self _)
    · exact ih _ d hd hleg hvis

theorem pushFold_length (goal : Coord) (obstacles : List Coord) (gs : ℕ)
    (visited : List Coord) (cur : Coord) (path : List Coord) :
    ∀ (ds : List Coord) (acc : ℕ × List AEntry),
      (ds.foldl (pushStep goal obstacles gs visited cur path) acc).2.length ≤
        acc.2.length + ds.length := by
  intro ds
  induction ds with
  | nil => exact fun acc => Nat.le_refl _
  | cons d t ih =>
    intro acc
    rw [List.foldl_cons]
    refine Nat.le_trans (ih _) ?_
    simp only [pushStep]
    split
    · simp only [List.length_append, List.length_singleton, List.length_cons,
        List.length_nil]
      omega
    · simp only [List.length_cons]
      omega

theorem PathTo.length_pos {gs : ℕ} {obstacles : List Coord} {start : Coord}
    {p : List Coord} {v : Coord} (h : PathTo gs obstacles start p v) :
    0 < p.length := by
  cases h with
  | base _ => simp
  | step _ _ _ => simp

theorem PathTo.legal_last {gs : ℕ} {obstacles : List Coord} {start : Coord}
    {p : List Coord} {v : Coord} (h : PathTo gs obstacles start p v) :
    legalCell gs obstacles v := by
  cases h with
  | base h => exact h
  | step _ _ h => exact h

theorem heuristic_self (a : Coord) : heuristic a a = 0 := by
  simp [heuristic]

theorem heuristic_triangle (a b c : Coord) :
    heuristic a c ≤ heuristic a b + heuristic b c := by
  unfold heuristic
  have h1 : (a.1 - c.1).natAbs ≤ (a.1 - b.1).natAbs + (b.1 - c.1).natAbs := by
    have : a.1 - c.1 = (a.1 - b.1) + (b.1 - c.1) := by ring
    rw [this]
    exact Int.natAbs_add_le _ _
  have h2 : (a.2 - c.2).natAbs ≤ (a.2 - b.2).natAbs + (b.2 - c.2).natAbs := by
    have : a.2 - c.2 = (a.2 - b.2) + (b.2 - c.2) := by ring
    rw [this]
    exact Int.natAbs_add_le _ _
  omega

theorem heuristic_adjacent {a b : Coord} (h : Adjacent a b) :
    heuristic a b = 1 := by
  obtain ⟨d, hd, rfl⟩ := h
  unfold heuristic
  fin_cases hd <;> simp

/-- Consistency of the Manhattan heuristic along a unit step. -/
theorem heuristic_step {goal : Coord} {a b : Coord} (h : Adjacent a b) :
    heuristic a goal ≤ 1 + heuristic b goal := by
  have := heuristic_triangle a b goal
  rw [heuristic_adjacent h] at this
  omega

theorem legalCell_mem_legalFinset {gs : ℕ} {obstacles : List Coord} {c : Coord} :
    legalCell gs obstacles c ↔ c ∈ legalFinset gs obstacles := by
  unfold legalCell legalFinset inBounds
  rw [Finset.mem_filter, Finset.mem_product, Finset.mem_Icc, Finset.mem_Icc]
  constructor
  · intro ⟨h1, h2⟩
    simp only [Bool.and_eq_true, decide_eq_true_eq] at h1
    exact ⟨⟨⟨h1.1.1.1, by omega⟩, ⟨h1.1.2, by omega⟩⟩, h2⟩
  · intro ⟨⟨⟨h1, h2⟩, ⟨h3, h4⟩⟩, h5⟩
    refine ⟨?_, h5⟩
    simp only [Bool.and_eq_true, decide_eq_true_eq]
    exact ⟨⟨⟨h1, by omega⟩, h3⟩, by omega⟩

/-- Cover lemma: while the invariant holds, every valid path to an
unvisited cell is dominated by some open entry (consistent-heuristic
version). -/
theorem astar_cover {gs : ℕ} {obstacles : List Coord} {start goal : Coord}
    {openS : List AEntry} {visited : List Coord}
    (hINV : AStarInv gs obstacles start goal openS visited)
    {p : List Coord} {z : Coord} (hp : PathTo gs obstacles start p z) :
    z ∉ visited →
      ∃ e ∈ openS, e.f + 1 ≤ p.length + heuristic z goal := by
  induction hp with
  | base hleg =>
    intro hz
    obtain ⟨e, he, hn, hpath⟩ := hINV.2.1 hz
    have hf := (hINV.1 e he).2
    rw [hpath, hn] at hf
    refine ⟨e, he, ?_⟩
    simp only [List.length_singleton] at hf ⊢
    omega
  | step hq hadj hleg ih =>
    rename_i q v w
    intro hw
    by_cases hv : v ∈ visited
    · obtain ⟨e, he, hn, hbound⟩ := hINV.2.2.1 v hv w hadj hleg hw
      have hlen := hbound (q.length - 1) ⟨q, hq, by have := hq.length_pos; omega⟩
      have hf := (hINV.1 e he).2
      rw [hn] at hf
      refine ⟨e, he, ?_⟩
      rw [List.length_append, List.length_singleton]
      have := hq.length_pos
      omega
    · obtain ⟨e, he, hb⟩ := ih hv
      have hstep : heuristic v goal ≤ 1 + heuristic w goal := heuristic_step hadj
      refine ⟨e, he, ?_⟩
      rw [List.length_append, List.length_singleton]
      omega

theorem aStarLoop_succ (goal : Coord) (obstacles : List Coord) (gs : ℕ)
    (fuel counter : ℕ) (openS : List AEntry) (visited : List Coord) :
    aStarLoop goal obstacles gs (fuel + 1) counter openS visited =
      match popMin openS with
      | none => none
      | some (e, rest) =>
        if e.node = goal then some e.path
        else if e.node ∈ visited then
          aStarLoop goal obstacles gs fuel counter rest visited
        else
          aStarLoop goal obstacles gs fuel
            (expand goal obstacles gs (e.node :: visited) counter e.node e.path).1
            (rest ++ (expand goal obstacles gs (e.node :: visited) counter
              e.node e.path).2)
            (e.node :: visited) := rfl

theorem nodup_legal_length_le {gs : ℕ} {obstacles : List Coord}
    {l : List Coord} (hnd : l.Nodup)
    (hleg : ∀ v ∈ l, legalCell gs obstacles v) :
    l.length ≤ (legalFinset gs obstacles).card := by
  classical
  have h1 : l.toFinset.card = l.length := List.toFinset_card_of_nodup hnd
  have h2 : l.toFinset ⊆ legalFinset gs obstacles := fun x hx =>
    legalCell_mem_legalFinset.mp (hleg x (List.mem_toFinset.mp hx))
  have h3 := Finset.card_le_card h2
  omega

/-- Correctness of the A* loop under the invariant and sufficient fuel:
a returned path is a valid minimal path to the goal, and `none` means the
goal is unreachable. -/
theorem aStarLoop_spec {gs : ℕ} {obstacles : List Coord} {start goal : Coord} :
    ∀ (fuel counter : ℕ) (openS : List AEntry) (visited : List Coord),
      AStarInv gs obstacles start goal openS visited →
      openS.length + 4 * ((legalFinset gs obstacles).card - visited.length) < fuel →
      (∀ p, aStarLoop goal obstacles gs fuel counter openS visited = some p →
          PathTo gs obstacles start p goal ∧
            ∀ q, PathTo gs obstacles start q goal → p.length ≤ q.length) ∧
      (aStarLoop goal obstacles gs fuel counter openS visited = none →
          ¬ ∃ q, PathTo gs obstacles start q goal) := by
  intro fuel
  induction fuel with
  | zero => intro counter openS visited _ hfuel; omega
  | succ m ih =>
    intro counter openS visited hINV hfuel
    rw [aStarLoop_succ]
    cases hpop : popMin openS with
    | none =>
      refine ⟨fun p hp => Option.noConfusion hp, fun _ h => ?_⟩
      obtain ⟨q, hq⟩ := h
      obtain ⟨e, he, _⟩ := astar_cover hINV hq hINV.2.2.2.1
      rw [popMin_eq_none.mp hpop] at he
      cases he
    | some pr =>
      obtain ⟨e, rest⟩ := pr
      have hperm := popMin_perm hpop
      have hmem_e : e ∈ openS := hperm.mem_iff.mpr (List.mem_cons_self _ _)
      have hlen_open : openS.length = rest.length + 1 := by
        have h := hperm.length_eq
        simpa using h
      simp only
      by_cases hgoal : e.node = goal
      · rw [if_pos hgoal]
        refine ⟨fun p hp => ?_, fun h => Option.noConfusion h⟩
        obtain rfl := (Option.some.inj hp).symm
        have h1 := (hINV.1 e hmem_e).1
        have hf := (hINV.1 e hmem_e).2
        rw [hgoal] at h1 hf
        refine ⟨h1, fun q hq => ?_⟩
        obtain ⟨e2, he2, hb⟩ := astar_cover hINV hq hINV.2.2.2.1
        have hmin := popMin_min_f hpop e2 he2
        rw [heuristic_self] at hb hf
        omega
      · rw [if_neg hgoal]
        by_cases hvis : e.node ∈ visited
        · rw [if_pos hvis]
          refine ih counter rest visited ⟨?_, ?_, ?_, hINV.2.2.2.1,
            hINV.2.2.2.2.1, hINV.2.2.2.2.2⟩ (by omega)
          · exact fun e2 he2 =>
              hINV.1 e2 (hperm.mem_iff.mpr (List.mem_cons_of_mem _ he2))
          · intro hs
            obtain ⟨e2, he2, hn2, hp2⟩ := hINV.2.1 hs
            rcases List.mem_cons.mp (hperm.mem_iff.mp he2) with rfl | he2r
            · exact absurd (hn2 ▸ hvis) hs
            · exact ⟨e2, he2r, hn2, hp2⟩
          · intro u hu w hadj hleg hw
            obtain ⟨e2, he2, hn2, hb2⟩ := hINV.2.2.1 u hu w hadj hleg hw
            rcases List.mem_cons.mp (hperm.mem_iff.mp he2) with rfl | he2r
            · exact absurd (hn2 ▸ hvis) hw
            · exact ⟨e2, he2r, hn2, hb2⟩
        · rw [if_neg hvis]
          have hleg_e : legalCell gs obstacles e.node := (hINV.1 e hmem_e).1.legal_last
          have hpopt : ∀ n, ReachN gs obstacles start n e.node →
              e.path.length ≤ n + 1 := by
            intro n hn
            obtain ⟨ps, hps, hlenps⟩ := hn
            obtain ⟨e2, he2, hb⟩ := astar_cover hINV hps hvis
            have hmin := popMin_min_f hpop e2 he2
            have hf := (hINV.1 e hmem_e).2
            omega
          have hsound := pushFold_sound goal obstacles gs (e.node :: visited)
            e.node e.path DIRECTIONS (counter, [])
          have hcomplete := pushFold_complete goal obstacles gs (e.node :: visited)
            e.node e.path DIRECTIONS (counter, [])
          have hlen_push := pushFold_length goal obstacles gs (e.node :: visited)
            e.node e.path DIRECTIONS (counter, [])
          refine ih _ _ _ ⟨?_, ?_, ?_, ?_, ?_, ?_⟩ ?_
          · -- I1
            intro e2 he2
            rcases List.mem_append.mp he2 with h2 | h2
            · exact hINV.1 e2 (hperm.mem_iff.mpr (List.mem_cons_of_mem _ h2))
            · rcases hsound e2 h2 with h3 | ⟨d, hd, hlegn, hnvis, hnode, hpath, hfe⟩
              · cases h3
              · constructor
                · rw [hpath, hnode]
                  exact (hINV.1 e hmem_e).1.step ⟨d, hd, rfl⟩ hlegn
                · rw [hfe, hpath, hnode, List.length_append, List.length_singleton]
                  omega
          · -- I2
            intro hs
            have hs' : start ∉ visited := fun h => hs (List.mem_cons_of_mem _ h)
            have hsne : start ≠ e.node := fun h => hs (h ▸ List.mem_cons_self _ _)
            obtain ⟨e2, he2, hn2, hp2⟩ := hINV.2.1 hs'
            rcases List.mem_cons.mp (hperm.mem_iff.mp he2) with rfl | he2r
            · exact absurd hn2.symm hsne
            · exact ⟨e2, List.mem_append_left _ he2r, hn2, hp2⟩
          · -- I4 (frontier)
            intro u hu w hadj hleg hw
            have hwvis : w ∉ visited := fun h => hw (List.mem_cons_of_mem _ h)
            have hwne : w ≠ e.node := fun h => hw (h ▸ List.mem_cons_self _ _)
            rcases List.mem_cons.mp hu with rfl | hu'
            · -- u = e.node: freshly expanded
              obtain ⟨d, hd, hweq⟩ := hadj
              obtain ⟨e2, he2, hn2, hp2⟩ := hcomplete d hd (hweq ▸ hleg) (hweq ▸ hw)
              refine ⟨e2, List.mem_append_right _ he2, hweq ▸ hn2, ?_⟩
              intro n hn
              rw [hp2, List.length_append, List.length_singleton]
              have := hpopt n hn
              omega
            · obtain ⟨e2, he2, hn2, hb2⟩ := hINV.2.2.1 u hu' w hadj hleg hwvis
              rcases List.mem_cons.mp (hperm.mem_iff.mp he2) with rfl | he2r
              · exact absurd hn2.symm hwne
              · exact ⟨e2, List.mem_append_left _ he2r, hn2, hb2⟩
          · -- goal not visited
            intro h
            rcases List.mem_cons.mp h with h1 | h1
            · exact hgoal h1.symm
            · exact hINV.2.2.2.1 h1
          · -- nodup
            exact List.nodup_cons.mpr ⟨hvis, hINV.2.2.2.2.1⟩
          · -- legal
            intro v hv
            rcases List.mem_cons.mp hv with rfl | hv'
            · exact hleg_e
            · exact hINV.2.2.2.2.2 v hv'
          · -- fuel
            have hcard : visited.length + 1 ≤ (legalFinset gs obstacles).card := by
              refine nodup_legal_length_le (l := e.node :: visited)
                (List.nodup_cons.mpr ⟨hvis, hINV.2.2.2.2.1⟩) ?_
              intro v hv
              rcases List.mem_cons.mp hv with rfl | hv'
              · exact hleg_e
              · exact hINV.2.2.2.2.2 v hv'
            have hpl : (expand goal obstacles gs (e.node :: visited) counter
                e.node e.path).2.length ≤ 4 := by
              have := hlen_push
              simpa [expand] using this
            rw [List.length_append, List.length_cons]
            simp only [List.length_cons] at hcard ⊢
            omega

/-- `a_star` returns a minimal valid path when one exists, and `none`
exactly when the goal is unreachable. -/
theorem a_star_spec (gs : ℕ) (start goal : Coord) (obstacles : List Coord)
    (hstart : legalCell gs obstacles start) :
    (∀ p, a_star start goal obstacles gs = some p →
        PathTo gs obstacles start p goal ∧
          ∀ q, PathTo gs obstacles start q goal → p.length ≤ q.length) ∧
    (a_star start goal obstacles gs = none →
      ¬ ∃ q, PathTo gs obstacles start q goal) := by
  have hC : (legalFinset gs obstacles).card ≤ gs * gs := by
    unfold legalFinset
    refine Nat.le_trans (Finset.card_filter_le _ _) ?_
    rw [Finset.card_product, Int.card_Icc]
    simp
  unfold a_star
  refine aStarLoop_spec (4 * gs * gs + 6) 0 _ [] ⟨?_, ?_, ?_, ?_, ?_, ?_⟩ ?_
  · intro e he
    rcases List.mem_singleton.mp he with rfl
    refine ⟨PathTo.base hstart, ?_⟩
    simp only [List.length_singleton]
    omega
  · intro _
    exact ⟨_, List.mem_singleton_self _, rfl, rfl⟩
  · intro u hu
    cases hu
  · exact List.not_mem_nil _
  · exact List.nodup_nil
  · intro v hv
    cases hv
  · have h4 : 4 * gs * gs = 4 * (gs * gs) := by ring
    simp only [List.length_singleton, List.length_nil]
    omega

theorem simulateGo_cons (goal : Coord) (obstacles : List Coord) (gs : ℕ)
    (pos : Coord) (d : String) (rest : List String) :
    simulateGo goal obstacles gs pos (d :: rest) =
      match stepOutcome gs obstacles pos d with
      | .ok next => simulateGo goal obstacles gs next rest
      | .oob => ⟨pos == goal, false, true, pos⟩
      | .wall => ⟨pos == goal, true, false, pos⟩ := rfl

theorem simulateGo_ok_step {gs : ℕ} {obstacles : List Coord} {pos next : Coord}
    {d : String} (h : stepOutcome gs obstacles pos d = .ok next) :
    legalCell gs obstacles next := by
  unfold stepOutcome at h
  cases hl : (DIR_VECTORS.lookup d : Option Coord) with
  | none => rw [hl] at h; exact absurd h (by simp)
  | some v =>
    rw [hl] at h
    simp only at h
    by_cases hb : inBounds gs (pos.1 + v.1, pos.2 + v.2) = true
    · simp only [hb, not_true, if_neg, if_false] at h
      by_cases ho : ((pos.1 + v.1, pos.2 + v.2) : Coord) ∈ obstacles
      · simp [ho] at h
      · simp only [ho, if_neg, if_false, not_false_iff, if_true, StepOutcome.ok.injEq] at h
        subst h
        exact ⟨hb, ho⟩
    · simp [hb] at h

/-- The final position of the playback is always a legal cell, provided the
start is one: the simulator never commits a move into a wall, an obstacle,
or outside the grid. -/
theorem simulateGo_final_legal {gs : ℕ} {obstacles : List Coord} {goal : Coord}
    (ds : List String) (pos : Coord) (H : legalCell gs obstacles pos) :
    legalCell gs obstacles (simulateGo goal obstacles gs pos ds).final_position := by
  induction ds generalizing pos with
  | nil => exact H
  | cons d rest ih =>
    rw [simulateGo_cons]
    cases h : stepOutcome gs obstacles pos d with
    | ok next => exact ih next (simulateGo_ok_step h)
    | oob => exact H
    | wall => exact H

theorem simulateGo_take_clean {gs : ℕ} {obstacles : List Coord} {goal : Coord} :
    ∀ (ds : List String) (n : ℕ) (pos : Coord),
      noFlags (simulateGo goal obstacles gs pos (ds.take n)) →
      (simulateGo goal obstacles gs pos ds) =
        simulateGo goal obstacles gs
          (simulateGo goal obstacles gs pos (ds.take n)).final_position
          (ds.drop n) := by
  intro ds
  induction ds with
  | nil => intro n pos _; simp [simulateGo]
  | cons d rest ih =>
    intro n pos hclean
    cases n with
    | zero => simp [simulateGo]
    | succ m =>
      simp only [List.take_succ_cons] at hclean
      rw [simulateGo_cons] at hclean
      simp only [List.take_succ_cons, List.drop_succ_cons]
      rw [simulateGo_cons, simulateGo_cons]
      cases h : stepOutcome gs obstacles pos d with
      | ok next =>
        rw [h] at hclean
        exact ih m next hclean
      | oob => rw [h] at hclean; exact absurd hclean.2 (by simp)
      | wall => rw [h] at hclean; exact absurd hclean.1 (by simp)

/-- If the full playback raised a flag, there is a first violating step: the
prefix before it is clean, the final position is the last legal position
(the one reached by that clean prefix), and the flag corresponds to the
outcome of the violating step. -/
theorem simulateGo_first_violation {gs : ℕ} {obstacles : List Coord}
    {goal : Coord} :
    ∀ (ds : List String) (pos : Coord),
      ((simulateGo goal obstacles gs pos ds).hit_wall = true ∨
        (simulateGo goal obstacles gs pos ds).out_of_bounds = true) →
      ∃ n, ∃ hn : n < ds.length,
        noFlags (simulateGo goal obstacles gs pos (ds.take n)) ∧
        (simulateGo goal obstacles gs pos ds).final_position =
          (simulateGo goal obstacles gs pos (ds.take n)).final_position ∧
        ((simulateGo goal obstacles gs pos ds).hit_wall = true ∧
            stepOutcome gs obstacles
              (simulateGo goal obstacles gs pos (ds.take n)).final_position
              (ds.get ⟨n, hn⟩) = .wall ∨
          (simulateGo goal obstacles gs pos ds).out_of_bounds = true ∧
            stepOutcome gs obstacles
              (simulateGo goal obstacles gs pos (ds.take n)).final_position
              (ds.get ⟨n, hn⟩) = .oob) := by
  intro ds
  induction ds with
  | nil => intro pos h; simp [simulateGo] at h
  | cons d rest ih =>
    intro pos h
    revert h
    rw [simulateGo_cons]
    cases hstep : stepOutcome gs obstacles pos d with
    | ok next =>
      intro h
      obtain ⟨n, hn, hcl, hfin, hflag⟩ := ih next h
      refine ⟨n + 1, by simpa using Nat.succ_lt_succ hn, ?_, ?_, ?_⟩
      · simp only [List.take_succ_cons]
        rw [simulateGo_cons, hstep]
        exact hcl
      · simp only [List.take_succ_cons]
        rw [simulateGo_cons, hstep]
        exact hfin
      · simp only [List.take_succ_cons, List.get_cons_succ]
        rw [simulateGo_cons, hstep]
        exact hflag
    | oob =>
      intro _
      exact ⟨0, by simp, ⟨rfl, rfl⟩, rfl, Or.inr ⟨rfl, hstep⟩⟩
    | wall =>
      intro _
      exact ⟨0, by simp, ⟨rfl, rfl⟩, rfl, Or.inl ⟨rfl, hstep⟩⟩

theorem tryAdd_invalid (sc : GridScenario) (st : DistractorState)
    (cand : List String)
    (H : ∀ d ∈ st.distractors,
      is_path_physically_invalid sc.start sc.goal sc.obstacles d = true) :
    ∀ d ∈ (tryAdd sc st cand).distractors,
      is_path_physically_invalid sc.start sc.goal sc.obstacles d = true := by
  unfold tryAdd
  split
  · exact H
  · split
    · exact H
    · rename_i hused hgate
      intro d hd
      rcases List.mem_append.mp hd with h | h
      · exact H d h
      · rcases List.mem_singleton.mp h with rfl
        exact not_not.mp hgate

theorem tryAdd_discard (sc : GridScenario) (st : DistractorState)
    (cand : List String)
    (h : is_path_physically_invalid sc.start sc.goal sc.obstacles cand = false) :
    tryAdd sc st cand = st := by
  unfold tryAdd
  split
  · rfl
  · rw [if_pos]
    simp [h]

theorem addCapped_invalid (sc : GridScenario) (num : ℕ)
    (cands : List (List String)) (st : DistractorState)
    (H : ∀ d ∈ st.distractors,
      is_path_physically_invalid sc.start sc.goal sc.obstacles d = true) :
    ∀ d ∈ (addCapped sc num st cands).distractors,
      is_path_physically_invalid sc.start sc.goal sc.obstacles d = true := by
  induction cands generalizing st with
  | nil => exact H
  | cons c t ih =>
    show ∀ d ∈ (List.foldl _ (if num ≤ st.distractors.length then st else tryAdd sc st c) t).distractors, _
    split
    · exact ih st H
    · exact ih _ (tryAdd_invalid sc st c H)

theorem tryAdd_inv (sc : GridScenario) (correct : List String)
    (st : DistractorState) (cand : List String) (H : DistractorInv correct st) :
    DistractorInv correct (tryAdd sc st cand) := by
  obtain ⟨hc, hnd, hcn, hsub⟩ := H
  unfold tryAdd
  split
  · exact ⟨hc, hnd, hcn, hsub⟩
  · split
    · exact ⟨hc, hnd, hcn, hsub⟩
    · rename_i hused _
      refine ⟨List.mem_append_left _ hc, ?_, ?_, ?_⟩
      · refine List.Nodup.append hnd (List.nodup_singleton _) ?_
        intro a ha hb
        rcases List.mem_singleton.mp hb with rfl
        exact hused (hsub a ha)
      · intro h
        rcases List.mem_append.mp h with h | h
        · exact hcn h
        · rcases List.mem_singleton.mp h with rfl
          exact hused hc
      · intro x hx
        rcases List.mem_append.mp hx with h | h
        · exact List.mem_append_left _ (hsub x h)
        · rcases List.mem_singleton.mp h with rfl
          exact List.mem_append_right _ (List.mem_singleton_self _)

theorem addCapped_inv (sc : GridScenario) (correct : List String) (num : ℕ)
    (cands : List (List String)) (st : DistractorState) (H : DistractorInv correct st) :
    DistractorInv correct (addCapped sc num st cands) := by
  induction cands generalizing st with
  | nil => exact H
  | cons c t ih =>
    show DistractorInv correct (List.foldl _ (if num ≤ st.distractors.length then st else tryAdd sc st c) t)
    split
    · exact ih st H
    · exact ih _ (tryAdd_inv sc correct st c H)

theorem gdStage1_invalid (sc : GridScenario) (st : DistractorState)
    (H : ∀ d ∈ st.distractors,
      is_path_physically_invalid sc.start sc.goal sc.obstacles d = true) :
    ∀ d ∈ (gdStage1 sc st).distractors,
      is_path_physically_invalid sc.start sc.goal sc.obstacles d = true :=
  tryAdd_invalid sc st _ H

theorem gdStage2_invalid (sc : GridScenario) (num : ℕ) (rand2 : List (List String))
    (st : DistractorState)
    (H : ∀ d ∈ st.distractors,
      is_path_physically_invalid sc.start sc.goal sc.obstacles d = true) :
    ∀ d ∈ (gdStage2 sc num rand2 st).distractors,
      is_path_physically_invalid sc.start sc.goal sc.obstacles d = true :=
  addCapped_invalid sc num _ st H

theorem gdStage3_invalid (sc : GridScenario) (num : ℕ) (st : DistractorState)
    (H : ∀ d ∈ st.distractors,
      is_path_physically_invalid sc.start sc.goal sc.obstacles d = true) :
    ∀ d ∈ (gdStage3 sc num st).distractors,
      is_path_physically_invalid sc.start sc.goal sc.obstacles d = true := by
  unfold gdStage3
  split
  · exact tryAdd_invalid sc st _ H
  · exact H

theorem gdStage4_invalid (sc : GridScenario) (num : ℕ) (rand4 : List (List String))
    (st : DistractorState)
    (H : ∀ d ∈ st.distractors,
      is_path_physically_invalid sc.start sc.goal sc.obstacles d = true) :
    ∀ d ∈ (gdStage4 sc num rand4 st).distractors,
      is_path_physically_invalid sc.start sc.goal sc.obstacles d = true := by
  unfold gdStage4
  split
  · exact addCapped_invalid sc num _ st H
  · exact H

/-- Every distractor returned by the spatial synthesiser replays as
physically invalid on its own instance. -/
theorem generate_distractors_invalid (sc : GridScenario)
    (rand2 rand4 : List (List String)) (num : ℕ) :
    ∀ d ∈ generate_distractors sc rand2 rand4 num,
      is_path_physically_invalid sc.start sc.goal sc.obstacles d = true := by
  unfold generate_distractors
  split
  · intro d hd; cases hd
  · intro d hd
    have base : ∀ x ∈ (⟨[], [sc.path_directions]⟩ : DistractorState).distractors,
        is_path_physically_invalid sc.start sc.goal sc.obstacles x = true := by
      intro x hx; cases hx
    exact gdStage4_invalid sc num rand4 _
      (gdStage3_invalid sc num _
        (gdStage2_invalid sc num rand2 _
          (gdStage1_invalid sc _ base)))
      d (List.mem_of_mem_take hd)

theorem gdStage1_inv (sc : GridScenario) (correct : List String)
    (st : DistractorState) (H : DistractorInv correct st) :
    DistractorInv correct (gdStage1 sc st) :=
  tryAdd_inv sc correct st _ H

theorem gdStage2_inv (sc : GridScenario) (correct : List String) (num : ℕ)
    (rand2 : List (List String)) (st : DistractorState) (H : DistractorInv correct st) :
    DistractorInv correct (gdStage2 sc num rand2 st) :=
  addCapped_inv sc correct num _ st H

theorem gdStage3_inv (sc : GridScenario) (correct : List String) (num : ℕ)
    (st : DistractorState) (H : DistractorInv correct st) :
    DistractorInv correct (gdStage3 sc num st) := by
  unfold gdStage3
  split
  · exact tryAdd_inv sc correct st _ H
  · exact H

theorem gdStage4_inv (sc : GridScenario) (correct : List String) (num : ℕ)
    (rand4 : List (List String)) (st : DistractorState) (H : DistractorInv correct st) :
    DistractorInv correct (gdStage4 sc num rand4 st) := by
  unfold gdStage4
  split
  · exact addCapped_inv sc correct num _ st H
  · exact H

/-- The spatial distractor list is duplicate-free and never contains the
canonical answer (consequence of the `used` set). -/
theorem generate_distractors_inv (sc : GridScenario)
    (rand2 rand4 : List (List String)) (num : ℕ) :
    (generate_distractors sc rand2 rand4 num).Nodup ∧
      sc.path_directions ∉ generate_distractors sc rand2 rand4 num := by
  unfold generate_distractors
  split
  · exact ⟨List.nodup_nil, List.not_mem_nil _⟩
  · have base : DistractorInv sc.path_directions ⟨[], [sc.path_directions]⟩ :=
      ⟨List.mem_singleton_self _, List.nodup_nil, List.not_mem_nil _,
        fun x hx => absurd hx (List.not_mem_nil x)⟩
    have h4 := gdStage4_inv sc sc.path_directions num rand4 _
      (gdStage3_inv sc sc.path_directions num _
        (gdStage2_inv sc sc.path_directions num rand2 _
          (gdStage1_inv sc sc.path_directions _ base)))
    exact ⟨List.Nodup.sublist (List.take_sublist _ _) h4.2.1,
      fun h => h4.2.2.1 (List.mem_of_mem_take h)⟩

/-- `scenario_to_eval_doc` invariant: for any shuffle of the enumerated
choice list, the choices contain the canonical answer exactly once and the
recorded gold index points at it. -/
theorem eval_doc_gold (correct : List String) (ds : List (List String))
    (ap : List (ℕ × List String)) (hnotin : correct ∉ ds)
    (hperm : ap.Perm ((correct :: ds).enum)) :
    (scenario_to_eval_doc ap).choices.count correct = 1 ∧
      ∃ h : (scenario_to_eval_doc ap).gold < (scenario_to_eval_doc ap).choices.length,
        (scenario_to_eval_doc ap).choices.get
          ⟨(scenario_to_eval_doc ap).gold, h⟩ = correct := by
  have hmem0 : ((0, correct) : ℕ × List String) ∈ ap := by
    refine hperm.mem_iff.mpr ?_
    rw [List.mem_enum_iff_getElem?]
    simp
  have hcount : (ap.map Prod.snd).count correct = 1 := by
    have h2 : (ap.map Prod.snd).count correct
        = ((correct :: ds).enum.map Prod.snd).count correct := by
      simp only [List.count]
      exact (hperm.map _).countP_eq _
    rw [h2, List.enum_map_snd, List.count_cons_self,
      List.count_eq_zero_of_not_mem hnotin]
  have hex : ∃ p ∈ ap, (fun p : ℕ × List String => p.1 == 0) p = true :=
    ⟨(0, correct), hmem0, by simp⟩
  have hlt := List.findIdx_lt_length_of_exists hex
  refine ⟨hcount, ?_⟩
  have hlt' : (scenario_to_eval_doc ap).gold < (scenario_to_eval_doc ap).choices.length := by
    simpa [scenario_to_eval_doc] using hlt
  refine ⟨hlt', ?_⟩
  have hfst : (ap.get ⟨ap.findIdx (fun p => p.1 == 0), hlt⟩).1 = 0 := by
    have := List.findIdx_getElem (p := fun p : ℕ × List String => p.1 == 0)
      (w := hlt)
    simpa using this
  have hmem : ap.get ⟨ap.findIdx (fun p => p.1 == 0), hlt⟩ ∈ ap := List.get_mem _ _ _
  have hmem' := hperm.mem_iff.mp hmem
  rw [List.mem_enum_iff_getElem?] at hmem'
  rw [hfst] at hmem'
  have hsnd : (ap.get ⟨ap.findIdx (fun p => p.1 == 0), hlt⟩).2 = correct := by
    simpa using hmem'.symm
  show ((ap.map Prod.snd).get _) = correct
  rw [List.get_map]
  exact hsnd

theorem spatial_iter_attempts (d : SpatialDraw) (st : SRunState) :
    (spatial_iter d st).attempts = st.attempts + 1 := by
  unfold spatial_iter
  cases d.scenario with
  | none => rfl
  | some sc =>
    simp only
    split
    · rfl
    · rfl

theorem spatial_iter_samples_le (d : SpatialDraw) (st : SRunState) :
    (spatial_iter d st).samples.length ≤ st.samples.length + 1 := by
  unfold spatial_iter
  cases d.scenario with
  | none => exact Nat.le_succ _
  | some sc =>
    simp only
    split
    · exact Nat.le_succ _
    · simp

/-- The spatial loop never exceeds the requested sample count. -/
theorem spatial_loop_samples_le (n : ℕ) (draw : ℕ → SpatialDraw) :
    ∀ (fuel : ℕ) (st : SRunState), st.samples.length ≤ n →
      (spatial_loop n draw fuel st).samples.length ≤ n := by
  intro fuel
  induction fuel with
  | zero => exact fun st h => h
  | succ m ih =>
    intro st h
    show (if st.samples.length < n then _ else st).samples.length ≤ n
    split
    · rename_i hlt
      exact ih _ (Nat.le_trans (spatial_iter_samples_le _ _) hlt)
    · exact h

/-- The spatial loop performs at most `fuel` further attempts: the attempt
ceiling bounds the run. -/
theorem spatial_loop_attempts_le (n : ℕ) (draw : ℕ → SpatialDraw) :
    ∀ (fuel : ℕ) (st : SRunState),
      (spatial_loop n draw fuel st).attempts ≤ st.attempts + fuel := by
  intro fuel
  induction fuel with
  | zero => exact fun st => Nat.le_refl _
  | succ m ih =>
    intro st
    show (if st.samples.length < n then _ else st).attempts ≤ st.attempts + (m + 1)
    split
    · calc (spatial_loop n draw m (spatial_iter (draw st.attempts) st)).attempts
          ≤ (spatial_iter (draw st.attempts) st).attempts + m := ih _
        _ = st.attempts + 1 + m := by rw [spatial_iter_attempts]
        _ = st.attempts + (m + 1) := by omega
    · omega

theorem spatial_iter_dedup (d : SpatialDraw) (st : SRunState)
    (H : (st.samples.map Prod.fst).Nodup ∧
      ∀ fp ∈ st.samples.map Prod.fst, fp ∈ st.seen_fingerprints) :
    ((spatial_iter d st).samples.map Prod.fst).Nodup ∧
      ∀ fp ∈ (spatial_iter d st).samples.map Prod.fst,
        fp ∈ (spatial_iter d st).seen_fingerprints := by
  obtain ⟨hnd, hsub⟩ := H
  unfold spatial_iter
  cases d.scenario with
  | none => exact ⟨hnd, hsub⟩
  | some sc =>
    simp only
    split
    · exact ⟨hnd, hsub⟩
    · rename_i hnew
      constructor
      · rw [List.map_append]
        refine List.Nodup.append hnd (List.nodup_singleton _) ?_
        intro a ha hb
        rcases List.mem_singleton.mp hb with rfl
        exact hnew (hsub _ ha)
      · intro fp hfp
        rw [List.map_append] at hfp
        rcases List.mem_append.mp hfp with h | h
        · exact List.mem_append_left _ (hsub fp h)
        · rcases List.mem_singleton.mp h with rfl
          exact List.mem_append_right _ (List.mem_singleton_self _)

/-- No two samples emitted by the spatial loop share a fingerprint. -/
theorem spatial_loop_dedup (n : ℕ) (draw : ℕ → SpatialDraw) :
    ∀ (fuel : ℕ) (st : SRunState),
      ((st.samples.map Prod.fst).Nodup ∧
        ∀ fp ∈ st.samples.map Prod.fst, fp ∈ st.seen_fingerprints) →
      ((spatial_loop n draw fuel st).samples.map Prod.fst).Nodup := by
  intro fuel
  induction fuel with
  | zero => exact fun st H => H.1
  | succ m ih =>
    intro st H
    show ((if st.samples.length < n then _ else st).samples.map Prod.fst).Nodup
    split
    · exact ih _ (spatial_iter_dedup _ _ H)
    · exact H.1

/-- The spatial assembler emits a record unconditionally whenever the
sampled scenario is fresh — there is no minimum-distractor check. -/
theorem spatial_iter_emit (d : SpatialDraw) (st : SRunState)
    (sc : GridScenario) (hsc : d.scenario = some sc)
    (hfp : sFingerprint sc ∉ st.seen_fingerprints) :
    (spatial_iter d st).samples = st.samples ++
      [(sFingerprint sc, scenario_to_eval_doc
        (d.shuffle ((sc.path_directions ::
          generate_distractors sc d.rand2 d.rand4).enum)))] := by
  unfold spatial_iter
  rw [hsc]
  simp only
  rw [if_neg hfp]

end Spatial

namespace Keylock

open Spatial (Coord inBounds DIR_VECTORS)

theorem kGo_cons (goal : Coord) (gs : ℕ) (obstacles : List Coord)
    (keys doors : List (Coord × String)) (pos : Coord) (inv : Inv)
    (a : KAct) (rest : List KAct) :
    kGo goal gs obstacles keys doors pos inv (a :: rest) =
      match kStep gs obstacles keys doors pos inv a with
      | .ok pos' inv' => kGo goal gs obstacles keys doors pos' inv' rest
      | .fail v => kFlagResult goal pos inv v := rfl

theorem kStep_ok_legal {gs : ℕ} {obstacles : List Coord}
    {keys doors : List (Coord × String)} {pos pos' : Coord} {inv inv' : Inv}
    {a : KAct} (hstep : kStep gs obstacles keys doors pos inv a = .ok pos' inv')
    (H : legalPos gs obstacles doors pos inv) :
    legalPos gs obstacles doors pos' inv' := by
  cases a with
  | pick_up color =>
    simp only [kStep] at hstep
    split at hstep
    · split at hstep
      · obtain ⟨h1, h2⟩ := KStepRes.ok.inj hstep
        subst h1; subst h2
        exact ⟨H.1, H.2.1, fun c' hc' => Finset.mem_insert_of_mem (H.2.2 c' hc')⟩
      · cases hstep
    · cases hstep
  | unlock color =>
    simp only [kStep] at hstep
    split at hstep
    · obtain ⟨h1, h2⟩ := KStepRes.ok.inj hstep
      subst h1; subst h2; exact H
    · cases hstep
  | dir d =>
    simp only [kStep] at hstep
    split at hstep
    · obtain ⟨h1, h2⟩ := KStepRes.ok.inj hstep
      subst h1; subst h2; exact H
    · rename_i v hl
      split at hstep
      · cases hstep
      · split at hstep
        · cases hstep
        · rename_i hb ho
          split at hstep
          · rename_i c hd
            split at hstep
            · cases hstep
            · rename_i hcin
              obtain ⟨h1, h2⟩ := KStepRes.ok.inj hstep
              subst h1; subst h2
              refine ⟨by simpa using hb, ho, fun c' hc' => ?_⟩
              rw [hd] at hc'
              cases hc'
              simpa using hcin
          · rename_i hd
            obtain ⟨h1, h2⟩ := KStepRes.ok.inj hstep
            subst h1; subst h2
            exact ⟨by simpa using hb, ho, fun c' hc' => by rw [hd] at hc'; cases hc'⟩

/-- Throughout a key-lock replay the tracked configuration stays legal:
in bounds, off obstacles, and on a door cell only with the matching key
held. -/
theorem kGo_final_legal {gs : ℕ} {obstacles : List Coord}
    {keys doors : List (Coord × String)} {goal : Coord}
    (as : List KAct) (pos : Coord) (inv : Inv)
    (H : legalPos gs obstacles doors pos inv) :
    legalPos gs obstacles doors
      (kGo goal gs obstacles keys doors pos inv as).final_position
      (kGo goal gs obstacles keys doors pos inv as).inventory := by
  induction as generalizing pos inv with
  | nil => exact H
  | cons a rest ih =>
    rw [kGo_cons]
    cases hstep : kStep gs obstacles keys doors pos inv a with
    | ok pos' inv' => exact ih pos' inv' (kStep_ok_legal hstep H)
    | fail v => cases v <;> exact H

/-- If the key-lock playback set a flag, there is a first violating action:
the prefix before it replays clean, and the result is exactly the break
result of that violation at the last legal configuration. -/
theorem kGo_first_violation {gs : ℕ} {obstacles : List Coord}
    {keys doors : List (Coord × String)} {goal : Coord} :
    ∀ (as : List KAct) (pos : Coord) (inv : Inv),
      ¬ kNoFlags (kGo goal gs obstacles keys doors pos inv as) →
      ∃ n, ∃ hn : n < as.length, ∃ v : KViol,
        kNoFlags (kGo goal gs obstacles keys doors pos inv (as.take n)) ∧
        kStep gs obstacles keys doors
          (kGo goal gs obstacles keys doors pos inv (as.take n)).final_position
          (kGo goal gs obstacles keys doors pos inv (as.take n)).inventory
          (as.get ⟨n, hn⟩) = .fail v ∧
        kGo goal gs obstacles keys doors pos inv as =
          kFlagResult goal
            (kGo goal gs obstacles keys doors pos inv (as.take n)).final_position
            (kGo goal gs obstacles keys doors pos inv (as.take n)).inventory v := by
  intro as
  induction as with
  | nil => intro pos inv h; exact absurd ⟨rfl, rfl, rfl, rfl, rfl⟩ h
  | cons a rest ih =>
    intro pos inv h
    revert h
    rw [kGo_cons]
    cases hstep : kStep gs obstacles keys doors pos inv a with
    | ok pos' inv' =>
      intro h
      obtain ⟨n, hn, v, hcl, hviol, heq⟩ := ih pos' inv' h
      refine ⟨n + 1, by simpa using Nat.succ_lt_succ hn, v, ?_, ?_, ?_⟩
      · simp only [List.take_succ_cons]
        rw [kGo_cons, hstep]
        exact hcl
      · simp only [List.take_succ_cons, List.get_cons_succ]
        rw [kGo_cons, hstep]
        exact hviol
      · simp only [List.take_succ_cons]
        rw [kGo_cons, hstep]
        exact heq
    | fail v =>
      intro _
      exact ⟨0, by simp, v, ⟨rfl, rfl, rfl, rfl, rfl⟩, hstep, rfl⟩

theorem ktryAdd_invalid (sc : KeyLockScenario) (st : KDistractorState)
    (cand : List KAct)
    (H : ∀ d ∈ st.distractors,
      is_action_seq_invalid sc.start sc.goal sc.obstacles sc.keys sc.doors d = true) :
    ∀ d ∈ (ktryAdd sc st cand).distractors,
      is_action_seq_invalid sc.start sc.goal sc.obstacles sc.keys sc.doors d = true := by
  unfold ktryAdd
  split
  · exact H
  · split
    · exact H
    · rename_i hused hgate
      intro d hd
      rcases List.mem_append.mp hd with h | h
      · exact H d h
      · rcases List.mem_singleton.mp h with rfl
        exact not_not.mp hgate

theorem ktryAdd_discard (sc : KeyLockScenario) (st : KDistractorState)
    (cand : List KAct)
    (h : is_action_seq_invalid sc.start sc.goal sc.obstacles sc.keys sc.doors cand = false) :
    ktryAdd sc st cand = st := by
  unfold ktryAdd
  split
  · rfl
  · rw [if_pos]
    simp [h]

theorem kAddCapped_invalid (sc : KeyLockScenario) (num : ℕ)
    (cands : List (List KAct)) (st : KDistractorState)
    (H : ∀ d ∈ st.distractors,
      is_action_seq_invalid sc.start sc.goal sc.obstacles sc.keys sc.doors d = true) :
    ∀ d ∈ (kAddCapped sc num st cands).distractors,
      is_action_seq_invalid sc.start sc.goal sc.obstacles sc.keys sc.doors d = true := by
  induction cands generalizing st with
  | nil => exact H
  | cons c t ih =>
    show ∀ d ∈ (List.foldl _ (if num ≤ st.distractors.length then st else ktryAdd sc st c) t).distractors, _
    split
    · exact ih st H
    · exact ih _ (ktryAdd_invalid sc st c H)

theorem kgdSwap_invalid (sc : KeyLockScenario) (st : KDistractorState)
    (H : ∀ d ∈ st.distractors,
      is_action_seq_invalid sc.start sc.goal sc.obstacles sc.keys sc.doors d = true) :
    ∀ d ∈ (kgdSwap sc st).distractors,
      is_action_seq_invalid sc.start sc.goal sc.obstacles sc.keys sc.doors d = true := by
  unfold kgdSwap
  split
  · exact ktryAdd_invalid sc st _ H
  · exact H

/-- Every distractor returned by the key-lock synthesiser replays as invalid
on its own instance. -/
theorem keylock_generate_distractors_invalid (sc : KeyLockScenario)
    (rand4 rand5 : List (List KAct)) (num : ℕ) :
    ∀ d ∈ keylock_generate_distractors sc rand4 rand5 num,
      is_action_seq_invalid sc.start sc.goal sc.obstacles sc.keys sc.doors d = true := by
  unfold keylock_generate_distractors
  split
  · intro d hd; cases hd
  · intro d hd
    have base : ∀ x ∈ (⟨[], [sc.solution_actions]⟩ : KDistractorState).distractors,
        is_action_seq_invalid sc.start sc.goal sc.obstacles sc.keys sc.doors x = true := by
      intro x hx; cases hx
    exact kAddCapped_invalid sc num _ _
      (kAddCapped_invalid sc num _ _
        (kgdSwap_invalid sc _
          (ktryAdd_invalid sc _ (kNoUnlock sc.solution_actions)
            (ktryAdd_invalid sc _ (kNoPickup sc.solution_actions) base))))
      d (List.mem_of_mem_take hd)

theorem ktryAdd_inv (sc : KeyLockScenario) (correct : List KAct)
    (st : KDistractorState) (cand : List KAct) (H : KDistractorInv correct st) :
    KDistractorInv correct (ktryAdd sc st cand) := by
  obtain ⟨hc, hnd, hcn, hsub⟩ := H
  unfold ktryAdd
  split
  · exact ⟨hc, hnd, hcn, hsub⟩
  · split
    · exact ⟨hc, hnd, hcn, hsub⟩
    · rename_i hused _
      refine ⟨List.mem_append_left _ hc, ?_, ?_, ?_⟩
      · refine List.Nodup.append hnd (List.nodup_singleton _) ?_
        intro a ha hb
        rcases List.mem_singleton.mp hb with rfl
        exact hused (hsub a ha)
      · intro h
        rcases List.mem_append.mp h with h | h
        · exact hcn h
        · rcases List.mem_singleton.mp h with rfl
          exact hused hc
      · intro x hx
        rcases List.mem_append.mp hx with h | h
        · exact List.mem_append_left _ (hsub x h)
        · rcases List.mem_singleton.mp h with rfl
          exact List.mem_append_right _ (List.mem_singleton_self _)

theorem kAddCapped_inv (sc : KeyLockScenario) (correct : List KAct) (num : ℕ)
    (cands : List (List KAct)) (st : KDistractorState) (H : KDistractorInv correct st) :
    KDistractorInv correct (kAddCapped sc num st cands) := by
  induction cands generalizing st with
  | nil => exact H
  | cons c t ih =>
    show KDistractorInv correct (List.foldl _ (if num ≤ st.distractors.length then st else ktryAdd sc st c) t)
    split
    · exact ih st H
    · exact ih _ (ktryAdd_inv sc correct st c H)

theorem kgdSwap_inv (sc : KeyLockScenario) (correct : List KAct)
    (st : KDistractorState) (H : KDistractorInv correct st) :
    KDistractorInv correct (kgdSwap sc st) := by
  unfold kgdSwap
  split
  · exact ktryAdd_inv sc correct st _ H
  · exact H

/-- The key-lock distractor list is duplicate-free and never contains the
canonical answer. -/
theorem keylock_generate_distractors_inv (sc : KeyLockScenario)
    (rand4 rand5 : List (List KAct)) (num : ℕ) :
    (keylock_generate_distractors sc rand4 rand5 num).Nodup ∧
      sc.solution_actions ∉ keylock_generate_distractors sc rand4 rand5 num := by
  unfold keylock_generate_distractors
  split
  · exact ⟨List.nodup_nil, List.not_mem_nil _⟩
  · have base : KDistractorInv sc.solution_actions ⟨[], [sc.solution_actions]⟩ :=
      ⟨List.mem_singleton_self _, List.nodup_nil, List.not_mem_nil _,
        fun x hx => absurd hx (List.not_mem_nil x)⟩
    have h5 := kAddCapped_inv sc sc.solution_actions num (rand5.take 100) _
      (kAddCapped_inv sc sc.solution_actions num (rand4.take 100) _
        (kgdSwap_inv sc sc.solution_actions _
          (ktryAdd_inv sc sc.solution_actions _ (kNoUnlock sc.solution_actions)
            (ktryAdd_inv sc sc.solution_actions _ (kNoPickup sc.solution_actions) base))))
    exact ⟨List.Nodup.sublist (List.take_sublist _ _) h5.2.1,
      fun h => h5.2.2.1 (List.mem_of_mem_take h)⟩

/-- The key-lock assembler discards any instance with fewer than 3
distractors. -/
theorem keylock_doc_none (sc : KeyLockScenario) (distractors : List (List KAct))
    (order : List ℕ) (h : distractors.length < 3) :
    keylock_scenario_to_eval_doc sc distractors order = none := by
  unfold keylock_scenario_to_eval_doc
  rw [if_pos h]

/-- A discarded document emits nothing in the main loop. -/
theorem keylock_iter_skip (d : KDraw) (st : KRunState) (sc : KeyLockScenario)
    (hsc : d.scenario = some sc)
    (hnone : keylock_scenario_to_eval_doc sc
      (keylock_generate_distractors sc d.rand4 d.rand5) d.order = none) :
    (keylock_iter d st).docs = st.docs := by
  unfold keylock_iter
  rw [hsc]
  simp only
  split
  · rfl
  · rw [hnone]

theorem keylock_iter_dedup (d : KDraw) (st : KRunState)
    (H : (st.docs.map Prod.fst).Nodup ∧
      ∀ fp ∈ st.docs.map Prod.fst, fp ∈ st.fingerprints) :
    ((keylock_iter d st).docs.map Prod.fst).Nodup ∧
      ∀ fp ∈ (keylock_iter d st).docs.map Prod.fst,
        fp ∈ (keylock_iter d st).fingerprints := by
  obtain ⟨hnd, hsub⟩ := H
  unfold keylock_iter
  cases d.scenario with
  | none => exact ⟨hnd, hsub⟩
  | some sc =>
    simp only
    split
    · exact ⟨hnd, hsub⟩
    · rename_i hnew
      cases hdoc : keylock_scenario_to_eval_doc sc
          (keylock_generate_distractors sc d.rand4 d.rand5) d.order with
      | none =>
        refine ⟨hnd, fun fp hfp => List.mem_append_left _ (hsub fp hfp)⟩
      | some doc =>
        constructor
        · rw [List.map_append]
          refine List.Nodup.append hnd (List.nodup_singleton _) ?_
          intro a ha hb
          rcases List.mem_singleton.mp hb with rfl
          exact hnew (hsub _ ha)
        · intro fp hfp
          rw [List.map_append] at hfp
          rcases List.mem_append.mp hfp with h | h
          · exact List.mem_append_left _ (hsub fp h)
          · rcases List.mem_singleton.mp h with rfl
            exact List.mem_append_right _ (List.mem_singleton_self _)

/-- No two documents emitted by the key-lock loop share a fingerprint. -/
theorem keylock_loop_dedup (n : ℕ) (draw : ℕ → KDraw) :
    ∀ (fuel : ℕ) (st : KRunState),
      ((st.docs.map Prod.fst).Nodup ∧
        ∀ fp ∈ st.docs.map Prod.fst, fp ∈ st.fingerprints) →
      ((keylock_loop n draw fuel st).docs.map Prod.fst).Nodup := by
  intro fuel
  induction fuel with
  | zero => exact fun st H => H.1
  | succ m ih =>
    intro st H
    show ((if keylock_guard st n then _ else st).docs.map Prod.fst).Nodup
    split
    · exact ih _ (keylock_iter_dedup _ _ H)
    · exact H.1

/-- On a draw stream whose scenarios are all rejected, the key-lock loop
makes no progress: after `k` observed iterations there are still no
documents, `k` attempts have been counted, and the loop guard still holds —
the source loop has no attempt ceiling and never exits. -/
theorem keylock_fail_loop (n : ℕ) (hn : 0 < n) :
    ∀ (k a : ℕ), keylock_loop n (fun _ => ⟨none, [], [], []⟩) k ⟨[], [], a⟩ =
      ⟨[], [], a + k⟩ := by
  intro k
  induction k with
  | zero => intro a; rfl
  | succ m ih =>
    intro a
    show (if keylock_guard ⟨[], [], a⟩ n then _ else _) = _
    rw [if_pos (by simpa [keylock_guard] using hn)]
    show keylock_loop n _ m ⟨[], [], a + 1⟩ = _
    rw [ih (a + 1)]
    congr 1
    omega

/-- `keylock_scenario_to_eval_doc` invariant: any emitted document contains
the canonical action sequence exactly once, at the recorded gold index. -/
theorem keylock_doc_gold (sc : KeyLockScenario) (rand4 rand5 : List (List KAct))
    (order : List ℕ) (doc : KEvalDoc) (hord : order.Perm [0, 1, 2, 3])
    (hdoc : keylock_scenario_to_eval_doc sc
      (keylock_generate_distractors sc rand4 rand5 3) order = some doc) :
    doc.choices.count sc.solution_actions = 1 ∧
      ∃ h : doc.gold < doc.choices.length,
        doc.choices.get ⟨doc.gold, h⟩ = sc.solution_actions := by
  have hinv := keylock_generate_distractors_inv sc rand4 rand5 3
  unfold keylock_scenario_to_eval_doc at hdoc
  split at hdoc
  · cases hdoc
  · rename_i hlen
    have hlen3 : ((keylock_generate_distractors sc rand4 rand5 3).take 3).length = 3 := by
      rw [List.length_take]
      omega
    obtain ⟨a, b, c, ht⟩ := List.length_eq_three.mp hlen3
    have hamem : a ∈ keylock_generate_distractors sc rand4 rand5 3 :=
      List.mem_of_mem_take (by rw [ht]; exact List.mem_cons_self a _)
    have hbmem : b ∈ keylock_generate_distractors sc rand4 rand5 3 :=
      List.mem_of_mem_take (by rw [ht]; simp)
    have hcmem : c ∈ keylock_generate_distractors sc rand4 rand5 3 :=
      List.mem_of_mem_take (by rw [ht]; simp)
    have ha : a ≠ sc.solution_actions := fun e => hinv.2 (e ▸ hamem)
    have hb : b ≠ sc.solution_actions := fun e => hinv.2 (e ▸ hbmem)
    have hc : c ≠ sc.solution_actions := fun e => hinv.2 (e ▸ hcmem)
    rw [ht] at hdoc
    obtain rfl := (Option.some.inj hdoc).symm
    simp only [List.cons_append, List.nil_append]
    constructor
    · have h2 : (order.map (fun i => ([a, b, c, sc.solution_actions] :
          List (List KAct)).getD i [])).count sc.solution_actions
          = (([0, 1, 2, 3] : List ℕ).map (fun i => ([a, b, c, sc.solution_actions] :
            List (List KAct)).getD i [])).count sc.solution_actions := by
        simp only [List.count]
        exact (hord.map _).countP_eq _
      show (order.map _).count _ = 1
      rw [h2]
      show ([a, b, c, sc.solution_actions] : List (List KAct)).count sc.solution_actions = 1
      simp [List.count_cons, Ne.symm ha, Ne.symm hb, Ne.symm hc]
    · have h3mem : (3 : ℕ) ∈ order := hord.mem_iff.mpr (by decide)
      obtain ⟨hg, hgev⟩ := indexOf_spec 3 order h3mem
      have hlt : order.indexOf 3 < (order.map (fun i => ([a, b, c, sc.solution_actions] :
          List (List KAct)).getD i [])).length := by
        rw [List.length_map]; exact hg
      refine ⟨hlt, ?_⟩
      show (order.map _).get _ = _
      rw [List.get_map, hgev]
      rfl

/-! ### BFS support lemmas -/

/-- A duplicate-free list inside a finite set is no longer than the set. -/
theorem nodup_subset_card {α : Type} [DecidableEq α] {l : List α}
    {s : Finset α} (hnd : l.Nodup) (hsub : ∀ x ∈ l, x ∈ s) :
    l.length ≤ s.card := by
  classical
  have h1 : l.toFinset.card = l.length := List.toFinset_card_of_nodup hnd
  have h3 : l.toFinset.card ≤ s.card :=
    Finset.card_le_card fun x hx => hsub x (List.mem_toFinset.mp hx)
  omega

theorem ktrans_count_append (as bs : List KAct) :
    ktrans_count (as ++ bs) = ktrans_count as + ktrans_count bs := by
  unfold ktrans_count
  rw [List.filter_append, List.length_append]

/-- Every transition label counts exactly one transition. -/
theorem KTrans.count_one {gs : ℕ} {obstacles : List Coord}
    {keys doors : List (Coord × String)} {s t : KState} {g : List KAct}
    (h : KTrans gs obstacles keys doors s g t) : ktrans_count g = 1 := by
  cases h <;> rfl

theorem KWalkN_zero {gs : ℕ} {obstacles : List Coord}
    {keys doors : List (Coord × String)} {s z : KState} {as : List KAct}
    (h : KWalkN gs obstacles keys doors s as z 0) : z = s ∧ as = [] := by
  cases h
  exact ⟨rfl, rfl⟩

/-- The transition count of a walk's action list is its length. -/
theorem KWalkN.count_eq {gs : ℕ} {obstacles : List Coord}
    {keys doors : List (Coord × String)} {s : KState} :
    ∀ {as : List KAct} {z : KState} {n : ℕ},
      KWalkN gs obstacles keys doors s as z n → ktrans_count as = n := by
  intro as z n h
  induction h with
  | nil => rfl
  | snoc _ htr ih => rw [ktrans_count_append, ih, htr.count_one]

/-- Prepending a transition to a walk. -/
theorem KWalkN_prepend {gs : ℕ} {obstacles : List Coord}
    {keys doors : List (Coord × String)} {s t : KState} {g : List KAct}
    (htr : KTrans gs obstacles keys doors s g t) :
    ∀ {as : List KAct} {u : KState} {n : ℕ},
      KWalkN gs obstacles keys doors t as u n →
      KWalkN gs obstacles keys doors s (g ++ as) u (n + 1) := by
  intro as u n h
  induction h with
  | nil =>
    have h0 := KWalkN.snoc (KWalkN.nil (s := s)) htr
    simpa using h0
  | snoc hw htr2 ih =>
    have h2 := KWalkN.snoc ih htr2
    rw [List.append_assoc] at h2
    exact h2

theorem lookup_mem_snd {α β : Type} [BEq α] {l : List (α × β)} {a : α} {b : β}
    (h : l.lookup a = some b) : b ∈ l.map Prod.snd := by
  induction l with
  | nil => cases h
  | cons p t ih =>
    rw [List.lookup] at h
    split at h
    · obtain rfl := Option.some.inj h
      exact List.mem_map_of_mem _ (List.mem_cons_self _ _)
    · exact List.mem_cons_of_mem _ (ih h)

/-- Transitions stay inside the finite state space. -/
theorem KTrans_space {gs : ℕ} {obstacles : List Coord} {start : Coord}
    {keys doors : List (Coord × String)} {s t : KState} {g : List KAct}
    (hs : s ∈ KSfinset gs obstacles start keys)
    (h : KTrans gs obstacles keys doors s g t) :
    t ∈ KSfinset gs obstacles start keys := by
  unfold KSfinset at hs ⊢
  rw [Finset.mem_product] at hs ⊢
  cases h with
  | pickup hk hni =>
    refine ⟨hs.1, ?_⟩
    rw [Finset.mem_powerset] at hs ⊢
    refine Finset.insert_subset ?_ hs.2
    rw [List.mem_toFinset]
    exact lookup_mem_snd hk
  | move hd hnp hb ho hdo =>
    refine ⟨?_, hs.2⟩
    exact Finset.mem_insert_of_mem
      (Spatial.legalCell_mem_legalFinset.mp ⟨hb, ho⟩)
  | door hd hnp hb ho hdo hc =>
    refine ⟨?_, hs.2⟩
    exact Finset.mem_insert_of_mem
      (Spatial.legalCell_mem_legalFinset.mp ⟨hb, ho⟩)

/-- The pick-up expansion either leaves the accumulator unchanged or pushes
a single fresh entry reached by a pick-up transition. -/
theorem bfsPickup_spec (keys doors : List (Coord × String)) (gs : ℕ)
    (obstacles : List Coord) (e : BEntry) (acc : List BEntry × List KState) :
    bfsPickup keys e acc = acc ∨
    ∃ c : BEntry, bfsPickup keys e acc = (acc.1 ++ [c], acc.2 ++ [c.state]) ∧
      c.state ∉ acc.2 ∧ ∃ g, c.actions = e.actions ++ g ∧
        KTrans gs obstacles keys doors e.state g c.state := by
  unfold bfsPickup
  cases hk : keys.lookup e.pos with
  | none => exact Or.inl rfl
  | some color =>
    simp only
    split
    · rename_i hni
      split
      · rename_i hfresh
        exact Or.inr ⟨⟨e.pos, insert color e.inv, e.path ++ [e.pos],
          e.actions ++ [.pick_up color]⟩, rfl, hfresh, [.pick_up color], rfl,
          KTrans.pickup hk hni⟩
      · exact Or.inl rfl
    · exact Or.inl rfl

/-- One directional move either leaves the accumulator unchanged or pushes
a single fresh entry reached by a move or door transition. -/
theorem bfsMove_spec (gs : ℕ) (obstacles : List Coord)
    (keys doors : List (Coord × String)) (e : BEntry)
    (acc : List BEntry × List KState) (d : Coord)
    (hd : d ∈ Spatial.DIRECTIONS) :
    bfsMove gs obstacles doors e acc d = acc ∨
    ∃ c : BEntry, bfsMove gs obstacles doors e acc d =
        (acc.1 ++ [c], acc.2 ++ [c.state]) ∧
      c.state ∉ acc.2 ∧ ∃ g, c.actions = e.actions ++ g ∧
        KTrans gs obstacles keys doors e.state g c.state := by
  simp only [bfsMove]
  split
  · rename_i hb
    split
    · exact Or.inl rfl
    · rename_i ho
      cases hdo : doors.lookup ((e.pos.1 + d.1, e.pos.2 + d.2) : Spatial.Coord) with
      | some color =>
        simp only
        split
        · rename_i hc
          split
          · rename_i hfresh
            exact Or.inr ⟨⟨(e.pos.1 + d.1, e.pos.2 + d.2), e.inv,
              e.path ++ [(e.pos.1 + d.1, e.pos.2 + d.2)],
              e.actions ++ [.unlock color,
                .dir ((Spatial.DIR_NAMES.lookup d).getD "")]⟩, rfl, hfresh,
              [.unlock color, .dir ((Spatial.DIR_NAMES.lookup d).getD "")], rfl,
              KTrans.door hd rfl hb ho hdo hc⟩
          · exact Or.inl rfl
        · exact Or.inl rfl
      | none =>
        simp only
        split
        · rename_i hfresh
          exact Or.inr ⟨⟨(e.pos.1 + d.1, e.pos.2 + d.2), e.inv,
            e.path ++ [(e.pos.1 + d.1, e.pos.2 + d.2)],
            e.actions ++ [.dir ((Spatial.DIR_NAMES.lookup d).getD "")]⟩, rfl,
            hfresh, [.dir ((Spatial.DIR_NAMES.lookup d).getD "")], rfl,
            KTrans.move hd rfl hb ho hdo⟩
        · exact Or.inl rfl
  · exact Or.inl rfl

/-- The move fold appends a batch of fresh entries, each reached by one
transition out of the expanded state. -/
theorem bfsMoveFold_spec (gs : ℕ) (obstacles : List Coord)
    (keys doors : List (Coord × String)) (e : BEntry) :
    ∀ (ds : List Spatial.Coord), (∀ d ∈ ds, d ∈ Spatial.DIRECTIONS) →
      ∀ (acc : List BEntry × List KState),
      ∃ extra, ds.foldl (bfsMove gs obstacles doors e) acc =
          (acc.1 ++ extra, acc.2 ++ extra.map BEntry.state) ∧
        ∀ c ∈ extra, c.state ∉ acc.2 ∧
          ∃ g, c.actions = e.actions ++ g ∧
            KTrans gs obstacles keys doors e.state g c.state := by
  intro ds
  induction ds with
  | nil =>
    intro _ acc
    exact ⟨[], by simp, fun c hc => absurd hc (List.not_mem_nil c)⟩
  | cons d rest ih =>
    intro hds acc
    rw [List.foldl_cons]
    rcases bfsMove_spec gs obstacles keys doors e acc d
        (hds d (List.mem_cons_self _ _)) with h | ⟨c, heq, hfresh, g, hact, htr⟩
    · rw [h]
      exact ih (fun x hx => hds x (List.mem_cons_of_mem _ hx)) acc
    · rw [heq]
      obtain ⟨extra, hfold, hsound⟩ :=
        ih (fun x hx => hds x (List.mem_cons_of_mem _ hx))
          (acc.1 ++ [c], acc.2 ++ [c.state])
      refine ⟨c :: extra, ?_, ?_⟩
      · rw [hfold]
        simp [List.append_assoc]
      · intro c2 hc2
        rcases List.mem_cons.mp hc2 with rfl | hc2r
        · exact ⟨hfresh, g, hact, htr⟩
        · obtain ⟨hfr2, hg2⟩ := hsound c2 hc2r
          exact ⟨fun hmem => hfr2 (List.mem_append_left _ hmem), hg2⟩

/-- The move fold preserves freedom from duplicates of the visited list. -/
theorem bfsMoveFold_nodup (gs : ℕ) (obstacles : List Coord)
    (doors : List (Coord × String)) (e : BEntry) :
    ∀ (ds : List Spatial.Coord), (∀ d ∈ ds, d ∈ Spatial.DIRECTIONS) →
      ∀ (acc : List BEntry × List KState), acc.2.Nodup →
      (ds.foldl (bfsMove gs obstacles doors e) acc).2.Nodup := by
  intro ds
  induction ds with
  | nil => intro _ acc h; exact h
  | cons d rest ih =>
    intro hds acc h
    rw [List.foldl_cons]
    rcases bfsMove_spec gs obstacles [] doors e acc d
        (hds d (List.mem_cons_self _ _)) with heq | ⟨c, heq, hfresh, _⟩
    · rw [heq]
      exact ih (fun x hx => hds x (List.mem_cons_of_mem _ hx)) acc h
    · rw [heq]
      refine ih (fun x hx => hds x (List.mem_cons_of_mem _ hx)) _ ?_
      exact List.nodup_append.mpr ⟨h, List.nodup_singleton _,
        fun x hx hmem => by
          rcases List.mem_singleton.mp hmem with rfl
          exact hfresh hx⟩

/-- The visited list only grows across one move. -/
theorem bfsMove_mono (gs : ℕ) (obstacles : List Coord)
    (doors : List (Coord × String)) (e : BEntry)
    (acc : List BEntry × List KState) (d : Spatial.Coord) :
    ∀ s ∈ acc.2, s ∈ (bfsMove gs obstacles doors e acc d).2 := by
  intro s hs
  simp only [bfsMove]
  split
  · split
    · exact hs
    · split
      · split
        · split
          · exact List.mem_append_left _ hs
          · exact hs
        · exact hs
      · split
        · exact List.mem_append_left _ hs
        · exact hs
  · exact hs

/-- The visited list only grows across the move fold. -/
theorem bfsMoveFold_mono (gs : ℕ) (obstacles : List Coord)
    (doors : List (Coord × String)) (e : BEntry) :
    ∀ (ds : List Spatial.Coord) (acc : List BEntry × List KState),
      ∀ s ∈ acc.2, s ∈ (ds.foldl (bfsMove gs obstacles doors e) acc).2 := by
  intro ds
  induction ds with
  | nil => intro acc s hs; exact hs
  | cons d rest ih =>
    intro acc s hs
    rw [List.foldl_cons]
    exact ih _ s (bfsMove_mono gs obstacles doors e acc d s hs)

/-- Processing a direction whose move transition is admissible marks the
target state visited. -/
theorem bfsMove_self_complete (gs : ℕ) (obstacles : List Coord)
    (doors : List (Coord × String)) (e : BEntry)
    (acc : List BEntry × List KState) (d : Spatial.Coord)
    (hb : inBounds gs (e.pos.1 + d.1, e.pos.2 + d.2) = true)
    (ho : ((e.pos.1 + d.1, e.pos.2 + d.2) : Spatial.Coord) ∉ obstacles)
    (hdo : doors.lookup ((e.pos.1 + d.1, e.pos.2 + d.2) : Spatial.Coord) = none ∨
      ∃ c, doors.lookup ((e.pos.1 + d.1, e.pos.2 + d.2) : Spatial.Coord) = some c ∧
        c ∈ e.inv) :
    (((e.pos.1 + d.1, e.pos.2 + d.2), e.inv) : KState) ∈
      (bfsMove gs obstacles doors e acc d).2 := by
  simp only [bfsMove]
  rw [if_pos hb, if_neg ho]
  rcases hdo with hdo | ⟨c, hdo, hc⟩
  · rw [hdo]
    simp only
    split
    · exact List.mem_append_right _ (List.mem_singleton_self _)
    · rename_i hmem
      exact not_not.mp hmem
  · rw [hdo]
    simp only
    rw [if_pos hc]
    split
    · exact List.mem_append_right _ (List.mem_singleton_self _)
    · rename_i hmem
      exact not_not.mp hmem

/-- The move fold marks every admissible move target visited. -/
theorem bfsMoveFold_complete (gs : ℕ) (obstacles : List Coord)
    (doors : List (Coord × String)) (e : BEntry) :
    ∀ (ds : List Spatial.Coord) (acc : List BEntry × List KState)
      (d : Spatial.Coord), d ∈ ds →
      inBounds gs (e.pos.1 + d.1, e.pos.2 + d.2) = true →
      ((e.pos.1 + d.1, e.pos.2 + d.2) : Spatial.Coord) ∉ obstacles →
      (doors.lookup ((e.pos.1 + d.1, e.pos.2 + d.2) : Spatial.Coord) = none ∨
        ∃ c, doors.lookup ((e.pos.1 + d.1, e.pos.2 + d.2) : Spatial.Coord) =
          some c ∧ c ∈ e.inv) →
      (((e.pos.1 + d.1, e.pos.2 + d.2), e.inv) : KState) ∈
        (ds.foldl (bfsMove gs obstacles doors e) acc).2 := by
  intro ds
  induction ds with
  | nil => intro acc d hd; exact absurd hd (List.not_mem_nil d)
  | cons d0 rest ih =>
    intro acc d hd hb ho hdo
    rw [List.foldl_cons]
    rcases List.mem_cons.mp hd with rfl | hdr
    · exact bfsMoveFold_mono gs obstacles doors e rest _ _
        (bfsMove_self_complete gs obstacles doors e acc d hb ho hdo)
    · exact ih _ d hdr hb ho hdo

/-- The full expansion appends a batch of fresh entries, each one
transition away from the expanded entry, and marks exactly their states
visited. -/
theorem bfsExpand_spec (gs : ℕ) (obstacles : List Coord)
    (keys doors : List (Coord × String)) (e : BEntry)
    (visited : List KState) :
    ∃ extra, bfsExpand gs obstacles keys doors e visited =
        (extra, visited ++ extra.map BEntry.state) ∧
      ∀ c ∈ extra, c.state ∉ visited ∧
        ∃ g, c.actions = e.actions ++ g ∧
          KTrans gs obstacles keys doors e.state g c.state := by
  unfold bfsExpand
  rcases bfsPickup_spec keys doors gs obstacles e ([], visited) with
    h | ⟨c, heq, hfresh, g, hact, htr⟩
  · rw [h]
    obtain ⟨extra, hfold, hsound⟩ := bfsMoveFold_spec gs obstacles keys doors e
      Spatial.DIRECTIONS (fun _ hd => hd) ([], visited)
    exact ⟨extra, by simpa using hfold, hsound⟩
  · rw [heq]
    obtain ⟨extra, hfold, hsound⟩ := bfsMoveFold_spec gs obstacles keys doors e
      Spatial.DIRECTIONS (fun _ hd => hd) (([] : List BEntry) ++ [c], visited ++ [c.state])
    refine ⟨c :: extra, ?_, ?_⟩
    · rw [hfold]
      simp [List.append_assoc]
    · intro c2 hc2
      rcases List.mem_cons.mp hc2 with rfl | hc2r
      · exact ⟨hfresh, g, hact, htr⟩
      · obtain ⟨hfr2, hg2⟩ := hsound c2 hc2r
        exact ⟨fun hmem => hfr2 (List.mem_append_left _ hmem), hg2⟩

/-- The expansion preserves freedom from duplicates of the visited list. -/
theorem bfsExpand_nodup (gs : ℕ) (obstacles : List Coord)
    (keys doors : List (Coord × String)) (e : BEntry)
    (visited : List KState) (h : visited.Nodup) :
    (bfsExpand gs obstacles keys doors e visited).2.Nodup := by
  unfold bfsExpand
  refine bfsMoveFold_nodup gs obstacles doors e Spatial.DIRECTIONS
    (fun _ hd => hd) _ ?_
  rcases bfsPickup_spec keys doors gs obstacles e ([], visited) with
    heq | ⟨c, heq, hfresh, _⟩
  · rw [heq]; exact h
  · rw [heq]
    exact List.nodup_append.mpr ⟨h, List.nodup_singleton _,
      fun x hx hmem => by
        rcases List.mem_singleton.mp hmem with rfl
        exact hfresh hx⟩

/-- Every state one transition away from the expanded entry is visited
after the expansion. -/
theorem bfsExpand_closure (gs : ℕ) (obstacles : List Coord)
    (keys doors : List (Coord × String)) (e : BEntry)
    (visited : List KState) :
    ∀ g t, KTrans gs obstacles keys doors e.state g t →
      t ∈ (bfsExpand gs obstacles keys doors e visited).2 := by
  intro g t htr
  have htr' : KTrans gs obstacles keys doors (e.pos, e.inv) g t := htr
  unfold bfsExpand
  cases htr' with
  | pickup hk hni =>
    refine bfsMoveFold_mono gs obstacles doors e Spatial.DIRECTIONS _ _ ?_
    unfold bfsPickup
    rw [hk]
    simp only
    rw [if_pos hni]
    split
    · exact List.mem_append_right _ (List.mem_singleton_self _)
    · rename_i hmem
      exact not_not.mp hmem
  | move hd hnp hb ho hdo =>
    subst hnp
    exact bfsMoveFold_complete gs obstacles doors e Spatial.DIRECTIONS _ _ hd
      hb ho (Or.inl hdo)
  | door hd hnp hb ho hdo hc =>
    subst hnp
    exact bfsMoveFold_complete gs obstacles doors e Spatial.DIRECTIONS _ _ hd
      hb ho (Or.inr ⟨_, hdo, hc⟩)

/-- All-equal transition counts are pairwise sorted. -/
theorem pairwise_of_const_count (k : ℕ) :
    ∀ (l : List BEntry), (∀ c ∈ l, ktrans_count c.actions = k) →
      l.Pairwise fun a b => ktrans_count a.actions ≤ ktrans_count b.actions := by
  intro l
  induction l with
  | nil => intro _; exact List.Pairwise.nil
  | cons c rest ih =>
    intro h
    refine List.Pairwise.cons ?_ (ih fun x hx => h x (List.mem_cons_of_mem _ hx))
    intro b hb
    rw [h c (List.mem_cons_self _ _), h b (List.mem_cons_of_mem _ hb)]

theorem bfsLoop_succ_cons (gs : ℕ) (obstacles : List Coord)
    (keys doors : List (Coord × String)) (goal : Coord) (fuel : ℕ)
    (e : BEntry) (rest : List BEntry) (visited : List KState) :
    bfsLoop gs obstacles keys doors goal (fuel + 1) (e :: rest) visited =
      if e.pos = goal then some (e.path, e.actions)
      else bfsLoop gs obstacles keys doors goal fuel
        (rest ++ (bfsExpand gs obstacles keys doors e visited).1)
        (bfsExpand gs obstacles keys doors e visited).2 := rfl

/-- Correctness of the BFS loop under the invariant and sufficient fuel:
a returned action list realises a walk to the goal position whose length is
its own transition count, and that count is minimal over all walks ending
at the goal position; `none` means the goal position is unreachable. -/
theorem bfsLoop_spec {gs : ℕ} {obstacles : List Coord}
    {keys doors : List (Coord × String)} {start goal : Coord} :
    ∀ (fuel : ℕ) (queue : List BEntry) (visited : List KState),
      BfsInv gs obstacles keys doors start goal queue visited →
      queue.length + 2 * ((KSfinset gs obstacles start keys).card
        - visited.length) < fuel →
      (∀ pa, bfsLoop gs obstacles keys doors goal fuel queue visited = some pa →
        (∃ inv, KWalkN gs obstacles keys doors (start, ∅) pa.2 (goal, inv)
            (ktrans_count pa.2)) ∧
        ∀ n as z, KWalkN gs obstacles keys doors (start, ∅) as z n →
          z.1 = goal → ktrans_count pa.2 ≤ n) ∧
      (bfsLoop gs obstacles keys doors goal fuel queue visited = none →
        ¬ ∃ as z n, KWalkN gs obstacles keys doors (start, ∅) as z n ∧
          z.1 = goal) := by
  intro fuel
  induction fuel with
  | zero => intro queue visited _ hfuel; omega
  | succ m ih =>
    intro queue visited hINV hfuel
    cases queue with
    | nil =>
      constructor
      · intro pa hpa
        exact Option.noConfusion hpa
      · intro _ h
        obtain ⟨as, z, n, hw, hz⟩ := h
        have hv := hINV.cover n as z hw
          (fun e' he' => absurd he' (List.not_mem_nil e'))
        rcases hINV.goalQueued z hv with ⟨e', he', _⟩ | hne
        · exact absurd he' (List.not_mem_nil e')
        · exact hne hz
    | cons e rest =>
      rw [bfsLoop_succ_cons]
      have hmem_e : e ∈ e :: rest := List.mem_cons_self _ _
      have hD_min : ∀ x ∈ rest,
          ktrans_count e.actions ≤ ktrans_count x.actions :=
        (List.pairwise_cons.mp hINV.sorted).1
      by_cases hgoal : e.pos = goal
      · rw [if_pos hgoal]
        constructor
        · intro pa hpa
          obtain rfl := (Option.some.inj hpa).symm
          constructor
          · refine ⟨e.inv, ?_⟩
            have hw : KWalkN gs obstacles keys doors (start, ∅) e.actions
                (e.pos, e.inv) (ktrans_count e.actions) := hINV.walk e hmem_e
            rw [hgoal] at hw
            exact hw
          · intro n as z hwz hz
            by_cases hzv : z ∈ visited
            · rcases hINV.goalQueued z hzv with ⟨e2, he2, hst⟩ | hne
              · have hopt := hINV.optimal e2 he2 n as (by rw [hst]; exact hwz)
                rcases List.mem_cons.mp he2 with rfl | he2r
                · exact hopt
                · exact le_trans (hD_min e2 he2r) hopt
              · exact absurd hz hne
            · by_contra hlt
              push_neg at hlt
              have hlt' : n < ktrans_count e.actions := hlt
              have hcov : ∀ e' ∈ e :: rest, n ≤ ktrans_count e'.actions := by
                intro e' he'
                rcases List.mem_cons.mp he' with rfl | he'r
                · omega
                · have := hD_min e' he'r
                  omega
              exact hzv (hINV.cover n as z hwz hcov)
        · intro h
          exact Option.noConfusion h
      · rw [if_neg hgoal]
        obtain ⟨extra, hexp, hsound⟩ :=
          bfsExpand_spec gs obstacles keys doors e visited
        rw [hexp]
        have hchild_count : ∀ c ∈ extra,
            ktrans_count c.actions = ktrans_count e.actions + 1 := by
          intro c hc
          obtain ⟨-, g, hact, htr⟩ := hsound c hc
          rw [hact, ktrans_count_append, htr.count_one]
        have hchild_walk : ∀ c ∈ extra,
            KWalkN gs obstacles keys doors (start, ∅) c.actions c.state
              (ktrans_count e.actions + 1) := by
          intro c hc
          obtain ⟨-, g, hact, htr⟩ := hsound c hc
          have hsn := KWalkN.snoc (hINV.walk e hmem_e) htr
          rw [hact]
          exact hsn
        have hchild_opt : ∀ c ∈ extra, ∀ n as,
            KWalkN gs obstacles keys doors (start, ∅) as c.state n →
              ktrans_count e.actions + 1 ≤ n := by
          intro c hc n as hw
          obtain ⟨hfresh, -⟩ := hsound c hc
          by_contra hlt
          push_neg at hlt
          have hcov : ∀ e' ∈ e :: rest, n ≤ ktrans_count e'.actions := by
            intro e' he'
            rcases List.mem_cons.mp he' with rfl | he'r
            · omega
            · have := hD_min e' he'r
              omega
          exact hfresh (hINV.cover n as c.state hw hcov)
        have walk' : ∀ c ∈ rest ++ extra,
            KWalkN gs obstacles keys doors (start, ∅) c.actions c.state
              (ktrans_count c.actions) := by
          intro c hc
          rcases List.mem_append.mp hc with h | h
          · exact hINV.walk c (List.mem_cons_of_mem _ h)
          · rw [hchild_count c h]
            exact hchild_walk c h
        have sorted' : (rest ++ extra).Pairwise
            fun a b => ktrans_count a.actions ≤ ktrans_count b.actions := by
          rw [List.pairwise_append]
          refine ⟨(List.pairwise_cons.mp hINV.sorted).2,
            pairwise_of_const_count (ktrans_count e.actions + 1) extra
              hchild_count, ?_⟩
          intro a ha b hb
          rw [hchild_count b hb]
          have h2 := hINV.twoLevel e hmem_e a (List.mem_cons_of_mem _ ha)
          omega
        have two' : ∀ e1 ∈ rest ++ extra, ∀ e2 ∈ rest ++ extra,
            ktrans_count e2.actions ≤ ktrans_count e1.actions + 1 := by
          intro e1 h1 e2 h2
          rcases List.mem_append.mp h1 with h1 | h1 <;>
            rcases List.mem_append.mp h2 with h2 | h2
          · exact hINV.twoLevel e1 (List.mem_cons_of_mem _ h1) e2
              (List.mem_cons_of_mem _ h2)
          · rw [hchild_count e2 h2]
            have := hD_min e1 h1
            omega
          · rw [hchild_count e1 h1]
            have := hINV.twoLevel e hmem_e e2 (List.mem_cons_of_mem _ h2)
            omega
          · rw [hchild_count e1 h1, hchild_count e2 h2]
            omega
        have opt' : ∀ c ∈ rest ++ extra, ∀ n as,
            KWalkN gs obstacles keys doors (start, ∅) as c.state n →
              ktrans_count c.actions ≤ n := by
          intro c hc n as hw
          rcases List.mem_append.mp hc with h | h
          · exact hINV.optimal c (List.mem_cons_of_mem _ h) n as hw
          · rw [hchild_count c h]
            exact hchild_opt c h n as hw
        have closed' : ∀ s ∈ visited ++ extra.map BEntry.state,
            (∃ c ∈ rest ++ extra, c.state = s) ∨
              ∀ g t, KTrans gs obstacles keys doors s g t →
                t ∈ visited ++ extra.map BEntry.state := by
          intro s hs
          rcases List.mem_append.mp hs with hs | hs
          · rcases hINV.closed s hs with ⟨e2, he2, hst⟩ | hcl
            · rcases List.mem_cons.mp he2 with rfl | he2r
              · right
                intro g t htr
                have htr' : KTrans gs obstacles keys doors e2.state g t := by
                  rw [hst]
                  exact htr
                have hmem := bfsExpand_closure gs obstacles keys doors e2
                  visited g t htr'
                rw [hexp] at hmem
                exact hmem
              · left
                exact ⟨e2, List.mem_append_left _ he2r, hst⟩
            · right
              intro g t htr
              exact List.mem_append_left _ (hcl g t htr)
          · obtain ⟨c, hc, rfl⟩ := List.mem_map.mp hs
            left
            exact ⟨c, List.mem_append_right _ hc, rfl⟩
        have goalQ' : ∀ s ∈ visited ++ extra.map BEntry.state,
            (∃ c ∈ rest ++ extra, c.state = s) ∨ s.1 ≠ goal := by
          intro s hs
          rcases List.mem_append.mp hs with hs | hs
          · rcases hINV.goalQueued s hs with ⟨e2, he2, hst⟩ | hne
            · rcases List.mem_cons.mp he2 with rfl | he2r
              · right
                rw [← hst]
                exact hgoal
              · left
                exact ⟨e2, List.mem_append_left _ he2r, hst⟩
            · right
              exact hne
          · obtain ⟨c, hc, rfl⟩ := List.mem_map.mp hs
            left
            exact ⟨c, List.mem_append_right _ hc, rfl⟩
        have qmem' : ∀ c ∈ rest ++ extra,
            c.state ∈ visited ++ extra.map BEntry.state := by
          intro c hc
          rcases List.mem_append.mp hc with h | h
          · exact List.mem_append_left _ (hINV.qmem c (List.mem_cons_of_mem _ h))
          · exact List.mem_append_right _ (List.mem_map_of_mem _ h)
        have nodup' : (visited ++ extra.map BEntry.state).Nodup := by
          have h := bfsExpand_nodup gs obstacles keys doors e visited hINV.nodup
          rw [hexp] at h
          exact h
        have space' : ∀ s ∈ visited ++ extra.map BEntry.state,
            s ∈ KSfinset gs obstacles start keys := by
          intro s hs
          rcases List.mem_append.mp hs with hs | hs
          · exact hINV.space s hs
          · obtain ⟨c, hc, rfl⟩ := List.mem_map.mp hs
            obtain ⟨-, g, hact, htr⟩ := hsound c hc
            exact KTrans_space (hINV.space e.state (hINV.qmem e hmem_e)) htr
        have cover' : ∀ n as z,
            KWalkN gs obstacles keys doors (start, ∅) as z n →
            (∀ c ∈ rest ++ extra, n ≤ ktrans_count c.actions) →
            z ∈ visited ++ extra.map BEntry.state := by
          intro n as z hw
          induction hw with
          | nil =>
            intro _
            exact List.mem_append_left _ (hINV.cover 0 [] (start, ∅) KWalkN.nil
              fun e' he' => Nat.zero_le _)
          | snoc hw2 htr ih2 =>
            rename_i as' t u g n'
            intro hcov
            have ht : t ∈ visited ++ extra.map BEntry.state :=
              ih2 fun c hc => le_trans (Nat.le_succ n') (hcov c hc)
            by_cases hqt : ∃ c ∈ rest ++ extra, c.state = t
            · obtain ⟨c, hc, hcs⟩ := hqt
              have h1 := opt' c hc n' as' (by rw [hcs]; exact hw2)
              have h2 := hcov c hc
              omega
            · rcases List.mem_append.mp ht with htv | htm
              · rcases hINV.closed t htv with ⟨e2, he2, hst⟩ | hcl
                · rcases List.mem_cons.mp he2 with rfl | he2r
                  · have htr' : KTrans gs obstacles keys doors e2.state g u := by
                      rw [hst]
                      exact htr
                    have hmem := bfsExpand_closure gs obstacles keys doors e2
                      visited g u htr'
                    rw [hexp] at hmem
                    exact hmem
                  · exact absurd ⟨e2, List.mem_append_left _ he2r, hst⟩ hqt
                · exact List.mem_append_left _ (hcl g u htr)
              · obtain ⟨c, hc, hcs⟩ := List.mem_map.mp htm
                exact absurd ⟨c, List.mem_append_right _ hc, hcs⟩ hqt
        have hlen' : (visited ++ extra.map BEntry.state).length ≤
            (KSfinset gs obstacles start keys).card :=
          nodup_subset_card nodup' space'
        refine ih (rest ++ extra) (visited ++ extra.map BEntry.state)
          ⟨walk', sorted', two', opt', closed', goalQ', cover', qmem',
            nodup', space'⟩ ?_
        simp only [List.length_append, List.length_map] at hlen' ⊢
        simp only [List.length_cons] at hfuel
        omega
/-- `bfs_with_keys` returns an action list realising a transition-minimal
walk to the goal position, and `none` exactly when no walk reaches it. -/
theorem bfs_with_keys_spec (gs : ℕ) (start goal : Coord)
    (obstacles : List Coord) (keys doors : List (Coord × String)) :
    (∀ pa, bfs_with_keys start goal obstacles keys doors gs = some pa →
      (∃ inv, KWalkN gs obstacles keys doors (start, ∅) pa.2 (goal, inv)
          (ktrans_count pa.2)) ∧
      ∀ n as z, KWalkN gs obstacles keys doors (start, ∅) as z n →
        z.1 = goal → ktrans_count pa.2 ≤ n) ∧
    (bfs_with_keys start goal obstacles keys doors gs = none →
      ¬ ∃ as z n, KWalkN gs obstacles keys doors (start, ∅) as z n ∧
        z.1 = goal) := by
  have hC : (KSfinset gs obstacles start keys).card ≤
      (gs * gs + 1) * 2 ^ keys.length := by
    unfold KSfinset
    rw [Finset.card_product]
    refine Nat.mul_le_mul ?_ ?_
    · refine le_trans (Finset.card_insert_le _ _) ?_
      have h1 : (Spatial.legalFinset gs obstacles).card ≤ gs * gs := by
        unfold Spatial.legalFinset
        refine Nat.le_trans (Finset.card_filter_le _ _) ?_
        rw [Finset.card_product, Int.card_Icc]
        simp
      omega
    · rw [Finset.card_powerset]
      refine Nat.pow_le_pow_right (by norm_num) ?_
      refine le_trans (List.toFinset_card_le _) ?_
      rw [List.length_map]
  unfold bfs_with_keys
  refine bfsLoop_spec _ _ _
    ⟨?_, ?_, ?_, ?_, ?_, ?_, ?_, ?_, ?_, ?_⟩ ?_
  · intro e he
    rcases List.mem_singleton.mp he with rfl
    exact KWalkN.nil
  · simp
  · intro e1 h1 e2 h2
    rcases List.mem_singleton.mp h1 with rfl
    rcases List.mem_singleton.mp h2 with rfl
    exact Nat.le_succ _
  · intro e he n as hw
    rcases List.mem_singleton.mp he with rfl
    exact Nat.zero_le n
  · intro s hs
    rcases List.mem_singleton.mp hs with rfl
    exact Or.inl ⟨_, List.mem_singleton_self _, rfl⟩
  · intro s hs
    rcases List.mem_singleton.mp hs with rfl
    exact Or.inl ⟨_, List.mem_singleton_self _, rfl⟩
  · intro n as z hw hq
    have h0 : n ≤ 0 := hq _ (List.mem_singleton_self _)
    obtain rfl := Nat.le_zero.mp h0
    rw [(KWalkN_zero hw).1]
    exact List.mem_singleton_self _
  · intro e he
    rcases List.mem_singleton.mp he with rfl
    exact List.mem_singleton_self _
  · exact List.nodup_singleton _
  · intro s hs
    rcases List.mem_singleton.mp hs with rfl
    unfold KSfinset
    rw [Finset.mem_product]
    exact ⟨Finset.mem_insert_self _ _, Finset.empty_mem_powerset _⟩
  · simp only [List.length_singleton]
    omega

/-- A direction vector found in `DIR_VECTORS` is one of the four
`DIRECTIONS` and `DIR_NAMES` maps it back to its token. -/
theorem DIR_VECTORS_mem {d : String} {v : Spatial.Coord}
    (h : (Spatial.DIR_VECTORS.lookup d : Option Spatial.Coord) = some v) :
    v ∈ Spatial.DIRECTIONS ∧ Spatial.DIR_NAMES.lookup v = some d := by
  simp only [Spatial.DIR_VECTORS, List.lookup] at h
  split at h
  · rename_i heq
    obtain rfl := Option.some.inj h
    obtain rfl : d = "up" := by simpa using heq
    exact ⟨by decide, by decide⟩
  · split at h
    · rename_i heq
      obtain rfl := Option.some.inj h
      obtain rfl : d = "down" := by simpa using heq
      exact ⟨by decide, by decide⟩
    · split at h
      · rename_i heq
        obtain rfl := Option.some.inj h
        obtain rfl : d = "left" := by simpa using heq
        exact ⟨by decide, by decide⟩
      · split at h
        · rename_i heq
          obtain rfl := Option.some.inj h
          obtain rfl : d = "right" := by simpa using heq
          exact ⟨by decide, by decide⟩
        · exact Option.noConfusion h

/-- A successful validator step either leaves the tracked state unchanged
(an `unlock` or an unknown token) or performs one graph transition (and its
action token counts as one transition). -/
theorem kStep_ok_trans {gs : ℕ} {obstacles : List Coord}
    {keys doors : List (Coord × String)} {pos pos' : Coord} {inv inv' : Inv}
    {a : KAct} (h : kStep gs obstacles keys doors pos inv a = .ok pos' inv') :
    ((pos', inv') : KState) = (pos, inv) ∨
      ∃ g, KTrans gs obstacles keys doors (pos, inv) g (pos', inv') ∧
        ktrans_count [a] = 1 := by
  cases a with
  | pick_up color =>
    simp only [kStep] at h
    split at h
    · rename_i c heq
      split at h
      · rename_i hcond
        obtain ⟨h1, h2⟩ := KStepRes.ok.inj h
        subst h1
        subst h2
        refine Or.inr ⟨[.pick_up color], ?_, rfl⟩
        exact KTrans.pickup (by rw [heq, hcond.1]) hcond.2
      · cases h
    · cases h
  | unlock color =>
    simp only [kStep] at h
    split at h
    · obtain ⟨h1, h2⟩ := KStepRes.ok.inj h
      subst h1
      subst h2
      exact Or.inl rfl
    · cases h
  | dir s =>
    simp only [kStep] at h
    split at h
    · obtain ⟨h1, h2⟩ := KStepRes.ok.inj h
      subst h1
      subst h2
      exact Or.inl rfl
    · rename_i v heq
      split at h
      · cases h
      · rename_i hb
        split at h
        · cases h
        · rename_i ho
          obtain ⟨hdmem, hname⟩ := DIR_VECTORS_mem heq
          split at h
          · rename_i c hdoor
            split at h
            · cases h
            · rename_i hc
              obtain ⟨h1, h2⟩ := KStepRes.ok.inj h
              subst h1
              subst h2
              refine Or.inr ⟨_, KTrans.door hdmem rfl (not_not.mp hb) ho hdoor
                (not_not.mp hc), rfl⟩
          · rename_i hdoor
            obtain ⟨h1, h2⟩ := KStepRes.ok.inj h
            subst h1
            subst h2
            exact Or.inr ⟨_, KTrans.move hdmem rfl (not_not.mp hb) ho hdoor, rfl⟩

theorem ktrans_count_cons (a : KAct) (rest : List KAct) :
    ktrans_count (a :: rest) = ktrans_count [a] + ktrans_count rest := by
  have h : a :: rest = [a] ++ rest := rfl
  rw [h, ktrans_count_append]

theorem ktrans_count_le_length (as : List KAct) :
    ktrans_count as ≤ as.length :=
  List.length_filter_le _ _

/-- A flag-free validator replay embeds into the BFS state graph: the final
configuration is reachable in at most as many transitions as the replay has
move and pick-up tokens. -/
theorem kGo_to_walk {gs : ℕ} {obstacles : List Coord}
    {keys doors : List (Coord × String)} {goal : Coord} :
    ∀ (as : List KAct) (pos : Coord) (inv : Inv),
      kNoFlags (kGo goal gs obstacles keys doors pos inv as) →
      ∃ as' n, KWalkN gs obstacles keys doors (pos, inv) as'
          ((kGo goal gs obstacles keys doors pos inv as).final_position,
            (kGo goal gs obstacles keys doors pos inv as).inventory) n ∧
        n ≤ ktrans_count as := by
  intro as
  induction as with
  | nil =>
    intro pos inv _
    exact ⟨[], 0, KWalkN.nil, Nat.zero_le 0⟩
  | cons a rest ih =>
    intro pos inv hflags
    revert hflags
    rw [kGo_cons]
    cases hstep : kStep gs obstacles keys doors pos inv a with
    | ok pos2 inv2 =>
      intro hflags
      obtain ⟨as', n, hw, hb⟩ := ih pos2 inv2 hflags
      rcases kStep_ok_trans hstep with heq | ⟨g, htr, hcnt⟩
      · rw [heq] at hw
        refine ⟨as', n, hw, ?_⟩
        rw [ktrans_count_cons]
        omega
      · refine ⟨g ++ as', n + 1, KWalkN_prepend htr hw, ?_⟩
        rw [ktrans_count_cons, hcnt]
        omega
    | fail v =>
      intro hflags
      exfalso
      cases v <;> simp [kFlagResult, kNoFlags] at hflags

/-- The rejection condition of `generate_scenario`, in terms of the two
solver runs: the keyless path must be no longer than the with-keys path and
must avoid every door cell. -/
theorem generate_scenario_check_none_iff {start goal : Coord}
    {obstacles : List Coord} {keys doors : List (Coord × String)} {gs : ℕ}
    {path nkp : List Coord} {actions nka : List KAct}
    (hk : bfs_with_keys start goal obstacles keys doors gs =
      some (path, actions))
    (hn : bfs_with_keys start goal obstacles [] [] gs = some (nkp, nka)) :
    (generate_scenario_check start goal obstacles keys doors gs = none ↔
      nkp.length ≤ path.length ∧ ∀ d ∈ doors, d.1 ∉ nkp) := by
  unfold generate_scenario_check
  rw [hk, hn]
  simp only
  split
  · rename_i hcond
    exact ⟨fun _ => hcond, fun _ => rfl⟩
  · rename_i hcond
    exact ⟨fun h => Option.noConfusion h, fun hc => absurd hc hcond⟩

end Keylock

namespace Container

theorem lookup_setCurrent_self (cs : Containers) (k : String) (v : ℤ) :
    (setCurrent cs k v).lookup k = (cs.lookup k).map fun c => { c with current := v } := by
  induction cs with
  | nil => rfl
  | cons p t ih =>
    obtain ⟨k0, c0⟩ := p
    by_cases h : k0 = k
    · subst h
      simp [setCurrent, List.lookup]
    · have hne : (k == k0) = false := beq_eq_false_iff_ne.mpr fun e => h e.symm
      simp only [setCurrent, if_neg h, List.lookup, hne]
      exact ih

theorem lookup_setCurrent_ne (cs : Containers) (k k' : String) (v : ℤ)
    (h : k' ≠ k) :
    (setCurrent cs k v).lookup k' = cs.lookup k' := by
  induction cs with
  | nil => rfl
  | cons p t ih =>
    obtain ⟨k0, c0⟩ := p
    by_cases h0 : k0 = k
    · subst h0
      have hne : (k' == k0) = false := beq_eq_false_iff_ne.mpr h
      simp only [setCurrent, if_pos rfl, List.lookup, hne]
      exact ih
    · simp only [setCurrent, if_neg h0, List.lookup]
      by_cases hk : k' = k0
      · subst hk; simp
      · have hne : (k' == k0) = false := beq_eq_false_iff_ne.mpr hk
        simp only [hne]
        exact ih

theorem simulate_step_pour {cs : Containers} {src dst : String} {sc dc : Vessel}
    (hne : src ≠ dst) (hs : cs.lookup src = some sc) (hd : cs.lookup dst = some dc) :
    (simulate_step cs (.pour src dst)).lookup src
        = some { sc with current := sc.current - min sc.current (dc.capacity - dc.current) } ∧
    (simulate_step cs (.pour src dst)).lookup dst
        = some { dc with current := dc.current + min sc.current (dc.capacity - dc.current) } := by
  have hd1 : (setCurrent cs src (sc.current - min sc.current (dc.capacity - dc.current))).lookup dst
      = some dc := by
    rw [lookup_setCurrent_ne _ _ _ _ (Ne.symm hne)]; exact hd
  constructor
  · simp only [simulate_step, hs, hd, hd1]
    rw [lookup_setCurrent_ne _ _ _ _ hne, lookup_setCurrent_self, hs]
    rfl
  · simp only [simulate_step, hs, hd, hd1]
    rw [lookup_setCurrent_self, hd1]
    rfl

theorem simulate_step_fill {cs : Containers} {tgt : String} {c : Vessel}
    (h : cs.lookup tgt = some c) :
    (simulate_step cs (.fill tgt)).lookup tgt = some { c with current := c.capacity } := by
  simp only [simulate_step, h]
  rw [lookup_setCurrent_self, h]
  rfl

theorem simulate_step_empty {cs : Containers} {tgt : String} {c : Vessel}
    (h : cs.lookup tgt = some c) :
    (simulate_step cs (.empty tgt)).lookup tgt = some { c with current := (0 : ℤ) } := by
  simp only [simulate_step]
  rw [lookup_setCurrent_self, h]
  rfl


theorem cAddUsed_inv (correct : CState) (p : List CState × List CState)
    (c : CState)
    (H : correct ∈ p.2 ∧ p.1.Nodup ∧ correct ∉ p.1 ∧ ∀ x ∈ p.1, x ∈ p.2) :
    correct ∈ (cAddUsed p c).2 ∧ (cAddUsed p c).1.Nodup ∧
      correct ∉ (cAddUsed p c).1 ∧ ∀ x ∈ (cAddUsed p c).1, x ∈ (cAddUsed p c).2 := by
  obtain ⟨hc, hnd, hcn, hsub⟩ := H
  unfold cAddUsed
  split
  · rename_i hused
    refine ⟨List.mem_append_left _ hc, ?_, ?_, ?_⟩
    · refine List.Nodup.append hnd (List.nodup_singleton _) ?_
      intro a ha hb
      rcases List.mem_singleton.mp hb with rfl
      exact hused (hsub a ha)
    · intro h
      rcases List.mem_append.mp h with h | h
      · exact hcn h
      · rcases List.mem_singleton.mp h with rfl
        exact hused hc
    · intro x hx
      rcases List.mem_append.mp hx with h | h
      · exact List.mem_append_left _ (hsub x h)
      · rcases List.mem_singleton.mp h with rfl
        exact List.mem_append_right _ (List.mem_singleton_self _)
  · exact ⟨hc, hnd, hcn, hsub⟩

theorem cFold_inv (correct : CState) (cands : List CState)
    (p : List CState × List CState)
    (H : correct ∈ p.2 ∧ p.1.Nodup ∧ correct ∉ p.1 ∧ ∀ x ∈ p.1, x ∈ p.2) :
    correct ∈ (cands.foldl (fun p c => if 3 ≤ p.1.length then p else cAddUsed p c) p).2 ∧
      (cands.foldl (fun p c => if 3 ≤ p.1.length then p else cAddUsed p c) p).1.Nodup ∧
      correct ∉ (cands.foldl (fun p c => if 3 ≤ p.1.length then p else cAddUsed p c) p).1 ∧
      ∀ x ∈ (cands.foldl (fun p c => if 3 ≤ p.1.length then p else cAddUsed p c) p).1,
        x ∈ (cands.foldl (fun p c => if 3 ≤ p.1.length then p else cAddUsed p c) p).2 := by
  induction cands generalizing p with
  | nil => exact H
  | cons c t ih =>
    rw [List.foldl_cons]
    split
    · exact ih p H
    · exact ih _ (cAddUsed_inv correct p c H)

/-- The container distractor list is duplicate-free and never contains the
simulated final state. -/
theorem container_generate_distractors_inv (sc : CScenario) (cand2 : CState)
    (cand3 : List CState) :
    (container_generate_distractors sc cand2 cand3).Nodup ∧
      sc.final_state ∉ container_generate_distractors sc cand2 cand3 := by
  unfold container_generate_distractors
  have base : sc.final_state ∈ [sc.final_state] ∧
      ([] : List CState).Nodup ∧ sc.final_state ∉ ([] : List CState) ∧
      ∀ x ∈ ([] : List CState), x ∈ [sc.final_state] :=
    ⟨List.mem_singleton_self _, List.nodup_nil, List.not_mem_nil _,
      fun x hx => absurd hx (List.not_mem_nil x)⟩
  have h := cFold_inv sc.final_state (cand3.take 20) _
    (cAddUsed_inv sc.final_state (cAddUsed ([], [sc.final_state]) (overflowFinal sc)) cand2
      (cAddUsed_inv sc.final_state (([], [sc.final_state]) : List CState × List CState)
        (overflowFinal sc) base))
  exact ⟨List.Nodup.sublist (List.take_sublist _ _) h.2.1,
    fun hm => h.2.2.1 (List.mem_of_mem_take hm)⟩


/-- The container assembler skips any instance with fewer than 3
distractors. -/
theorem container_iter_skip (d : CDraw) (st : CRunState)
    (h : (container_generate_distractors d.scenario d.cand2 d.cand3).length < 3) :
    container_iter d st = st := by
  unfold container_iter
  rw [if_pos h]

/-- On a draw stream that never yields 3 distractors, the container loop
makes no progress and (having no attempt ceiling) never exits on its own. -/
theorem container_loop_stuck (n : ℕ) (draw : ℕ → CDraw)
    (hbad : ∀ i, (container_generate_distractors (draw i).scenario
      (draw i).cand2 (draw i).cand3).length < 3) :
    ∀ (k i : ℕ) (st : CRunState), container_loop n draw k i st = st := by
  intro k
  induction k with
  | zero => intro i st; rfl
  | succ m ih =>
    intro i st
    show (if st.records.length < n then _ else st) = st
    split
    · rw [container_iter_skip _ _ (hbad i)]
      exact ih (i + 1) st
    · rfl

/-- `container_emit` invariant: the shuffled choices contain the simulated
final state exactly once, at the recorded gold index. -/
theorem container_emit_gold (sc : CScenario) (cand2 : CState)
    (cand3 : List CState) (shuffled : List CState)
    (hperm : shuffled.Perm (sc.final_state ::
      container_generate_distractors sc cand2 cand3)) :
    (container_emit sc shuffled).choices.count sc.final_state = 1 ∧
      ∃ h : (container_emit sc shuffled).gold <
          (container_emit sc shuffled).choices.length,
        (container_emit sc shuffled).choices.get
          ⟨(container_emit sc shuffled).gold, h⟩ = sc.final_state := by
  have hnotin := (container_generate_distractors_inv sc cand2 cand3).2
  constructor
  · show shuffled.count sc.final_state = 1
    have h2 : shuffled.count sc.final_state
        = (sc.final_state :: container_generate_distractors sc cand2 cand3).count
            sc.final_state := by
      simp only [List.count]
      exact hperm.countP_eq _
    rw [h2, List.count_cons_self, List.count_eq_zero_of_not_mem hnotin]
  · have hmem : sc.final_state ∈ shuffled :=
      hperm.mem_iff.mpr (List.mem_cons_self _ _)
    obtain ⟨hg, hgev⟩ := indexOf_spec sc.final_state shuffled hmem
    exact ⟨hg, hgev⟩

end Container

/-! # Claim theorems -/

/-- **C1**: for every emitted record, every distractor choice replays as
invalid on the record's own instance (wall, out-of-bounds, missing-key
violation, or failure to reach the goal), and a candidate that replays as a
valid alternate solution is silently discarded by `_try_add` (the state is
returned unchanged), so it never appears among the choices. -/
theorem C1_distractors_validator_gated :
    (∀ (sc : Spatial.GridScenario) (rand2 rand4 : List (List String)) (num : ℕ),
      ∀ d ∈ Spatial.generate_distractors sc rand2 rand4 num,
        Spatial.is_path_physically_invalid sc.start sc.goal sc.obstacles d = true) ∧
    (∀ (sc : Spatial.GridScenario) (st : Spatial.DistractorState)
        (cand : List String),
      Spatial.is_path_physically_invalid sc.start sc.goal sc.obstacles cand = false →
      Spatial.tryAdd sc st cand = st) ∧
    (∀ (sc : Keylock.KeyLockScenario) (rand4 rand5 : List (List Keylock.KAct))
        (num : ℕ),
      ∀ d ∈ Keylock.keylock_generate_distractors sc rand4 rand5 num,
        Keylock.is_action_seq_invalid sc.start sc.goal sc.obstacles sc.keys
          sc.doors d = true) ∧
    (∀ (sc : Keylock.KeyLockScenario) (st : Keylock.KDistractorState)
        (cand : List Keylock.KAct),
      Keylock.is_action_seq_invalid sc.start sc.goal sc.obstacles sc.keys
        sc.doors cand = false →
      Keylock.ktryAdd sc st cand = st) :=
  ⟨Spatial.generate_distractors_invalid, Spatial.tryAdd_discard,
    Keylock.keylock_generate_distractors_invalid, Keylock.ktryAdd_discard⟩

/-- Witness for C1 at a concrete instance: a candidate that replays as a
valid alternate solution (it cleanly reaches the goal) is discarded by both
`_try_add` gates. -/
theorem C1_distractors_validator_gated_witness :
    Spatial.is_path_physically_invalid (0, 0) (0, 1) [] ["right"] = false ∧
    Spatial.tryAdd ⟨5, (0, 0), (0, 1), [], [(0, 0), (0, 1)], ["right"]⟩
      ⟨[], []⟩ ["right"] = ⟨[], []⟩ ∧
    Keylock.is_action_seq_invalid (0, 0) (0, 1) [] [] [] [.dir "right"] = false ∧
    Keylock.ktryAdd ⟨5, (0, 0), (0, 1), [], [], [], [.dir "right"], []⟩
      ⟨[], []⟩ [.dir "right"] = ⟨[], []⟩ :=
  ⟨by decide,
    C1_distractors_validator_gated.2.1
      ⟨5, (0, 0), (0, 1), [], [(0, 0), (0, 1)], ["right"]⟩ ⟨[], []⟩ ["right"]
      (by decide),
    by decide,
    C1_distractors_validator_gated.2.2.2
      ⟨5, (0, 0), (0, 1), [], [], [], [.dir "right"], []⟩ ⟨[], []⟩ [.dir "right"]
      (by decide)⟩

/-- **C2**: every emitted record's choice list contains the canonical
answer exactly once, and the recorded gold index is its post-shuffle
position (`choices[gold]` is the canonical answer) — for the spatial,
key-lock and container generators, for every shuffle permutation. -/
theorem C2_choices_gold_index :
    (∀ (sc : Spatial.GridScenario) (rand2 rand4 : List (List String))
        (ap : List (ℕ × List String)),
      ap.Perm ((sc.path_directions ::
        Spatial.generate_distractors sc rand2 rand4 3).enum) →
      (Spatial.scenario_to_eval_doc ap).choices.count sc.path_directions = 1 ∧
        ∃ h : (Spatial.scenario_to_eval_doc ap).gold <
            (Spatial.scenario_to_eval_doc ap).choices.length,
          (Spatial.scenario_to_eval_doc ap).choices.get
            ⟨(Spatial.scenario_to_eval_doc ap).gold, h⟩ = sc.path_directions) ∧
    (∀ (sc : Keylock.KeyLockScenario) (rand4 rand5 : List (List Keylock.KAct))
        (order : List ℕ) (doc : Keylock.KEvalDoc),
      order.Perm [0, 1, 2, 3] →
      Keylock.keylock_scenario_to_eval_doc sc
        (Keylock.keylock_generate_distractors sc rand4 rand5 3) order = some doc →
      doc.choices.count sc.solution_actions = 1 ∧
        ∃ h : doc.gold < doc.choices.length,
          doc.choices.get ⟨doc.gold, h⟩ = sc.solution_actions) ∧
    (∀ (sc : Container.CScenario) (cand2 : Container.CState)
        (cand3 : List Container.CState) (shuffled : List Container.CState),
      shuffled.Perm (sc.final_state ::
        Container.container_generate_distractors sc cand2 cand3) →
      (Container.container_emit sc shuffled).choices.count sc.final_state = 1 ∧
        ∃ h : (Container.container_emit sc shuffled).gold <
            (Container.container_emit sc shuffled).choices.length,
          (Container.container_emit sc shuffled).choices.get
            ⟨(Container.container_emit sc shuffled).gold, h⟩ = sc.final_state) := by
  refine ⟨fun sc rand2 rand4 ap hperm => ?_, Keylock.keylock_doc_gold,
    Container.container_emit_gold⟩
  exact Spatial.eval_doc_gold sc.path_directions _ ap
    (Spatial.generate_distractors_inv sc rand2 rand4 3).2 hperm

/-- Witness for C2 at a concrete instance (identity shuffle): the canonical
answer occurs exactly once among the choices. -/
theorem C2_choices_gold_index_witness :
    (Spatial.scenario_to_eval_doc ((["right"] ::
      Spatial.generate_distractors
        ⟨5, (0, 0), (0, 1), [(4, 4), (4, 3), (3, 4)], [(0, 0), (0, 1)], ["right"]⟩
        (List.replicate 50 ["up"]) [] 3).enum)).choices.count ["right"] = 1 :=
  (C2_choices_gold_index.1
    ⟨5, (0, 0), (0, 1), [(4, 4), (4, 3), (3, 4)], [(0, 0), (0, 1)], ["right"]⟩
    (List.replicate 50 ["up"]) [] _ (List.Perm.refl _)).1
/-- **C4**: for every grid instance whose start cell is legal, `a_star`
returns a minimal-length in-bounds obstacle-avoiding path when one exists
and `None` otherwise; in particular on the 5×5 grid with start A1 = (0,0),
goal E5 = (4,4) and obstacle C3 = (2,2) it returns a Manhattan-optimal
8-step path avoiding C3. -/
theorem C4_a_star_correct :
    (∀ (gs : ℕ) (start goal : Spatial.Coord) (obstacles : List Spatial.Coord),
      Spatial.legalCell gs obstacles start →
      (∀ p, Spatial.a_star start goal obstacles gs = some p →
          Spatial.PathTo gs obstacles start p goal ∧
            ∀ q, Spatial.PathTo gs obstacles start q goal → p.length ≤ q.length) ∧
      (Spatial.a_star start goal obstacles gs = none →
        ¬ ∃ q, Spatial.PathTo gs obstacles start q goal)) ∧
    (Spatial.a_star (0, 0) (4, 4) [(2, 2)] 5 =
      some [(0, 0), (1, 0), (2, 0), (3, 0), (4, 0), (4, 1), (4, 2), (4, 3), (4, 4)]) ∧
    ([(0, 0), (1, 0), (2, 0), (3, 0), (4, 0), (4, 1), (4, 2), (4, 3), (4, 4)] :
      List Spatial.Coord).length = 8 + 1 ∧
    ((2, 2) : Spatial.Coord) ∉ ([(0, 0), (1, 0), (2, 0), (3, 0), (4, 0), (4, 1),
      (4, 2), (4, 3), (4, 4)] : List Spatial.Coord) ∧
    Spatial.heuristic (0, 0) (4, 4) = 8 :=
  ⟨fun gs start goal obstacles h => Spatial.a_star_spec gs start goal obstacles h,
    by decide, by decide, by decide, by decide⟩

/-- Witness for C4: the general statement applied to the 5×5 example
instance, whose start cell is legal. -/
theorem C4_a_star_correct_witness :
    Spatial.legalCell 5 [(2, 2)] (0, 0) ∧
    ((∀ p, Spatial.a_star (0, 0) (4, 4) [(2, 2)] 5 = some p →
        Spatial.PathTo 5 [(2, 2)] (0, 0) p (4, 4) ∧
          ∀ q, Spatial.PathTo 5 [(2, 2)] (0, 0) q (4, 4) → p.length ≤ q.length) ∧
      (Spatial.a_star (0, 0) (4, 4) [(2, 2)] 5 = none →
        ¬ ∃ q, Spatial.PathTo 5 [(2, 2)] (0, 0) q (4, 4))) :=
  ⟨by decide, C4_a_star_correct.1 5 (0, 0) (4, 4) [(2, 2)] (by decide)⟩

/-- **C5** fails as stated: the key-lock (and container) `main` loops have
no attempt ceiling.  On an always-failing draw stream the key-lock loop has
made one million attempts, emitted nothing, and its guard
(`len(docs) < num_samples`, which never consults the attempt counter) still
demands another iteration. -/
theorem C5_counterexample :
    Keylock.keylock_loop 1 (fun _ => ⟨none, [], [], []⟩) 1000000
      Keylock.keylock_init = ⟨[], [], 1000000⟩ ∧
    Keylock.keylock_guard ⟨[], [], 1000000⟩ 1 = true :=
  ⟨by have h := Keylock.keylock_fail_loop 1 Nat.one_pos 1000000 0
      simpa using h,
    by decide⟩

/-- **C5 (amended)**: only the spatial generator bounds its retry loop —
its attempt ceiling `num_samples * 20` structurally limits the run, which
ends with at most the requested number of samples (the partial count).
The key-lock and container loops have no ceiling: under draws that always
fail (rejected layout, or permanent distractor shortage) they emit nothing
and never terminate on their own, for any number of observed iterations. -/
theorem C5_attempt_ceiling_amended :
    (∀ (n : ℕ) (draw : ℕ → Spatial.SpatialDraw),
      (Spatial.spatial_main n draw).attempts ≤ n * 20 ∧
      (Spatial.spatial_main n draw).samples.length ≤ n) ∧
    (∀ n, 0 < n → ∀ (k a : ℕ),
      Keylock.keylock_loop n (fun _ => ⟨none, [], [], []⟩) k ⟨[], [], a⟩ =
        ⟨[], [], a + k⟩) ∧
    (∀ (n : ℕ) (draw : ℕ → Container.CDraw),
      (∀ i, (Container.container_generate_distractors (draw i).scenario
        (draw i).cand2 (draw i).cand3).length < 3) →
      ∀ (k i : ℕ) (st : Container.CRunState),
        Container.container_loop n draw k i st = st) := by
  refine ⟨fun n draw => ⟨?_, ?_⟩, Keylock.keylock_fail_loop,
    Container.container_loop_stuck⟩
  · have h := Spatial.spatial_loop_attempts_le n draw (n * 20) ⟨[], [], 0⟩
    simpa [Spatial.spatial_main] using h
  · exact Spatial.spatial_loop_samples_le n draw (n * 20) ⟨[], [], 0⟩
      (by simp)

/-- Witness for the amended C5 at concrete inputs: the key-lock loop spins
forever on failing draws, and the container loop is stuck on a scenario
whose synthesis yields no distractor. -/
theorem C5_attempt_ceiling_amended_witness :
    (0 < 1) ∧
    Keylock.keylock_loop 1 (fun _ => ⟨none, [], [], []⟩) 5 ⟨[], [], 0⟩ =
      ⟨[], [], 0 + 5⟩ ∧
    ((Container.container_generate_distractors
      ⟨[("A", ⟨"A", 2, 1⟩)], [.empty "A"], [("A", 0)]⟩ [("A", 0)] []).length < 3) ∧
    Container.container_loop 1
      (fun _ => ⟨⟨[("A", ⟨"A", 2, 1⟩)], [.empty "A"], [("A", 0)]⟩,
        [("A", 0)], [], id⟩) 7 0 ⟨[]⟩ = ⟨[]⟩ :=
  ⟨Nat.one_pos,
    C5_attempt_ceiling_amended.2.1 1 Nat.one_pos 5 0,
    by decide,
    C5_attempt_ceiling_amended.2.2 1
      (fun _ => ⟨⟨[("A", ⟨"A", 2, 1⟩)], [.empty "A"], [("A", 0)]⟩,
        [("A", 0)], [], id⟩)
      (fun _ => by
        show (Container.container_generate_distractors
          ⟨[("A", ⟨"A", 2, 1⟩)], [.empty "A"], [("A", 0)]⟩
          [("A", 0)] []).length < 3
        decide) 7 0 ⟨[]⟩⟩

/-- **C6** fails as stated: the container generator has no dedup ledger.
With a duplicated draw the loop emits two records built from identical
instance fields (hence identical fingerprints), skipping nothing. -/
theorem C6_counterexample :
    (Container.container_loop 2
      (fun _ => ⟨⟨[("A", ⟨"A", 2, 1⟩), ("B", ⟨"B", 2, 1⟩)], [.empty "A"],
          [("A", 0), ("B", 1)]⟩,
        [("A", 1), ("B", 0)],
        [[("A", 2), ("B", 2)], [("A", 1), ("B", 1)]], id⟩)
      2 0 ⟨[]⟩).records.map Prod.fst =
      [⟨[("A", ⟨"A", 2, 1⟩), ("B", ⟨"B", 2, 1⟩)], [.empty "A"], [("A", 0), ("B", 1)]⟩,
        ⟨[("A", ⟨"A", 2, 1⟩), ("B", ⟨"B", 2, 1⟩)], [.empty "A"], [("A", 0), ("B", 1)]⟩] := by
  decide

/-- **C6 (amended)**: the spatial and key-lock generators deduplicate by
fingerprint — within one run no two emitted records share one — but the
container generator performs no deduplication at all and can emit the same
instance twice. -/
theorem C6_fingerprint_dedup_amended :
    (∀ (n : ℕ) (draw : ℕ → Spatial.SpatialDraw) (fuel : ℕ),
      ((Spatial.spatial_loop n draw fuel ⟨[], [], 0⟩).samples.map Prod.fst).Nodup) ∧
    (∀ (n : ℕ) (draw : ℕ → Keylock.KDraw) (fuel : ℕ),
      ((Keylock.keylock_loop n draw fuel Keylock.keylock_init).docs.map
        Prod.fst).Nodup) := by
  constructor
  · intro n draw fuel
    exact Spatial.spatial_loop_dedup n draw fuel ⟨[], [], 0⟩
      ⟨List.nodup_nil, fun fp hfp => absurd hfp (List.not_mem_nil fp)⟩
  · intro n draw fuel
    exact Keylock.keylock_loop_dedup n draw fuel Keylock.keylock_init
      ⟨List.nodup_nil, fun fp hfp => absurd hfp (List.not_mem_nil fp)⟩

set_option maxRecDepth 4000 in
/-- **C7** fails as stated: the spatial assembler has no minimum-distractor
check.  On a scenario whose one-step solution admits only two invalid
distractors (the guard `len(correct) >= 2` disables strategy 4), the main
loop still emits a record — with 3 choices instead of 4. -/
theorem C7_counterexample :
    (Spatial.generate_distractors
      ⟨5, (0, 0), (0, 1), [(4, 4), (4, 3), (3, 4)], [(0, 0), (0, 1)], ["right"]⟩
      (List.replicate 50 ["up"]) [] 3).length = 2 ∧
    (Spatial.spatial_iter
      ⟨some ⟨5, (0, 0), (0, 1), [(4, 4), (4, 3), (3, 4)], [(0, 0), (0, 1)], ["right"]⟩,
        List.replicate 50 ["up"], [], id⟩ ⟨[], [], 0⟩).samples.map Prod.snd =
      [⟨[["right"], ["up"], ["left"]], 0⟩] := by
  constructor
  · decide
  · decide

/-- **C7 (amended)**: the key-lock assembler returns `None` below 3
distractors and its main loop then emits nothing, and the container loop
skips such instances too; but the spatial assembler emits a record
unconditionally for every fresh scenario, with no distractor-count check. -/
theorem C7_min_distractors_amended :
    (∀ (d : Spatial.SpatialDraw) (st : Spatial.SRunState)
        (sc : Spatial.GridScenario),
      d.scenario = some sc →
      Spatial.sFingerprint sc ∉ st.seen_fingerprints →
      (Spatial.spatial_iter d st).samples = st.samples ++
        [(Spatial.sFingerprint sc, Spatial.scenario_to_eval_doc
          (d.shuffle ((sc.path_directions ::
            Spatial.generate_distractors sc d.rand2 d.rand4).enum)))]) ∧
    (∀ (sc : Keylock.KeyLockScenario) (distractors : List (List Keylock.KAct))
        (order : List ℕ),
      distractors.length < 3 →
      Keylock.keylock_scenario_to_eval_doc sc distractors order = none) ∧
    (∀ (d : Keylock.KDraw) (st : Keylock.KRunState)
        (sc : Keylock.KeyLockScenario),
      d.scenario = some sc →
      Keylock.keylock_scenario_to_eval_doc sc
        (Keylock.keylock_generate_distractors sc d.rand4 d.rand5) d.order = none →
      (Keylock.keylock_iter d st).docs = st.docs) ∧
    (∀ (d : Container.CDraw) (st : Container.CRunState),
      (Container.container_generate_distractors d.scenario d.cand2 d.cand3).length < 3 →
      Container.container_iter d st = st) :=
  ⟨Spatial.spatial_iter_emit, Keylock.keylock_doc_none,
    Keylock.keylock_iter_skip, Container.container_iter_skip⟩

/-- Witness for the amended C7 at concrete inputs: a fresh spatial scenario
is emitted unconditionally; a key-lock scenario with an empty distractor
pool is discarded and skipped; a container draw short of distractors is
skipped. -/
theorem C7_min_distractors_amended_witness :
    (Spatial.spatial_iter
        ⟨some ⟨5, (0, 0), (0, 1), [], [(0, 0), (0, 1)], ["right"]⟩, [], [], id⟩
        ⟨[], [], 0⟩).samples =
      [] ++ [(Spatial.sFingerprint ⟨5, (0, 0), (0, 1), [], [(0, 0), (0, 1)], ["right"]⟩,
        Spatial.scenario_to_eval_doc
          ((["right"] :: Spatial.generate_distractors
            ⟨5, (0, 0), (0, 1), [], [(0, 0), (0, 1)], ["right"]⟩ [] []).enum))] ∧
    (([] : List (List Keylock.KAct)).length < 3 ∧
      Keylock.keylock_scenario_to_eval_doc
        ⟨5, (0, 0), (0, 1), [], [], [], [.dir "right"], [(0, 0), (0, 1)]⟩ [] [] = none) ∧
    (Keylock.keylock_iter
      ⟨some ⟨5, (0, 0), (0, 1), [], [], [], [.dir "right"], [(0, 0), (0, 1)]⟩,
        [], [], []⟩ ⟨[], [], 0⟩).docs = ([] : List (Keylock.KFp × Keylock.KEvalDoc)) ∧
    Container.container_iter
      ⟨⟨[("A", ⟨"A", 2, 1⟩)], [.empty "A"], [("A", 0)]⟩, [("A", 0)], [], id⟩
      ⟨[]⟩ = ⟨[]⟩ := by
  refine ⟨?_, ⟨by decide, ?_⟩, ?_, ?_⟩
  · exact C7_min_distractors_amended.1
      ⟨some ⟨5, (0, 0), (0, 1), [], [(0, 0), (0, 1)], ["right"]⟩, [], [], id⟩
      ⟨[], [], 0⟩ _ rfl (by decide)
  · exact C7_min_distractors_amended.2.1
      ⟨5, (0, 0), (0, 1), [], [], [], [.dir "right"], [(0, 0), (0, 1)]⟩ [] [] (by decide)
  · exact C7_min_distractors_amended.2.2.1
      ⟨some ⟨5, (0, 0), (0, 1), [], [], [], [.dir "right"], [(0, 0), (0, 1)]⟩, [], [], []⟩
      ⟨[], [], 0⟩ _ rfl (by decide)
  · exact C7_min_distractors_amended.2.2.2
      ⟨⟨[("A", ⟨"A", 2, 1⟩)], [.empty "A"], [("A", 0)]⟩, [("A", 0)], [], id⟩
      ⟨[]⟩
      (by show (Container.container_generate_distractors
            ⟨[("A", ⟨"A", 2, 1⟩)], [.empty "A"], [("A", 0)]⟩
            [("A", 0)] []).length < 3
          decide)

/-- **C8**: the container simulation is the stated deterministic semantics —
`Pour` moves `min(src.current, dst.capacity - dst.current)`, `Fill` sets the
target to its capacity, `Empty` to zero; and from A(cap 10, cur 0),
B(cap 5, cur 5), the single action `Pour B into A` ends in A=5, B=0. -/
theorem C8_simulate_step_semantics :
    (∀ (cs : Container.Containers) (src dst : String) (sc dc : Container.Vessel),
      src ≠ dst → cs.lookup src = some sc → cs.lookup dst = some dc →
      (Container.simulate_step cs (.pour src dst)).lookup src =
          some { sc with current := sc.current - min sc.current (dc.capacity - dc.current) } ∧
      (Container.simulate_step cs (.pour src dst)).lookup dst =
          some { dc with current := dc.current + min sc.current (dc.capacity - dc.current) }) ∧
    (∀ (cs : Container.Containers) (tgt : String) (c : Container.Vessel),
      cs.lookup tgt = some c →
      (Container.simulate_step cs (.fill tgt)).lookup tgt =
        some { c with current := c.capacity }) ∧
    (∀ (cs : Container.Containers) (tgt : String) (c : Container.Vessel),
      cs.lookup tgt = some c →
      (Container.simulate_step cs (.empty tgt)).lookup tgt =
        some { c with current := (0 : ℤ) }) ∧
    Container.finalState (Container.simulate_all
      [("A", ⟨"A", 10, 0⟩), ("B", ⟨"B", 5, 5⟩)] [.pour "B" "A"]) =
      [("A", 5), ("B", 0)] :=
  ⟨fun _ _ _ _ _ hne hs hd => Container.simulate_step_pour hne hs hd,
    fun _ _ _ h => Container.simulate_step_fill h,
    fun _ _ _ h => Container.simulate_step_empty h,
    by decide⟩

/-- Witness for C8: the `Pour` clause applied to the spec's own example
instance. -/
theorem C8_simulate_step_semantics_witness :
    ("B" ≠ "A") ∧
    (([("A", ⟨"A", 10, 0⟩), ("B", ⟨"B", 5, 5⟩)] : Container.Containers).lookup "B" =
      some ⟨"B", 5, 5⟩) ∧
    (([("A", ⟨"A", 10, 0⟩), ("B", ⟨"B", 5, 5⟩)] : Container.Containers).lookup "A" =
      some ⟨"A", 10, 0⟩) ∧
    ((Container.simulate_step [("A", ⟨"A", 10, 0⟩), ("B", ⟨"B", 5, 5⟩)]
        (.pour "B" "A")).lookup "B" = some ⟨"B", 5, 5 - min 5 (10 - 0)⟩ ∧
      (Container.simulate_step [("A", ⟨"A", 10, 0⟩), ("B", ⟨"B", 5, 5⟩)]
        (.pour "B" "A")).lookup "A" = some ⟨"A", 10, 0 + min 5 (10 - 0)⟩) :=
  ⟨by decide, by decide, by decide,
    C8_simulate_step_semantics.1 [("A", ⟨"A", 10, 0⟩), ("B", ⟨"B", 5, 5⟩)]
      "B" "A" ⟨"B", 5, 5⟩ ⟨"A", 10, 0⟩ (by decide) (by decide) (by decide)⟩

/-- **C10**: during replay the tracked position only ever visits legal
configurations — in bounds, off obstacles, and (key-lock) on a door cell
only with the matching key — and a flagged replay has a first violating
action: the prefix before it is clean, the final position is the one the
clean prefix reached, and the set flag matches that action's outcome. -/
theorem C10_replay_positions_legal :
    (∀ (gs : ℕ) (obstacles : List Spatial.Coord) (goal pos : Spatial.Coord)
        (ds : List String) (n : ℕ),
      Spatial.legalCell gs obstacles pos →
      Spatial.legalCell gs obstacles
        (Spatial.simulateGo goal obstacles gs pos (ds.take n)).final_position) ∧
    (∀ (gs : ℕ) (obstacles : List Spatial.Coord) (goal pos : Spatial.Coord)
        (ds : List String),
      ((Spatial.simulateGo goal obstacles gs pos ds).hit_wall = true ∨
        (Spatial.simulateGo goal obstacles gs pos ds).out_of_bounds = true) →
      ∃ n, ∃ hn : n < ds.length,
        Spatial.noFlags (Spatial.simulateGo goal obstacles gs pos (ds.take n)) ∧
        (Spatial.simulateGo goal obstacles gs pos ds).final_position =
          (Spatial.simulateGo goal obstacles gs pos (ds.take n)).final_position ∧
        ((Spatial.simulateGo goal obstacles gs pos ds).hit_wall = true ∧
            Spatial.stepOutcome gs obstacles
              (Spatial.simulateGo goal obstacles gs pos (ds.take n)).final_position
              (ds.get ⟨n, hn⟩) = .wall ∨
          (Spatial.simulateGo goal obstacles gs pos ds).out_of_bounds = true ∧
            Spatial.stepOutcome gs obstacles
              (Spatial.simulateGo goal obstacles gs pos (ds.take n)).final_position
              (ds.get ⟨n, hn⟩) = .oob)) ∧
    (∀ (gs : ℕ) (obstacles : List Spatial.Coord)
        (keys doors : List (Spatial.Coord × String)) (goal pos : Spatial.Coord)
        (inv : Keylock.Inv) (as : List Keylock.KAct) (n : ℕ),
      Keylock.legalPos gs obstacles doors pos inv →
      Keylock.legalPos gs obstacles doors
        (Keylock.kGo goal gs obstacles keys doors pos inv (as.take n)).final_position
        (Keylock.kGo goal gs obstacles keys doors pos inv (as.take n)).inventory) ∧
    (∀ (gs : ℕ) (obstacles : List Spatial.Coord)
        (keys doors : List (Spatial.Coord × String)) (goal pos : Spatial.Coord)
        (inv : Keylock.Inv) (as : List Keylock.KAct),
      ¬ Keylock.kNoFlags (Keylock.kGo goal gs obstacles keys doors pos inv as) →
      ∃ n, ∃ hn : n < as.length, ∃ v : Keylock.KViol,
        Keylock.kNoFlags (Keylock.kGo goal gs obstacles keys doors pos inv (as.take n)) ∧
        Keylock.kStep gs obstacles keys doors
          (Keylock.kGo goal gs obstacles keys doors pos inv (as.take n)).final_position
          (Keylock.kGo goal gs obstacles keys doors pos inv (as.take n)).inventory
          (as.get ⟨n, hn⟩) = .fail v ∧
        Keylock.kGo goal gs obstacles keys doors pos inv as =
          Keylock.kFlagResult goal
            (Keylock.kGo goal gs obstacles keys doors pos inv (as.take n)).final_position
            (Keylock.kGo goal gs obstacles keys doors pos inv (as.take n)).inventory v) :=
  ⟨fun _ _ _ _ ds n h => Spatial.simulateGo_final_legal (ds.take n) _ h,
    fun _ _ _ pos ds h => Spatial.simulateGo_first_violation ds pos h,
    fun _ _ _ _ _ _ inv as n h => Keylock.kGo_final_legal (as.take n) _ inv h,
    fun _ _ _ _ _ pos inv as h => Keylock.kGo_first_violation as pos inv h⟩

/-- Witness for C10 at concrete replays: a clean prefix keeps the tracked
position legal, and an off-grid move is pinned down as the first
violation in both validators. -/
theorem C10_replay_positions_legal_witness :
    (Spatial.legalCell 5 [(2, 2)] (0, 0) ∧
      Spatial.legalCell 5 [(2, 2)]
        (Spatial.simulateGo (4, 4) [(2, 2)] 5 (0, 0)
          (["down", "down"].take 1)).final_position) ∧
    (∃ n, ∃ hn : n < (["left"] : List String).length,
      Spatial.noFlags (Spatial.simulateGo (4, 4) [(2, 2)] 5 (0, 0)
        ((["left"] : List String).take n)) ∧
      (Spatial.simulateGo (4, 4) [(2, 2)] 5 (0, 0) ["left"]).final_position =
        (Spatial.simulateGo (4, 4) [(2, 2)] 5 (0, 0)
          ((["left"] : List String).take n)).final_position ∧
      ((Spatial.simulateGo (4, 4) [(2, 2)] 5 (0, 0) ["left"]).hit_wall = true ∧
          Spatial.stepOutcome 5 [(2, 2)]
            (Spatial.simulateGo (4, 4) [(2, 2)] 5 (0, 0)
              ((["left"] : List String).take n)).final_position
            ((["left"] : List String).get ⟨n, hn⟩) = .wall ∨
        (Spatial.simulateGo (4, 4) [(2, 2)] 5 (0, 0) ["left"]).out_of_bounds = true ∧
          Spatial.stepOutcome 5 [(2, 2)]
            (Spatial.simulateGo (4, 4) [(2, 2)] 5 (0, 0)
              ((["left"] : List String).take n)).final_position
            ((["left"] : List String).get ⟨n, hn⟩) = .oob)) ∧
    Keylock.legalPos 5 [] []
      (Keylock.kGo (0, 1) 5 [] [] [] (0, 0) ∅
        (([.dir "right"] : List Keylock.KAct).take 1)).final_position
      (Keylock.kGo (0, 1) 5 [] [] [] (0, 0) ∅
        (([.dir "right"] : List Keylock.KAct).take 1)).inventory ∧
    (∃ n, ∃ hn : n < ([.dir "left"] : List Keylock.KAct).length, ∃ v : Keylock.KViol,
      Keylock.kNoFlags (Keylock.kGo (0, 1) 5 [] [] [] (0, 0) ∅
        (([.dir "left"] : List Keylock.KAct).take n)) ∧
      Keylock.kStep 5 [] [] []
        (Keylock.kGo (0, 1) 5 [] [] [] (0, 0) ∅
          (([.dir "left"] : List Keylock.KAct).take n)).final_position
        (Keylock.kGo (0, 1) 5 [] [] [] (0, 0) ∅
          (([.dir "left"] : List Keylock.KAct).take n)).inventory
        (([.dir "left"] : List Keylock.KAct).get ⟨n, hn⟩) = .fail v ∧
      Keylock.kGo (0, 1) 5 [] [] [] (0, 0) ∅ [.dir "left"] =
        Keylock.kFlagResult (0, 1)
          (Keylock.kGo (0, 1) 5 [] [] [] (0, 0) ∅
            (([.dir "left"] : List Keylock.KAct).take n)).final_position
          (Keylock.kGo (0, 1) 5 [] [] [] (0, 0) ∅
            (([.dir "left"] : List Keylock.KAct).take n)).inventory v) :=
  ⟨⟨by decide,
      C10_replay_positions_legal.1 5 [(2, 2)] (4, 4) (0, 0) ["down", "down"] 1
        (by decide)⟩,
    C10_replay_positions_legal.2.1 5 [(2, 2)] (4, 4) (0, 0) ["left"]
      (Or.inr (by decide)),
    C10_replay_positions_legal.2.2.1 5 [] [] [] (0, 1) (0, 0) ∅ [.dir "right"] 1
      ⟨rfl, List.not_mem_nil _, fun c hc => Option.noConfusion hc⟩,
    C10_replay_positions_legal.2.2.2 5 [] [] [] (0, 1) (0, 0) ∅ [.dir "left"]
      (fun h => absurd h.2.1 (by decide))⟩

set_option maxRecDepth 8000 in
/-- **C3** fails as stated: `bfs_with_keys` minimises BFS *transitions*, in
which `unlock_<color>` tokens are free riders.  On this 5×5 instance (three
locked doors across row 0, each key lying one cell earlier) the BFS returns
a 10-action solution, while a valid 8-action detour through row 2 exists —
the returned action list is not token-minimal among valid sequences. -/
theorem C3_counterexample :
    Keylock.bfs_with_keys (0, 0) (0, 4) [(1, 1), (1, 2), (1, 3)]
      [((0, 0), "red"), ((0, 1), "blue"), ((0, 2), "green")]
      [((0, 1), "red"), ((0, 2), "blue"), ((0, 3), "green")] 5 =
      some ([(0, 0), (0, 0), (0, 1), (0, 1), (0, 2), (0, 2), (0, 3), (0, 4)],
        [.pick_up "red", .unlock "red", .dir "right", .pick_up "blue",
          .unlock "blue", .dir "right", .pick_up "green", .unlock "green",
          .dir "right", .dir "right"]) ∧
    ([.pick_up "red", .unlock "red", .dir "right", .pick_up "blue",
      .unlock "blue", .dir "right", .pick_up "green", .unlock "green",
      .dir "right", .dir "right"] : List Keylock.KAct).length = 10 ∧
    Keylock.is_action_seq_invalid (0, 0) (0, 4) [(1, 1), (1, 2), (1, 3)]
      [((0, 0), "red"), ((0, 1), "blue"), ((0, 2), "green")]
      [((0, 1), "red"), ((0, 2), "blue"), ((0, 3), "green")]
      [.dir "down", .dir "down", .dir "right", .dir "right", .dir "right",
        .dir "right", .dir "up", .dir "up"] 5 = false ∧
    ([.dir "down", .dir "down", .dir "right", .dir "right", .dir "right",
      .dir "right", .dir "up", .dir "up"] : List Keylock.KAct).length = 8 := by
  exact ⟨by decide, by decide, by decide, by decide⟩

/-- **C3 (amended)**: the BFS action list realises a walk of the
`(position, inventory)` state graph whose transition count (moves and
pick-ups; an unlock rides along with its move) is minimal over all walks
reaching the goal position — hence at most the move-and-pick-up count, and
so at most the length, of every flag-free validator replay reaching the
goal; and `none` means the goal position is unreachable.  Token-count
minimality, as claimed, fails (see the counterexample). -/
theorem C3_bfs_transition_minimal_amended :
    ∀ (gs : ℕ) (start goal : Spatial.Coord) (obstacles : List Spatial.Coord)
      (keys doors : List (Spatial.Coord × String)),
      (∀ pa, Keylock.bfs_with_keys start goal obstacles keys doors gs =
          some pa →
        (∃ inv, Keylock.KWalkN gs obstacles keys doors (start, ∅) pa.2
            (goal, inv) (Keylock.ktrans_count pa.2)) ∧
        (∀ n as z, Keylock.KWalkN gs obstacles keys doors (start, ∅) as z n →
          z.1 = goal → Keylock.ktrans_count pa.2 ≤ n) ∧
        (∀ as, Keylock.kNoFlags
            (Keylock.kGo goal gs obstacles keys doors start ∅ as) →
          (Keylock.kGo goal gs obstacles keys doors start ∅ as).final_position
              = goal →
          Keylock.ktrans_count pa.2 ≤ Keylock.ktrans_count as ∧
            Keylock.ktrans_count as ≤ as.length)) ∧
      (Keylock.bfs_with_keys start goal obstacles keys doors gs = none →
        ¬ ∃ as z n, Keylock.KWalkN gs obstacles keys doors (start, ∅) as z n ∧
          z.1 = goal) := by
  intro gs start goal obstacles keys doors
  obtain ⟨hsome, hnone⟩ :=
    Keylock.bfs_with_keys_spec gs start goal obstacles keys doors
  refine ⟨fun pa hpa => ?_, hnone⟩
  obtain ⟨hex, hmin⟩ := hsome pa hpa
  refine ⟨hex, hmin, fun as hnf hfin => ?_⟩
  obtain ⟨as', n, hw, hb⟩ := Keylock.kGo_to_walk as start ∅ hnf
  have h1 := hmin n as' _ hw hfin
  exact ⟨le_trans h1 hb, Keylock.ktrans_count_le_length as⟩

set_option maxRecDepth 8000 in
/-- Witness for the amended C3: the general statement applied to the
three-door instance whose BFS output the counterexample computes. -/
theorem C3_bfs_transition_minimal_amended_witness :
    Keylock.bfs_with_keys (0, 0) (0, 4) [(1, 1), (1, 2), (1, 3)]
      [((0, 0), "red"), ((0, 1), "blue"), ((0, 2), "green")]
      [((0, 1), "red"), ((0, 2), "blue"), ((0, 3), "green")] 5 =
      some ([(0, 0), (0, 0), (0, 1), (0, 1), (0, 2), (0, 2), (0, 3), (0, 4)],
        [.pick_up "red", .unlock "red", .dir "right", .pick_up "blue",
          .unlock "blue", .dir "right", .pick_up "green", .unlock "green",
          .dir "right", .dir "right"]) ∧
    ((∃ inv, Keylock.KWalkN 5 [(1, 1), (1, 2), (1, 3)]
        [((0, 0), "red"), ((0, 1), "blue"), ((0, 2), "green")]
        [((0, 1), "red"), ((0, 2), "blue"), ((0, 3), "green")] ((0, 0), ∅)
        [.pick_up "red", .unlock "red", .dir "right", .pick_up "blue",
          .unlock "blue", .dir "right", .pick_up "green", .unlock "green",
          .dir "right", .dir "right"] ((0, 4), inv)
        (Keylock.ktrans_count [.pick_up "red", .unlock "red", .dir "right",
          .pick_up "blue", .unlock "blue", .dir "right", .pick_up "green",
          .unlock "green", .dir "right", .dir "right"])) ∧
      (∀ n as z, Keylock.KWalkN 5 [(1, 1), (1, 2), (1, 3)]
          [((0, 0), "red"), ((0, 1), "blue"), ((0, 2), "green")]
          [((0, 1), "red"), ((0, 2), "blue"), ((0, 3), "green")]
          ((0, 0), ∅) as z n →
        z.1 = (0, 4) → Keylock.ktrans_count [.pick_up "red", .unlock "red",
          .dir "right", .pick_up "blue", .unlock "blue", .dir "right",
          .pick_up "green", .unlock "green", .dir "right", .dir "right"] ≤ n) ∧
      (∀ as, Keylock.kNoFlags
          (Keylock.kGo (0, 4) 5 [(1, 1), (1, 2), (1, 3)]
            [((0, 0), "red"), ((0, 1), "blue"), ((0, 2), "green")]
            [((0, 1), "red"), ((0, 2), "blue"), ((0, 3), "green")]
            (0, 0) ∅ as) →
        (Keylock.kGo (0, 4) 5 [(1, 1), (1, 2), (1, 3)]
            [((0, 0), "red"), ((0, 1), "blue"), ((0, 2), "green")]
            [((0, 1), "red"), ((0, 2), "blue"), ((0, 3), "green")]
            (0, 0) ∅ as).final_position = (0, 4) →
        Keylock.ktrans_count [.pick_up "red", .unlock "red", .dir "right",
            .pick_up "blue", .unlock "blue", .dir "right", .pick_up "green",
            .unlock "green", .dir "right", .dir "right"] ≤
            Keylock.ktrans_count as ∧
          Keylock.ktrans_count as ≤ as.length)) := by
  have hbfs : Keylock.bfs_with_keys (0, 0) (0, 4) [(1, 1), (1, 2), (1, 3)]
      [((0, 0), "red"), ((0, 1), "blue"), ((0, 2), "green")]
      [((0, 1), "red"), ((0, 2), "blue"), ((0, 3), "green")] 5 =
      some ([(0, 0), (0, 0), (0, 1), (0, 1), (0, 2), (0, 2), (0, 3), (0, 4)],
        [.pick_up "red", .unlock "red", .dir "right", .pick_up "blue",
          .unlock "blue", .dir "right", .pick_up "green", .unlock "green",
          .dir "right", .dir "right"]) := by decide
  exact ⟨hbfs, (C3_bfs_transition_minimal_amended 5 (0, 0) (0, 4)
    [(1, 1), (1, 2), (1, 3)]
    [((0, 0), "red"), ((0, 1), "blue"), ((0, 2), "green")]
    [((0, 1), "red"), ((0, 2), "blue"), ((0, 3), "green")]).1 _ hbfs⟩

set_option maxRecDepth 8000 in
/-- **C9**: given both solver runs succeed, the sampler rejects exactly when
the keyless (and doorless) path is no longer than the with-keys path AND
avoids every door cell.  The concrete instance — a wall on row 1 with a red
door gap at (1,2), key at (0,1) — is accepted: its keyless path is shorter
but runs through the door cell, even though a strictly longer door-avoiding
keyless action sequence solves the instance outright (the check never looks
for one). -/
theorem C9_nontriviality_check :
    (∀ (start goal : Spatial.Coord) (obstacles : List Spatial.Coord)
        (keys doors : List (Spatial.Coord × String)) (gs : ℕ)
        (path nkp : List Spatial.Coord) (actions nka : List Keylock.KAct),
      Keylock.bfs_with_keys start goal obstacles keys doors gs =
          some (path, actions) →
      Keylock.bfs_with_keys start goal obstacles [] [] gs = some (nkp, nka) →
      (Keylock.generate_scenario_check start goal obstacles keys doors gs =
          none ↔
        nkp.length ≤ path.length ∧ ∀ d ∈ doors, d.1 ∉ nkp)) ∧
    Keylock.generate_scenario_check (0, 0) (2, 0) [(1, 0), (1, 1)]
      [((0, 1), "red")] [((1, 2), "red")] 5 =
      some ⟨5, (0, 0), (2, 0), [(1, 0), (1, 1)], [((0, 1), "red")],
        [((1, 2), "red")],
        [.dir "right", .pick_up "red", .dir "right", .unlock "red",
          .dir "down", .dir "down", .dir "left", .dir "left"],
        [(0, 0), (0, 1), (0, 1), (0, 2), (1, 2), (2, 2), (2, 1), (2, 0)]⟩ ∧
    Keylock.bfs_with_keys (0, 0) (2, 0) [(1, 0), (1, 1)] [] [] 5 =
      some ([(0, 0), (0, 1), (0, 2), (1, 2), (2, 2), (2, 1), (2, 0)],
        [.dir "right", .dir "right", .dir "down", .dir "down", .dir "left",
          .dir "left"]) ∧
    (([(0, 0), (0, 1), (0, 2), (1, 2), (2, 2), (2, 1), (2, 0)] :
        List Spatial.Coord).length ≤
      ([(0, 0), (0, 1), (0, 1), (0, 2), (1, 2), (2, 2), (2, 1), (2, 0)] :
        List Spatial.Coord).length) ∧
    (((1, 2) : Spatial.Coord) ∈
      ([(0, 0), (0, 1), (0, 2), (1, 2), (2, 2), (2, 1), (2, 0)] :
        List Spatial.Coord)) ∧
    Keylock.is_action_seq_invalid (0, 0) (2, 0) [(1, 0), (1, 1)]
      [((0, 1), "red")] [((1, 2), "red")]
      [.dir "right", .dir "right", .dir "right", .dir "down", .dir "down",
        .dir "left", .dir "left", .dir "left"] 5 = false :=
  ⟨fun _ _ _ _ _ _ _ _ _ _ hk hn =>
      Keylock.generate_scenario_check_none_iff hk hn,
    by decide, by decide, by decide, by decide, by decide⟩

set_option maxRecDepth 8000 in
/-- Witness for C9: the rejection characterisation applied to the accepted
wall-gap instance — the keyless path is short enough but crosses the door
cell, so the right-hand side is false and the instance is not rejected. -/
theorem C9_nontriviality_check_witness :
    Keylock.bfs_with_keys (0, 0) (2, 0) [(1, 0), (1, 1)] [((0, 1), "red")]
      [((1, 2), "red")] 5 =
      some ([(0, 0), (0, 1), (0, 1), (0, 2), (1, 2), (2, 2), (2, 1), (2, 0)],
        [.dir "right", .pick_up "red", .dir "right", .unlock "red",
          .dir "down", .dir "down", .dir "left", .dir "left"]) ∧
    Keylock.bfs_with_keys (0, 0) (2, 0) [(1, 0), (1, 1)] [] [] 5 =
      some ([(0, 0), (0, 1), (0, 2), (1, 2), (2, 2), (2, 1), (2, 0)],
        [.dir "right", .dir "right", .dir "down", .dir "down", .dir "left",
          .dir "left"]) ∧
    (Keylock.generate_scenario_check (0, 0) (2, 0) [(1, 0), (1, 1)]
        [((0, 1), "red")] [((1, 2), "red")] 5 = none ↔
      ([(0, 0), (0, 1), (0, 2), (1, 2), (2, 2), (2, 1), (2, 0)] :
          List Spatial.Coord).length ≤
        ([(0, 0), (0, 1), (0, 1), (0, 2), (1, 2), (2, 2), (2, 1), (2, 0)] :
          List Spatial.Coord).length ∧
      ∀ d ∈ ([((1, 2), "red")] : List (Spatial.Coord × String)),
        d.1 ∉ ([(0, 0), (0, 1), (0, 2), (1, 2), (2, 2), (2, 1), (2, 0)] :
          List Spatial.Coord)) := by
  have hk : Keylock.bfs_with_keys (0, 0) (2, 0) [(1, 0), (1, 1)]
      [((0, 1), "red")] [((1, 2), "red")] 5 =
      some ([(0, 0), (0, 1), (0, 1), (0, 2), (1, 2), (2, 2), (2, 1), (2, 0)],
        [.dir "right", .pick_up "red", .dir "right", .unlock "red",
          .dir "down", .dir "down", .dir "left", .dir "left"]) := by decide
  have hn : Keylock.bfs_with_keys (0, 0) (2, 0) [(1, 0), (1, 1)] [] [] 5 =
      some ([(0, 0), (0, 1), (0, 2), (1, 2), (2, 2), (2, 1), (2, 0)],
        [.dir "right", .dir "right", .dir "down", .dir "down", .dir "left",
          .dir "left"]) := by decide
  exact ⟨hk, hn, C9_nontriviality_check.1 (0, 0) (2, 0) [(1, 0), (1, 1)]
    [((0, 1), "red")] [((1, 2), "red")] 5 _ _ _ _ hk hn⟩

end Tractatus
